import Mathlib

/-!
Verification development for the SlowQuant unitary-coupled-cluster core:
the reduced-density-matrix (RDM) element oracle and gradient evaluators
(`slowquant/unitary_coupled_cluster/density_matrix.py`) and the
determinant-basis operator/state propagation engine
(`slowquant/unitary_coupled_cluster/operator_state_algebra.py`).

Machine floats are idealised as exact arithmetic in a linear ordered field
(instantiated at `ℚ` for executable witnesses and at `ℝ` where `sin`, `cos`,
`sqrt` or the matrix exponential are involved).  Python exceptions are
modelled with `Except`.  External collaborator modules that are not part of
the sources (the fermionic-operator value object, the excitation generators
`G1`, `G2`, ..., and the CI-space bundle) are modelled from the spec; each
such definition carries a doc comment saying so.
-/

namespace SlowQuant

open scoped Matrix

/-! ## Density-matrix module: RDM element oracle -/

/-- `RDM1` from `density_matrix.py`: full-space one-electron reduced density
matrix element, case split over the inactive/active/virtual block of the two
spatial orbital indices.  `rdm1` is the active-space 1-RDM. -/
def RDM1 {K : Type*} [LinearOrderedField K] (p q num_inactive_orbs num_active_orbs : ℕ)
    (rdm1 : ℕ → ℕ → K) : K :=
  if p ≥ num_inactive_orbs + num_active_orbs ∨ q ≥ num_inactive_orbs + num_active_orbs then
    0
  else if p ≥ num_inactive_orbs ∧ q ≥ num_inactive_orbs then
    rdm1 (p - num_inactive_orbs) (q - num_inactive_orbs)
  else if p < num_inactive_orbs ∧ q < num_inactive_orbs then
    if p = q then 2 else 0
  else
    0

/-- `RDM2` from `density_matrix.py`: full-space two-electron reduced density
matrix element, case split over the inactive/active/virtual block pattern of
the four spatial orbital indices.  `rdm1` and `rdm2` are the active-space
1- and 2-RDMs. -/
def RDM2 {K : Type*} [LinearOrderedField K] (p q r s num_inactive_orbs num_active_orbs : ℕ)
    (rdm1 : ℕ → ℕ → K) (rdm2 : ℕ → ℕ → ℕ → ℕ → K) : K :=
  if p ≥ num_inactive_orbs + num_active_orbs ∨ q ≥ num_inactive_orbs + num_active_orbs ∨
      r ≥ num_inactive_orbs + num_active_orbs ∨ s ≥ num_inactive_orbs + num_active_orbs then
    -- Zero if any virtual index
    0
  else if p ≥ num_inactive_orbs ∧ q ≥ num_inactive_orbs ∧ r ≥ num_inactive_orbs ∧
      s ≥ num_inactive_orbs then
    rdm2 (p - num_inactive_orbs) (q - num_inactive_orbs) (r - num_inactive_orbs)
      (s - num_inactive_orbs)
  else if p < num_inactive_orbs ∧ q ≥ num_inactive_orbs ∧ r ≥ num_inactive_orbs ∧
      s < num_inactive_orbs then
    -- iuvj type index
    if p = s then -rdm1 (q - num_inactive_orbs) (r - num_inactive_orbs) else 0
  else if p ≥ num_inactive_orbs ∧ q < num_inactive_orbs ∧ r < num_inactive_orbs ∧
      s ≥ num_inactive_orbs then
    -- uijv type index
    if q = r then -rdm1 (p - num_inactive_orbs) (s - num_inactive_orbs) else 0
  else if p ≥ num_inactive_orbs ∧ q ≥ num_inactive_orbs ∧ r < num_inactive_orbs ∧
      s < num_inactive_orbs then
    -- uvij type index
    if r = s then 2 * rdm1 (p - num_inactive_orbs) (q - num_inactive_orbs) else 0
  else if p < num_inactive_orbs ∧ q < num_inactive_orbs ∧ r ≥ num_inactive_orbs ∧
      s ≥ num_inactive_orbs then
    -- ijuv type index
    if p = q then 2 * rdm1 (r - num_inactive_orbs) (s - num_inactive_orbs) else 0
  else if p < num_inactive_orbs ∧ q < num_inactive_orbs ∧ r < num_inactive_orbs ∧
      s < num_inactive_orbs then
    -- All inactive index
    (if p = q ∧ r = s then (4 : K) else 0) + (if q = r ∧ p = s then (-2 : K) else 0)
  else
    -- Everything else
    0

/-- The classification of a spatial orbital index as inactive (below
`num_inactive_orbs`), active, or virtual (at or above
`num_inactive_orbs + num_active_orbs`); used only to phrase theorems about
the block structure of `RDM1` / `RDM2`. -/
def isActive (num_inactive_orbs num_active_orbs idx : ℕ) : Prop :=
  num_inactive_orbs ≤ idx ∧ idx < num_inactive_orbs + num_active_orbs

instance (ni na idx : ℕ) : Decidable (isActive ni na idx) := by
  unfold isActive; infer_instance

/-- C1: the 2-RDM oracle `RDM2` is branch-exact: any virtual index gives 0;
all-active gives the active-tensor entry; all-inactive gives
`4·δ_pq·δ_rs − 2·δ_qr·δ_ps`; the four mixed inactive/active patterns give the
documented signed/scaled 1-RDM lookups; every other index-block combination
gives exactly 0. -/
theorem rdm2_full_space_block_cases {K : Type*} [LinearOrderedField K]
    (ni na : ℕ) (rdm1 : ℕ → ℕ → K) (rdm2 : ℕ → ℕ → ℕ → ℕ → K) (p q r s : ℕ) :
    (p ≥ ni + na ∨ q ≥ ni + na ∨ r ≥ ni + na ∨ s ≥ ni + na →
      RDM2 p q r s ni na rdm1 rdm2 = 0) ∧
    (p < ni + na → q < ni + na → r < ni + na → s < ni + na →
      ni ≤ p → ni ≤ q → ni ≤ r → ni ≤ s →
      RDM2 p q r s ni na rdm1 rdm2 = rdm2 (p - ni) (q - ni) (r - ni) (s - ni)) ∧
    (p < ni → q < ni → r < ni → s < ni →
      RDM2 p q r s ni na rdm1 rdm2 =
        (if p = q ∧ r = s then (4 : K) else 0) + (if q = r ∧ p = s then (-2 : K) else 0)) ∧
    (na ≠ 0 → ni ≤ p → p < ni + na → ni ≤ q → q < ni + na → r < ni → s < ni →
      RDM2 p q r s ni na rdm1 rdm2 =
        if r = s then 2 * rdm1 (p - ni) (q - ni) else 0) ∧
    (p < ni → q < ni → ni ≤ r → r < ni + na → ni ≤ s → s < ni + na →
      RDM2 p q r s ni na rdm1 rdm2 =
        if p = q then 2 * rdm1 (r - ni) (s - ni) else 0) ∧
    (p < ni → ni ≤ q → q < ni + na → ni ≤ r → r < ni + na → s < ni →
      RDM2 p q r s ni na rdm1 rdm2 =
        if p = s then -rdm1 (q - ni) (r - ni) else 0) ∧
    (ni ≤ p → p < ni + na → q < ni → r < ni → ni ≤ s → s < ni + na →
      RDM2 p q r s ni na rdm1 rdm2 =
        if q = r then -rdm1 (p - ni) (s - ni) else 0) ∧
    (p < ni + na → q < ni + na → r < ni + na → s < ni + na →
      ¬(ni ≤ p ∧ ni ≤ q ∧ ni ≤ r ∧ ni ≤ s) →
      ¬(p < ni ∧ ni ≤ q ∧ ni ≤ r ∧ s < ni) →
      ¬(ni ≤ p ∧ q < ni ∧ r < ni ∧ ni ≤ s) →
      ¬(ni ≤ p ∧ ni ≤ q ∧ r < ni ∧ s < ni) →
      ¬(p < ni ∧ q < ni ∧ ni ≤ r ∧ ni ≤ s) →
      ¬(p < ni ∧ q < ni ∧ r < ni ∧ s < ni) →
      RDM2 p q r s ni na rdm1 rdm2 = 0) := by
  refine ⟨?_, ?_, ?_, ?_, ?_, ?_, ?_, ?_⟩ <;> intros <;> unfold RDM2
  · rw [if_pos (by omega)]
  · rw [if_neg (by omega), if_pos (by omega)]
  · rw [if_neg (by omega), if_neg (by omega), if_neg (by omega), if_neg (by omega),
      if_neg (by omega), if_neg (by omega), if_pos (by omega)]
  · rw [if_neg (by omega), if_neg (by omega), if_neg (by omega), if_neg (by omega),
      if_pos (by omega)]
  · rw [if_neg (by omega), if_neg (by omega), if_neg (by omega), if_neg (by omega),
      if_neg (by omega), if_pos (by omega)]
  · rw [if_neg (by omega), if_neg (by omega), if_pos (by omega)]
  · rw [if_neg (by omega), if_neg (by omega), if_neg (by omega), if_pos (by omega)]
  · rw [if_neg (by omega), if_neg (by omega), if_neg (by omega), if_neg (by omega),
      if_neg (by omega), if_neg (by omega), if_neg (by omega)]

/-- Concrete active-space 1-RDM used by witnesses of the RDM theorems. -/
def rdm1w : ℕ → ℕ → ℚ := fun i j => 1 + i + 10 * j

/-- Concrete active-space 2-RDM used by witnesses of the RDM theorems. -/
def rdm2w : ℕ → ℕ → ℕ → ℕ → ℚ := fun a b c d => 1 + a + 2 * b + 4 * c + 8 * d

/-- Witness for C1 at `num_inactive_orbs = 1`, `num_active_orbs = 1`: index 0
is inactive, 1 active, 2 virtual; all eight branch cases evaluated. -/
theorem rdm2_full_space_block_cases_witness :
    RDM2 2 0 0 0 1 1 rdm1w rdm2w = 0 ∧
    RDM2 1 1 1 1 1 1 rdm1w rdm2w = rdm2w 0 0 0 0 ∧
    RDM2 0 0 0 0 1 1 rdm1w rdm2w = 2 ∧
    RDM2 1 1 0 0 1 1 rdm1w rdm2w = 2 * rdm1w 0 0 ∧
    RDM2 0 0 1 1 1 1 rdm1w rdm2w = 2 * rdm1w 0 0 ∧
    RDM2 0 1 1 0 1 1 rdm1w rdm2w = -rdm1w 0 0 ∧
    RDM2 1 0 0 1 1 1 rdm1w rdm2w = -rdm1w 0 0 ∧
    RDM2 0 1 0 1 1 1 rdm1w rdm2w = 0 := by
  have h1 := rdm2_full_space_block_cases (K := ℚ) 1 1 rdm1w rdm2w 2 0 0 0
  have h2 := rdm2_full_space_block_cases (K := ℚ) 1 1 rdm1w rdm2w 1 1 1 1
  have h3 := rdm2_full_space_block_cases (K := ℚ) 1 1 rdm1w rdm2w 0 0 0 0
  have h4 := rdm2_full_space_block_cases (K := ℚ) 1 1 rdm1w rdm2w 1 1 0 0
  have h5 := rdm2_full_space_block_cases (K := ℚ) 1 1 rdm1w rdm2w 0 0 1 1
  have h6 := rdm2_full_space_block_cases (K := ℚ) 1 1 rdm1w rdm2w 0 1 1 0
  have h7 := rdm2_full_space_block_cases (K := ℚ) 1 1 rdm1w rdm2w 1 0 0 1
  have h8 := rdm2_full_space_block_cases (K := ℚ) 1 1 rdm1w rdm2w 0 1 0 1
  refine ⟨h1.1 (by omega), h2.2.1 (by omega) (by omega) (by omega) (by omega)
      (by omega) (by omega) (by omega) (by omega), ?_,
    (h4.2.2.2.1 (by omega) (by omega) (by omega) (by omega) (by omega) (by omega)
      (by omega)).trans (by norm_num),
    (h5.2.2.2.2.1 (by omega) (by omega) (by omega) (by omega) (by omega)
      (by omega)).trans (by norm_num),
    (h6.2.2.2.2.2.1 (by omega) (by omega) (by omega) (by omega) (by omega)
      (by omega)).trans (by norm_num),
    (h7.2.2.2.2.2.2.1 (by omega) (by omega) (by omega) (by omega) (by omega)
      (by omega)).trans (by norm_num),
    h8.2.2.2.2.2.2.2 (by omega) (by omega) (by omega) (by omega) (by omega)
      (by omega) (by omega) (by omega) (by omega) (by omega)⟩
  have := h3.2.2.1 (by omega) (by omega) (by omega) (by omega)
  rw [this]; norm_num

/-- Swapping the electron-1 and electron-2 index pairs,
`Γ²_pqrs = Γ²_rspq`, given symmetry of the supplied active tensors. -/
lemma rdm2_swap_pairs {K : Type*} [LinearOrderedField K]
    (ni na : ℕ) (rdm1 : ℕ → ℕ → K) (rdm2 : ℕ → ℕ → ℕ → ℕ → K)
    (h1 : ∀ i j, rdm1 i j = rdm1 j i)
    (h2a : ∀ a b c d, rdm2 a b c d = rdm2 c d a b)
    (p q r s : ℕ) :
    RDM2 p q r s ni na rdm1 rdm2 = RDM2 r s p q ni na rdm1 rdm2 := by
  unfold RDM2
  by_cases hA : p ≥ ni + na ∨ q ≥ ni + na ∨ r ≥ ni + na ∨ s ≥ ni + na
  · rw [if_pos hA, if_pos (by omega)]
  by_cases hB : ni ≤ p ∧ ni ≤ q ∧ ni ≤ r ∧ ni ≤ s
  · conv_lhs => rw [if_neg hA, if_pos hB]
    conv_rhs => rw [if_neg (by omega), if_pos (by omega)]
    exact h2a _ _ _ _
  by_cases hC : p < ni ∧ ni ≤ q ∧ ni ≤ r ∧ s < ni
  · -- iuvj on the left pairs with uijv on the right
    conv_lhs => rw [if_neg hA, if_neg hB, if_pos hC]
    conv_rhs => rw [if_neg (by omega), if_neg (by omega), if_neg (by omega),
      if_pos (by omega)]
    by_cases hps : p = s
    · rw [if_pos hps, if_pos hps.symm, h1]
    · rw [if_neg hps, if_neg (Ne.symm hps)]
  by_cases hD : ni ≤ p ∧ q < ni ∧ r < ni ∧ ni ≤ s
  · -- uijv on the left pairs with iuvj on the right
    conv_lhs => rw [if_neg hA, if_neg hB, if_neg hC, if_pos hD]
    conv_rhs => rw [if_neg (by omega), if_neg (by omega), if_pos (by omega)]
    by_cases hqr : q = r
    · rw [if_pos hqr, if_pos hqr.symm, h1]
    · rw [if_neg hqr, if_neg (Ne.symm hqr)]
  by_cases hE : ni ≤ p ∧ ni ≤ q ∧ r < ni ∧ s < ni
  · -- uvij on the left pairs with ijuv on the right
    conv_lhs => rw [if_neg hA, if_neg hB, if_neg hC, if_neg hD, if_pos hE]
    conv_rhs => rw [if_neg (by omega), if_neg (by omega), if_neg (by omega),
      if_neg (by omega), if_neg (by omega), if_pos (by omega)]
  by_cases hF : p < ni ∧ q < ni ∧ ni ≤ r ∧ ni ≤ s
  · -- ijuv on the left pairs with uvij on the right
    conv_lhs => rw [if_neg hA, if_neg hB, if_neg hC, if_neg hD, if_neg hE, if_pos hF]
    conv_rhs => rw [if_neg (by omega), if_neg (by omega), if_neg (by omega),
      if_neg (by omega), if_pos (by omega)]
  by_cases hG : p < ni ∧ q < ni ∧ r < ni ∧ s < ni
  · conv_lhs => rw [if_neg hA, if_neg hB, if_neg hC, if_neg hD, if_neg hE,
      if_neg hF, if_pos hG]
    conv_rhs => rw [if_neg (by omega), if_neg (by omega), if_neg (by omega),
      if_neg (by omega), if_neg (by omega), if_neg (by omega), if_pos (by omega)]
    split_ifs <;> first | rfl | omega
  conv_lhs => rw [if_neg hA, if_neg hB, if_neg hC, if_neg hD, if_neg hE, if_neg hF,
    if_neg hG]
  conv_rhs => rw [if_neg (by omega), if_neg (by omega), if_neg (by omega),
    if_neg (by omega), if_neg (by omega), if_neg (by omega), if_neg (by omega)]

/-- Transposing within each index pair, `Γ²_pqrs = Γ²_qpsr`, given symmetry
of the supplied active tensors. -/
lemma rdm2_swap_within {K : Type*} [LinearOrderedField K]
    (ni na : ℕ) (rdm1 : ℕ → ℕ → K) (rdm2 : ℕ → ℕ → ℕ → ℕ → K)
    (h1 : ∀ i j, rdm1 i j = rdm1 j i)
    (h2b : ∀ a b c d, rdm2 a b c d = rdm2 b a d c)
    (p q r s : ℕ) :
    RDM2 p q r s ni na rdm1 rdm2 = RDM2 q p s r ni na rdm1 rdm2 := by
  unfold RDM2
  by_cases hA : p ≥ ni + na ∨ q ≥ ni + na ∨ r ≥ ni + na ∨ s ≥ ni + na
  · rw [if_pos hA, if_pos (by omega)]
  by_cases hB : ni ≤ p ∧ ni ≤ q ∧ ni ≤ r ∧ ni ≤ s
  · conv_lhs => rw [if_neg hA, if_pos hB]
    conv_rhs => rw [if_neg (by omega), if_pos (by omega)]
    exact h2b _ _ _ _
  by_cases hC : p < ni ∧ ni ≤ q ∧ ni ≤ r ∧ s < ni
  · -- iuvj on the left pairs with the transposed uijv pattern on the right
    conv_lhs => rw [if_neg hA, if_neg hB, if_pos hC]
    conv_rhs => rw [if_neg (by omega), if_neg (by omega), if_neg (by omega),
      if_pos (by omega)]
  by_cases hD : ni ≤ p ∧ q < ni ∧ r < ni ∧ ni ≤ s
  · -- uijv on the left pairs with the transposed iuvj pattern on the right
    conv_lhs => rw [if_neg hA, if_neg hB, if_neg hC, if_pos hD]
    conv_rhs => rw [if_neg (by omega), if_neg (by omega), if_pos (by omega)]
  by_cases hE : ni ≤ p ∧ ni ≤ q ∧ r < ni ∧ s < ni
  · -- uvij on both sides
    conv_lhs => rw [if_neg hA, if_neg hB, if_neg hC, if_neg hD, if_pos hE]
    conv_rhs => rw [if_neg (by omega), if_neg (by omega), if_neg (by omega),
      if_neg (by omega), if_pos (by omega)]
    by_cases hrs : r = s
    · rw [if_pos hrs, if_pos hrs.symm, h1]
    · rw [if_neg hrs, if_neg (Ne.symm hrs)]
  by_cases hF : p < ni ∧ q < ni ∧ ni ≤ r ∧ ni ≤ s
  · -- ijuv on both sides
    conv_lhs => rw [if_neg hA, if_neg hB, if_neg hC, if_neg hD, if_neg hE, if_pos hF]
    conv_rhs => rw [if_neg (by omega), if_neg (by omega), if_neg (by omega),
      if_neg (by omega), if_neg (by omega), if_pos (by omega)]
    by_cases hpq : p = q
    · rw [if_pos hpq, if_pos hpq.symm, h1]
    · rw [if_neg hpq, if_neg (Ne.symm hpq)]
  by_cases hG : p < ni ∧ q < ni ∧ r < ni ∧ s < ni
  · conv_lhs => rw [if_neg hA, if_neg hB, if_neg hC, if_neg hD, if_neg hE,
      if_neg hF, if_pos hG]
    conv_rhs => rw [if_neg (by omega), if_neg (by omega), if_neg (by omega),
      if_neg (by omega), if_neg (by omega), if_neg (by omega), if_pos (by omega)]
    split_ifs <;> first | rfl | omega
  conv_lhs => rw [if_neg hA, if_neg hB, if_neg hC, if_neg hD, if_neg hE, if_neg hF,
    if_neg hG]
  conv_rhs => rw [if_neg (by omega), if_neg (by omega), if_neg (by omega),
    if_neg (by omega), if_neg (by omega), if_neg (by omega), if_neg (by omega)]

/-- C5: assuming the supplied active-space `rdm1` is symmetric and the
supplied active-space `rdm2` satisfies the fourfold permutation symmetry,
the full-space oracle satisfies
`RDM2 p q r s = RDM2 r s p q = RDM2 q p s r = RDM2 s r q p`
for every orbital index quadruple. -/
theorem rdm2_fourfold_symmetry {K : Type*} [LinearOrderedField K]
    (ni na : ℕ) (rdm1 : ℕ → ℕ → K) (rdm2 : ℕ → ℕ → ℕ → ℕ → K)
    (h1 : ∀ i j, rdm1 i j = rdm1 j i)
    (h2a : ∀ a b c d, rdm2 a b c d = rdm2 c d a b)
    (h2b : ∀ a b c d, rdm2 a b c d = rdm2 b a d c)
    (p q r s : ℕ) :
    RDM2 p q r s ni na rdm1 rdm2 = RDM2 r s p q ni na rdm1 rdm2 ∧
    RDM2 p q r s ni na rdm1 rdm2 = RDM2 q p s r ni na rdm1 rdm2 ∧
    RDM2 p q r s ni na rdm1 rdm2 = RDM2 s r q p ni na rdm1 rdm2 :=
  ⟨rdm2_swap_pairs ni na rdm1 rdm2 h1 h2a p q r s,
   rdm2_swap_within ni na rdm1 rdm2 h1 h2b p q r s,
   (rdm2_swap_pairs ni na rdm1 rdm2 h1 h2a p q r s).trans
     (rdm2_swap_within ni na rdm1 rdm2 h1 h2b r s p q)⟩

/-- Symmetric concrete active-space 2-RDM used by the C5 witness. -/
def rdm2sym : ℕ → ℕ → ℕ → ℕ → ℚ :=
  fun a b c d => (1 + a + b) * (1 + c + d) + (1 + c + d) * (1 + a + b) + a * b * c * d

/-- Symmetric concrete active-space 1-RDM used by the C5 witness. -/
def rdm1sym : ℕ → ℕ → ℚ := fun i j => 1 + i + j

/-- Witness for C5 at a concrete quadruple spanning inactive and active
blocks with `num_inactive_orbs = 1`, `num_active_orbs = 2`. -/
theorem rdm2_fourfold_symmetry_witness :
    RDM2 0 2 1 0 1 2 rdm1sym rdm2sym = RDM2 1 0 0 2 1 2 rdm1sym rdm2sym ∧
    RDM2 0 2 1 0 1 2 rdm1sym rdm2sym = RDM2 2 0 0 1 1 2 rdm1sym rdm2sym ∧
    RDM2 0 2 1 0 1 2 rdm1sym rdm2sym = RDM2 0 1 2 0 1 2 rdm1sym rdm2sym :=
  rdm2_fourfold_symmetry 1 2 rdm1sym rdm2sym
    (fun i j => by unfold rdm1sym; push_cast; ring)
    (fun a b c d => by unfold rdm2sym; push_cast; ring)
    (fun a b c d => by unfold rdm2sym; push_cast; ring)
    0 2 1 0

/-! ## Density-matrix module: gradient and response evaluators -/

/-- `get_orbital_gradient` from `density_matrix.py`: for each kappa pair
`(m, n)` accumulate the 1-electron commutator contribution
`Σ_p (2·h_np·Γ¹_mp − 2·h_pm·Γ¹_pn)` and the four signed 2-electron
contraction terms over `p, q, r`. -/
def get_orbital_gradient {K : Type*} [LinearOrderedField K]
    (h_int : ℕ → ℕ → K) (g_int : ℕ → ℕ → ℕ → ℕ → K) (kappa_idx : List (ℕ × ℕ))
    (ni na : ℕ) (rdm1 : ℕ → ℕ → K) (rdm2 : ℕ → ℕ → ℕ → ℕ → K) : List K :=
  kappa_idx.map fun mn =>
    (∑ p ∈ Finset.range (ni + na),
      (2 * h_int mn.2 p * RDM1 mn.1 p ni na rdm1
        - 2 * h_int p mn.1 * RDM1 p mn.2 ni na rdm1)) +
    ∑ p ∈ Finset.range (ni + na), ∑ q ∈ Finset.range (ni + na),
      ∑ r ∈ Finset.range (ni + na),
        (g_int mn.2 p q r * RDM2 mn.1 p q r ni na rdm1 rdm2
          - g_int p mn.1 q r * RDM2 p mn.2 q r ni na rdm1 rdm2
          - g_int mn.1 p q r * RDM2 mn.2 p q r ni na rdm1 rdm2
          + g_int p mn.2 q r * RDM2 p mn.1 q r ni na rdm1 rdm2)

/-- The per-pair accumulation of `get_orbital_gradient_response` from
`density_matrix.py` (the loop body shared verbatim by its `(m, n)` block and
its swapped `(n, m)` block): the same contraction as `get_orbital_gradient`
but with 1-electron coefficient `1` (not `2`) and each 2-electron
coefficient `1/2`. -/
def orbital_gradient_response_term {K : Type*} [LinearOrderedField K]
    (h_int : ℕ → ℕ → K) (g_int : ℕ → ℕ → ℕ → ℕ → K)
    (ni na : ℕ) (rdm1 : ℕ → ℕ → K) (rdm2 : ℕ → ℕ → ℕ → ℕ → K) (m n : ℕ) : K :=
  (∑ p ∈ Finset.range (ni + na),
    (h_int n p * RDM1 m p ni na rdm1 - h_int p m * RDM1 p n ni na rdm1)) +
  ∑ p ∈ Finset.range (ni + na), ∑ q ∈ Finset.range (ni + na),
    ∑ r ∈ Finset.range (ni + na),
      (1 / 2 * g_int n p q r * RDM2 m p q r ni na rdm1 rdm2
        - 1 / 2 * g_int p m q r * RDM2 p n q r ni na rdm1 rdm2
        - 1 / 2 * g_int m p q r * RDM2 n p q r ni na rdm1 rdm2
        + 1 / 2 * g_int p n q r * RDM2 p m q r ni na rdm1 rdm2)

/-- The value `2^(-1/2)` used by the response routines of
`density_matrix.py` to scale their result. -/
noncomputable def invSqrt2 : ℝ := (Real.sqrt 2)⁻¹

/-- `get_orbital_gradient_response` from `density_matrix.py`: an `(m, n)`
block followed by an `(n, m)`-swapped block (the second loop unpacks each
kappa pair as `(n, m)`), the whole result scaled by `2^(-1/2)`. -/
noncomputable def get_orbital_gradient_response
    (h_int : ℕ → ℕ → ℝ) (g_int : ℕ → ℕ → ℕ → ℕ → ℝ) (kappa_idx : List (ℕ × ℕ))
    (ni na : ℕ) (rdm1 : ℕ → ℕ → ℝ) (rdm2 : ℕ → ℕ → ℕ → ℕ → ℝ) : List ℝ :=
  ((kappa_idx.map fun mn =>
      orbital_gradient_response_term h_int g_int ni na rdm1 rdm2 mn.1 mn.2) ++
    (kappa_idx.map fun nm =>
      orbital_gradient_response_term h_int g_int ni na rdm1 rdm2 nm.2 nm.1)).map
    fun x => invSqrt2 * x

/-- The response gradient as claim C6 describes it: structurally identical
to `get_orbital_gradient` with ONLY the 2-electron coefficients halved (the
1-electron contributions kept identical to `get_orbital_gradient`), stacked
`(m, n)` then `(n, m)`, scaled by `2^(-1/2)`.  This follows the claim's
words, for comparison against the source function. -/
noncomputable def get_orbital_gradient_response_claimed
    (h_int : ℕ → ℕ → ℝ) (g_int : ℕ → ℕ → ℕ → ℕ → ℝ) (kappa_idx : List (ℕ × ℕ))
    (ni na : ℕ) (rdm1 : ℕ → ℕ → ℝ) (rdm2 : ℕ → ℕ → ℕ → ℕ → ℝ) : List ℝ :=
  ((kappa_idx.map fun mn =>
      (∑ p ∈ Finset.range (ni + na),
        (2 * h_int mn.2 p * RDM1 mn.1 p ni na rdm1
          - 2 * h_int p mn.1 * RDM1 p mn.2 ni na rdm1)) +
      ∑ p ∈ Finset.range (ni + na), ∑ q ∈ Finset.range (ni + na),
        ∑ r ∈ Finset.range (ni + na),
          (1 / 2 * g_int mn.2 p q r * RDM2 mn.1 p q r ni na rdm1 rdm2
            - 1 / 2 * g_int p mn.1 q r * RDM2 p mn.2 q r ni na rdm1 rdm2
            - 1 / 2 * g_int mn.1 p q r * RDM2 mn.2 p q r ni na rdm1 rdm2
            + 1 / 2 * g_int p mn.2 q r * RDM2 p mn.1 q r ni na rdm1 rdm2)) ++
    (kappa_idx.map fun nm =>
      (∑ p ∈ Finset.range (ni + na),
        (2 * h_int nm.1 p * RDM1 nm.2 p ni na rdm1
          - 2 * h_int p nm.2 * RDM1 p nm.1 ni na rdm1)) +
      ∑ p ∈ Finset.range (ni + na), ∑ q ∈ Finset.range (ni + na),
        ∑ r ∈ Finset.range (ni + na),
          (1 / 2 * g_int nm.1 p q r * RDM2 nm.2 p q r ni na rdm1 rdm2
            - 1 / 2 * g_int p nm.2 q r * RDM2 p nm.1 q r ni na rdm1 rdm2
            - 1 / 2 * g_int nm.2 p q r * RDM2 nm.1 p q r ni na rdm1 rdm2
            + 1 / 2 * g_int p nm.1 q r * RDM2 p nm.2 q r ni na rdm1 rdm2))).map
    fun x => invSqrt2 * x

/-- `get_orbital_response_metric_sigma` from `density_matrix.py`: the Sigma
matrix over kappa-pair combinations, row pair unpacked as `(n, m)` and
column pair as `(p, q)`, entry
`-1/2·((if p = n then Γ¹_mq else 0) − (if m = q then Γ¹_pn else 0))`. -/
def get_orbital_response_metric_sigma {K : Type*} [LinearOrderedField K]
    (kappa_idx : List (ℕ × ℕ)) (ni na : ℕ) (rdm1 : ℕ → ℕ → K) :
    Matrix (Fin kappa_idx.length) (Fin kappa_idx.length) K :=
  Matrix.of fun idx1 idx2 =>
    -(1 / 2) *
      ((if (kappa_idx.get idx2).1 = (kappa_idx.get idx1).1 then
          RDM1 (kappa_idx.get idx1).2 (kappa_idx.get idx2).2 ni na rdm1
        else 0) -
        (if (kappa_idx.get idx1).2 = (kappa_idx.get idx2).2 then
          RDM1 (kappa_idx.get idx2).1 (kappa_idx.get idx1).1 ni na rdm1
        else 0))

/-- The full-space 1-RDM oracle inherits symmetry from the active tensor. -/
lemma rdm1_full_space_symm {K : Type*} [LinearOrderedField K]
    (ni na : ℕ) (rdm1 : ℕ → ℕ → K) (h1 : ∀ i j, rdm1 i j = rdm1 j i) (p q : ℕ) :
    RDM1 p q ni na rdm1 = RDM1 q p ni na rdm1 := by
  unfold RDM1
  split_ifs <;> first | rfl | omega | exact h1 _ _

/-- Concrete symmetric active-space 1-RDM refuting antisymmetry of the
Sigma matrix. -/
def rdm1C7 : ℕ → ℕ → ℚ := fun i j => if i = 0 ∧ j = 0 then 1 else 0

/-- C7 counterexample: with the single kappa pair `(0, 1)` over two active
orbitals and the symmetric 1-RDM `diag(1, 0)`, the diagonal Sigma entry is
`1/2`, so `Σ_(idx1,idx2) = -Σ_(idx2,idx1)` fails at `idx1 = idx2 = 0`. -/
theorem sigma_metric_antisymmetry_counterexample :
    ¬ (get_orbital_response_metric_sigma [(0, 1)] 0 2 rdm1C7 ⟨0, by decide⟩ ⟨0, by decide⟩ =
        -get_orbital_response_metric_sigma [(0, 1)] 0 2 rdm1C7 ⟨0, by decide⟩ ⟨0, by decide⟩) := by
  norm_num [get_orbital_response_metric_sigma, RDM1, rdm1C7, List.get]

/-- C7 (amended): with a symmetric active 1-RDM the Sigma matrix built by
`get_orbital_response_metric_sigma` is symmetric (not antisymmetric) under
swapping the bra/ket kappa-pair role:
`Σ_(idx1,idx2) = Σ_(idx2,idx1)`. -/
theorem sigma_metric_symmetric {K : Type*} [LinearOrderedField K]
    (kappa_idx : List (ℕ × ℕ)) (ni na : ℕ) (rdm1 : ℕ → ℕ → K)
    (h1 : ∀ i j, rdm1 i j = rdm1 j i)
    (idx1 idx2 : Fin kappa_idx.length) :
    get_orbital_response_metric_sigma kappa_idx ni na rdm1 idx1 idx2 =
      get_orbital_response_metric_sigma kappa_idx ni na rdm1 idx2 idx1 := by
  unfold get_orbital_response_metric_sigma
  simp only [Matrix.of_apply]
  split_ifs <;>
    first
      | rfl
      | omega
      | rw [rdm1_full_space_symm ni na rdm1 h1 (kappa_idx.get idx1).2 (kappa_idx.get idx2).2,
          rdm1_full_space_symm ni na rdm1 h1 (kappa_idx.get idx2).1 (kappa_idx.get idx1).1]
      | rw [rdm1_full_space_symm ni na rdm1 h1 (kappa_idx.get idx1).2 (kappa_idx.get idx2).2]
      | rw [rdm1_full_space_symm ni na rdm1 h1 (kappa_idx.get idx2).1 (kappa_idx.get idx1).1]

/-- Witness for the amended C7 at the kappa pairs `[(0, 1), (1, 0)]` and the
symmetric 1-RDM `rdm1sym`, evaluated at the off-diagonal position. -/
theorem sigma_metric_symmetric_witness :
    get_orbital_response_metric_sigma [(0, 1), (1, 0)] 0 2
        ((fun i j => rdm1sym i j) : ℕ → ℕ → ℚ) ⟨0, by decide⟩ ⟨1, by decide⟩ =
      get_orbital_response_metric_sigma [(0, 1), (1, 0)] 0 2
        ((fun i j => rdm1sym i j) : ℕ → ℕ → ℚ) ⟨1, by decide⟩ ⟨0, by decide⟩ :=
  sigma_metric_symmetric [(0, 1), (1, 0)] 0 2 _
    (fun i j => by unfold rdm1sym; ring) ⟨0, by decide⟩ ⟨1, by decide⟩

/-- Each response-gradient accumulation equals exactly half of the
corresponding `get_orbital_gradient` accumulation: the 1-electron
coefficient drops from `2` to `1` and the 2-electron coefficient from `1`
to `1/2`. -/
lemma orbital_gradient_response_term_eq_half {K : Type*} [LinearOrderedField K]
    (h_int : ℕ → ℕ → K) (g_int : ℕ → ℕ → ℕ → ℕ → K)
    (ni na : ℕ) (rdm1 : ℕ → ℕ → K) (rdm2 : ℕ → ℕ → ℕ → ℕ → K) (m n : ℕ) :
    orbital_gradient_response_term h_int g_int ni na rdm1 rdm2 m n =
      1 / 2 *
        ((∑ p ∈ Finset.range (ni + na),
          (2 * h_int n p * RDM1 m p ni na rdm1
            - 2 * h_int p m * RDM1 p n ni na rdm1)) +
        ∑ p ∈ Finset.range (ni + na), ∑ q ∈ Finset.range (ni + na),
          ∑ r ∈ Finset.range (ni + na),
            (g_int n p q r * RDM2 m p q r ni na rdm1 rdm2
              - g_int p m q r * RDM2 p n q r ni na rdm1 rdm2
              - g_int m p q r * RDM2 n p q r ni na rdm1 rdm2
              + g_int p n q r * RDM2 p m q r ni na rdm1 rdm2)) := by
  unfold orbital_gradient_response_term
  rw [mul_add]
  congr 1
  · rw [Finset.mul_sum]
    exact Finset.sum_congr rfl fun p _ => by ring
  · rw [Finset.mul_sum]
    refine Finset.sum_congr rfl fun p _ => ?_
    rw [Finset.mul_sum]
    refine Finset.sum_congr rfl fun q _ => ?_
    rw [Finset.mul_sum]
    exact Finset.sum_congr rfl fun r _ => by ring

/-- C6 (amended): `get_orbital_gradient_response` halves EVERY coefficient
relative to `get_orbital_gradient` — the 1-electron terms as well as the
2-electron terms — so its output is the stacked pair of half
orbital-gradients, the second block at swapped kappa pairs, all scaled by
`2^(-1/2)`. -/
theorem orbital_gradient_response_is_half_gradient_stack
    (h_int : ℕ → ℕ → ℝ) (g_int : ℕ → ℕ → ℕ → ℕ → ℝ) (kappa_idx : List (ℕ × ℕ))
    (ni na : ℕ) (rdm1 : ℕ → ℕ → ℝ) (rdm2 : ℕ → ℕ → ℕ → ℕ → ℝ) :
    get_orbital_gradient_response h_int g_int kappa_idx ni na rdm1 rdm2 =
      ((get_orbital_gradient h_int g_int kappa_idx ni na rdm1 rdm2).map
        fun x => invSqrt2 * (1 / 2 * x)) ++
      ((get_orbital_gradient h_int g_int (kappa_idx.map Prod.swap) ni na rdm1
          rdm2).map
        fun x => invSqrt2 * (1 / 2 * x)) := by
  unfold get_orbital_gradient_response get_orbital_gradient
  rw [List.map_append, List.map_map, List.map_map, List.map_map, List.map_map,
    List.map_map]
  congr 1
  · refine List.map_congr_left fun mn _ => ?_
    simp only [Function.comp_apply]
    rw [orbital_gradient_response_term_eq_half]
  · refine List.map_congr_left fun mn _ => ?_
    simp only [Function.comp_apply, Prod.fst_swap, Prod.snd_swap]
    rw [orbital_gradient_response_term_eq_half]

/-- Concrete one-electron integrals for the C6 counterexample. -/
def hC6 : ℕ → ℕ → ℝ := fun p q => if p = 1 ∧ q = 0 then 1 else 0

/-- Concrete (zero) two-electron integrals for the C6 counterexample. -/
def gC6 : ℕ → ℕ → ℕ → ℕ → ℝ := fun _ _ _ _ => 0

/-- Concrete symmetric active 1-RDM `diag(1, 0)` for the C6 counterexample. -/
def rdm1diag : ℕ → ℕ → ℝ := fun i j => if i = 0 ∧ j = 0 then 1 else 0

/-- Concrete (zero) active 2-RDM for the C6 counterexample. -/
def rdm2zero : ℕ → ℕ → ℕ → ℕ → ℝ := fun _ _ _ _ => 0

/-- `2^(-1/2)` is nonzero. -/
lemma invSqrt2_ne_zero : invSqrt2 ≠ 0 := by
  unfold invSqrt2
  exact inv_ne_zero (Real.sqrt_ne_zero'.mpr (by norm_num))

/-- C6 counterexample: with kappa pair `(0, 1)`, two active orbitals,
`h = E_(1,0)`, `g = 0`, `rdm1 = diag(1, 0)`: the code's first response entry
is `2^(-1/2)·1` (1-electron coefficient halved) while the claim's version
(1-electron contribution kept identical to `get_orbital_gradient`) gives
`2^(-1/2)·2`. -/
theorem orbital_gradient_response_claimed_counterexample :
    get_orbital_gradient_response hC6 gC6 [(0, 1)] 0 2 rdm1diag rdm2zero ≠
      get_orbital_gradient_response_claimed hC6 gC6 [(0, 1)] 0 2 rdm1diag
        rdm2zero := by
  unfold get_orbital_gradient_response get_orbital_gradient_response_claimed
    orbital_gradient_response_term
  intro heq
  simp only [List.map_cons, List.map_nil, List.map_append, List.append_nil,
    List.cons_append, List.nil_append, List.cons.injEq, and_true] at heq
  rcases heq with ⟨heq1, -⟩
  rw [Finset.sum_range_succ, Finset.sum_range_succ, Finset.sum_range_zero,
    Finset.sum_range_succ, Finset.sum_range_succ, Finset.sum_range_zero] at heq1
  norm_num [hC6, gC6, rdm1diag, rdm2zero, RDM1, RDM2, Finset.sum_range_succ] at heq1
  have h2 : invSqrt2 * 1 = invSqrt2 * 2 := by rw [mul_one]; exact heq1
  have h3 := mul_left_cancel₀ invSqrt2_ne_zero h2
  norm_num at h3


/-! ## Operator/state algebra: data model

The determinant-propagation engine of `operator_state_algebra.py`.  The
collaborator modules it imports (`ci_spaces.py`, `fermionic_operator.py`,
`operators.py`, `util.py`) are not part of the core sources and are modelled
from the spec. -/

/-- `bitcount` from `operator_state_algebra.py`: the number of ones in the
binary representation of `x` (the source runs Kernighan's clear-lowest-bit
loop; the count of set bits is expressed here as the sum of all binary
digits, every set bit of `x` having index below `x`). -/
def bitcount (x : ℕ) : ℕ :=
  ∑ i ∈ Finset.range x, (x >>> i) &&& 1

/-- Modelled from the spec: the determinant-subspace provider bundle
(`CI_Info` of `ci_spaces.py`, external to the core sources) — an ordered
determinant basis of size `n` with its inverse lookup and the orbital
partition counts. -/
structure CI_Info (n : ℕ) where
  idx2det : Fin n → ℕ
  det2idx : ℕ → Option (Fin n)
  num_inactive_orbs : ℕ
  num_active_orbs : ℕ
  num_virtual_orbs : ℕ
  space_extension_offset : ℕ

/-- Modelled from the spec: a fermionic operator as a mapping from ordered
tuples of (spin-orbital index, is-creation) pairs to scalar coefficients
(`fermionic_operator.py` is external to the core sources), kept as an
association list for deterministic iteration order. -/
structure FermionicOperator (K : Type*) where
  operators : List (List (ℕ × Bool) × K)

/-- Modelled from the spec: merge one fermionic string with coefficient into
an association list, adding coefficients of an existing identical string. -/
def addString {K : Type*} [LinearOrderedField K] :
    List (List (ℕ × Bool) × K) → List (ℕ × Bool) → K → List (List (ℕ × Bool) × K)
  | [], label, c => [(label, c)]
  | e :: rest, label, c =>
    if e.1 = label then (e.1, e.2 + c) :: rest else e :: addString rest label c

/-- Modelled from the spec: operator addition (string-wise coefficient
accumulation). -/
def FermionicOperator.add {K : Type*} [LinearOrderedField K]
    (A B : FermionicOperator K) : FermionicOperator K :=
  ⟨B.operators.foldl (fun acc lc => addString acc lc.1 lc.2) A.operators⟩

/-- Modelled from the spec: scalar multiplication of a fermionic operator. -/
def FermionicOperator.smulOp {K : Type*} [LinearOrderedField K]
    (c : K) (op : FermionicOperator K) : FermionicOperator K :=
  ⟨op.operators.map fun lc => (lc.1, c * lc.2)⟩

/-- Modelled from the spec: folding restricts an operator to the strings
acting entirely within the active-orbital block, dropping the rest
(`get_folded_operator` of `fermionic_operator.py`, external to the core
sources). -/
def FermionicOperator.get_folded_operator {K : Type*} [LinearOrderedField K]
    (op : FermionicOperator K) (ni na _nv : ℕ) : FermionicOperator K :=
  ⟨op.operators.filter fun lc =>
    lc.1.all fun t => decide (2 * ni ≤ t.1 ∧ t.1 < 2 * (ni + na))⟩

/-- The annihilation indices of one fermionic string, in authored order
(the source appends `fermi_op[0]` for entries with `fermi_op[1]` falsy). -/
def anni_of (label : List (ℕ × Bool)) : List ℕ :=
  (label.filter fun t => !t.2).map Prod.fst

/-- The creation indices of one fermionic string, in authored order. -/
def create_of (label : List (ℕ × Bool)) : List ℕ :=
  (label.filter fun t => t.2).map Prod.fst

/-- The parity-check table built by `build_operator_matrix` and
`propagate_state`: entry `j` holds the bitmask of the `j` highest bit
positions (the loop runs `i` from `2·N−1` down to `0`, accumulating
`2^i` into entry `2·N − i`); entry `0` stays zero. -/
def parity_check (num_active_orbs : ℕ) : ℕ → ℕ := fun j =>
  ∑ i ∈ Finset.Ico (2 * num_active_orbs - j) (2 * num_active_orbs), 2 ^ i

/-- The exception values of the propagation engine: a `KeyError` carrying
the out-of-subspace determinant, or a `ValueError`/`TypeError` message. -/
inductive PropError where
  | keyError (det : ℕ)
  | valueError (msg : String)
  deriving Repr, DecidableEq

/-- The screening threshold `10**-14` used for state amplitudes and ansatz
parameters. -/
def screening_threshold (K : Type*) [LinearOrderedField K] : K := 1 / 10 ^ 14

/-- The annihilation-operator loop of `apply_operator`: for each orbital
index, reaching a kill-state (`none`) if the orbital is unoccupied,
otherwise flipping its bit and accumulating the parity-mask popcount into
the phase. -/
def anni_loop (num_active_orbs : ℕ) (parity : ℕ → ℕ) :
    List ℕ → ℕ × ℕ → Option (ℕ × ℕ)
  | [], dp => some dp
  | orb :: rest, dp =>
    if (dp.1 >>> (2 * num_active_orbs - 1 - orb)) &&& 1 = 0 then
      none
    else
      let det := dp.1 ^^^ (1 <<< (2 * num_active_orbs - 1 - orb))
      anni_loop num_active_orbs parity rest (det, dp.2 + bitcount (det &&& parity orb))

/-- The creation-operator loop of `apply_operator`: kill-state if the
orbital is already occupied, otherwise flip and accumulate the phase. -/
def create_loop (num_active_orbs : ℕ) (parity : ℕ → ℕ) :
    List ℕ → ℕ × ℕ → Option (ℕ × ℕ)
  | [], dp => some dp
  | orb :: rest, dp =>
    if (dp.1 >>> (2 * num_active_orbs - 1 - orb)) &&& 1 = 1 then
      none
    else
      let det := dp.1 ^^^ (1 <<< (2 * num_active_orbs - 1 - orb))
      create_loop num_active_orbs parity rest (det, dp.2 + bitcount (det &&& parity orb))

/-- The per-determinant body of `apply_operator`: apply the (already
reversed) annihilation string, then the (already reversed) creation string,
returning `none` on a kill-state and otherwise the new determinant with its
accumulated phase count. -/
def apply_string (num_active_orbs : ℕ) (parity : ℕ → ℕ)
    (anni_rev create_rev : List ℕ) (det : ℕ) : Option (ℕ × ℕ) :=
  (anni_loop num_active_orbs parity anni_rev (det, 0)).bind
    (create_loop num_active_orbs parity create_rev)

/-- The determinant loop of `apply_operator` over the remaining basis
indices: skip amplitudes below `10**-14`, skip kill-states, accumulate
`factor·(−1)^phase·amplitude` at the target index, silently skip
out-of-subspace targets when `unsafe_mode` and raise `KeyError` naming the
determinant otherwise. -/
def apply_operator_go {n : ℕ} {K : Type*} [LinearOrderedField K]
    (state : Fin n → K) (anni_rev create_rev : List ℕ) (num_active_orbs : ℕ)
    (parity : ℕ → ℕ) (idx2det : Fin n → ℕ) (det2idx : ℕ → Option (Fin n))
    (unsafe_mode : Bool) (factor : K) :
    List (Fin n) → (Fin n → K) → Except PropError (Fin n → K)
  | [], tmp => .ok tmp
  | i :: rest, tmp =>
    if |state i| < screening_threshold K then
      apply_operator_go state anni_rev create_rev num_active_orbs parity idx2det
        det2idx unsafe_mode factor rest tmp
    else
      match apply_string num_active_orbs parity anni_rev create_rev (idx2det i) with
      | none =>
        apply_operator_go state anni_rev create_rev num_active_orbs parity idx2det
          det2idx unsafe_mode factor rest tmp
      | some dp =>
        match det2idx dp.1 with
        | some j =>
          apply_operator_go state anni_rev create_rev num_active_orbs parity idx2det
            det2idx unsafe_mode factor rest
            (tmp + Pi.single j (factor * (-1) ^ dp.2 * state i))
        | none =>
          if unsafe_mode then
            apply_operator_go state anni_rev create_rev num_active_orbs parity
              idx2det det2idx unsafe_mode factor rest tmp
          else
            .error (.keyError dp.1)

/-- `apply_operator` from `operator_state_algebra.py`: apply one
annihilation/creation string (reversed on entry) to a state for a
single-state wave function, accumulating into `tmp_state`. -/
def apply_operator {n : ℕ} {K : Type*} [LinearOrderedField K]
    (state : Fin n → K) (anni_idxs create_idxs : List ℕ) (num_active_orbs : ℕ)
    (parity : ℕ → ℕ) (idx2det : Fin n → ℕ) (det2idx : ℕ → Option (Fin n))
    (unsafe_mode : Bool) (tmp_state : Fin n → K) (factor : K) :
    Except PropError (Fin n → K) :=
  apply_operator_go state anni_idxs.reverse create_idxs.reverse num_active_orbs
    parity idx2det det2idx unsafe_mode factor (List.finRange n) tmp_state

/-- The determinant loop of `add_operator_matrix`: like `apply_operator`
but writing `factor·(−1)^phase` into the dense matrix entry
(target, source) with no amplitude screening. -/
def add_operator_matrix_go {n : ℕ} {K : Type*} [LinearOrderedField K]
    (anni_rev create_rev : List ℕ) (num_active_orbs : ℕ) (parity : ℕ → ℕ)
    (idx2det : Fin n → ℕ) (det2idx : ℕ → Option (Fin n)) (unsafe_mode : Bool)
    (factor : K) :
    List (Fin n) → Matrix (Fin n) (Fin n) K → Except PropError (Matrix (Fin n) (Fin n) K)
  | [], op_mat => .ok op_mat
  | i :: rest, op_mat =>
    match apply_string num_active_orbs parity anni_rev create_rev (idx2det i) with
    | none =>
      add_operator_matrix_go anni_rev create_rev num_active_orbs parity idx2det
        det2idx unsafe_mode factor rest op_mat
    | some dp =>
      match det2idx dp.1 with
      | some j =>
        add_operator_matrix_go anni_rev create_rev num_active_orbs parity idx2det
          det2idx unsafe_mode factor rest
          (op_mat + Matrix.stdBasisMatrix j i (factor * (-1) ^ dp.2))
      | none =>
        if unsafe_mode then
          add_operator_matrix_go anni_rev create_rev num_active_orbs parity
            idx2det det2idx unsafe_mode factor rest op_mat
        else
          .error (.keyError dp.1)

/-- `add_operator_matrix` from `operator_state_algebra.py`: accumulate the
matrix representation of one annihilation/creation string over the
determinant basis. -/
def add_operator_matrix {n : ℕ} {K : Type*} [LinearOrderedField K]
    (op_mat : Matrix (Fin n) (Fin n) K) (anni_idxs create_idxs : List ℕ)
    (num_active_orbs : ℕ) (parity : ℕ → ℕ) (idx2det : Fin n → ℕ)
    (det2idx : ℕ → Option (Fin n)) (unsafe_mode : Bool) (factor : K) :
    Except PropError (Matrix (Fin n) (Fin n) K) :=
  add_operator_matrix_go anni_idxs.reverse create_idxs.reverse num_active_orbs
    parity idx2det det2idx unsafe_mode factor (List.finRange n) op_mat

/-- The string loop of `build_operator_matrix`: separate every string of
the operator sum into annihilation/creation index lists and accumulate its
matrix contribution. -/
def build_operator_matrix_go {n : ℕ} {K : Type*} [LinearOrderedField K]
    (num_active_orbs : ℕ) (parity : ℕ → ℕ) (idx2det : Fin n → ℕ)
    (det2idx : ℕ → Option (Fin n)) (unsafe_mode : Bool) :
    List (List (ℕ × Bool) × K) → Matrix (Fin n) (Fin n) K →
      Except PropError (Matrix (Fin n) (Fin n) K)
  | [], op_mat => .ok op_mat
  | lc :: rest, op_mat =>
    match add_operator_matrix op_mat (anni_of lc.1) (create_of lc.1)
        num_active_orbs parity idx2det det2idx unsafe_mode lc.2 with
    | .error e => .error e
    | .ok op_mat' =>
      build_operator_matrix_go num_active_orbs parity idx2det det2idx unsafe_mode
        rest op_mat'

/-- `build_operator_matrix` from `operator_state_algebra.py`: the dense
matrix representation of a fermionic operator sum over the determinant
basis of `ci_info`, starting from the zero matrix and the freshly built
parity-check table. -/
def build_operator_matrix {n : ℕ} {K : Type*} [LinearOrderedField K]
    (op : FermionicOperator K) (ci_info : CI_Info n) (unsafe_mode : Bool) :
    Except PropError (Matrix (Fin n) (Fin n) K) :=
  build_operator_matrix_go ci_info.num_active_orbs
    (parity_check ci_info.num_active_orbs) ci_info.idx2det ci_info.det2idx
    unsafe_mode op.operators 0

/-- The string loop of the fermionic-operator branch of `propagate_state`:
`tmp_state` starts at zero and every string of the (possibly folded)
operator is applied to the incoming state. -/
def apply_fermionic_go {n : ℕ} {K : Type*} [LinearOrderedField K]
    (state : Fin n → K) (num_active_orbs : ℕ) (parity : ℕ → ℕ)
    (idx2det : Fin n → ℕ) (det2idx : ℕ → Option (Fin n)) (unsafe_mode : Bool) :
    List (List (ℕ × Bool) × K) → (Fin n → K) → Except PropError (Fin n → K)
  | [], tmp => .ok tmp
  | lc :: rest, tmp =>
    match apply_operator state (anni_of lc.1) (create_of lc.1) num_active_orbs
        parity idx2det det2idx unsafe_mode tmp lc.2 with
    | .error e => .error e
    | .ok tmp' =>
      apply_fermionic_go state num_active_orbs parity idx2det det2idx unsafe_mode
        rest tmp'

/-- One fermionic-operator step of `propagate_state`: fold the operator if
requested, zero `tmp_state`, apply every string, and return the
accumulated new state. -/
def apply_fermionic {n : ℕ} {K : Type*} [LinearOrderedField K]
    (op : FermionicOperator K) (state : Fin n → K) (ci_info : CI_Info n)
    (do_folding unsafe_mode : Bool) : Except PropError (Fin n → K) :=
  apply_fermionic_go state ci_info.num_active_orbs
    (parity_check ci_info.num_active_orbs) ci_info.idx2det ci_info.det2idx
    unsafe_mode
    (if do_folding then
        (op.get_folded_operator ci_info.num_inactive_orbs ci_info.num_active_orbs
          ci_info.num_virtual_orbs).operators
      else op.operators)
    0

/-- `propagate_state` restricted to a list of concrete fermionic operators
(no ansatz-unitary markers): the operators are processed in reverse order,
the rightmost acting first, exactly as the fermionic branch of
`propagate_state` does. -/
def propagate_state_fermi {n : ℕ} {K : Type*} [LinearOrderedField K]
    (ops : List (FermionicOperator K)) (state : Fin n → K) (ci_info : CI_Info n)
    (do_folding unsafe_mode : Bool) : Except PropError (Fin n → K) :=
  ops.reverse.foldlM
    (fun s op => apply_fermionic op s ci_info do_folding unsafe_mode) state

/-! ## Bit-level lemmas about the parity table -/

/-- Every summand of a parity-table entry is divisible by the power at the
lower end of its range. -/
lemma parity_check_dvd (na k : ℕ) : 2 ^ (2 * na - k) ∣ parity_check na k := by
  unfold parity_check
  refine Finset.dvd_sum fun i hi => pow_dvd_pow 2 ?_
  exact (Finset.mem_Ico.mp hi).1

/-- A number divisible by `2^t` has all bits below `t` clear. -/
lemma testBit_eq_false_of_dvd {x t j : ℕ} (hd : 2 ^ t ∣ x) (hj : j < t) :
    x.testBit j = false := by
  obtain ⟨c, rfl⟩ := hd
  rw [Nat.testBit_to_div_mod]
  have h2 : 2 ^ t * c = 2 ^ j * (2 * (2 ^ (t - j - 1) * c)) := by
    rw [← mul_assoc, ← mul_assoc, ← pow_succ, ← pow_add]
    congr 2
    omega
  rw [h2, Nat.mul_div_cancel_left _ (Nat.pos_pow_of_pos j (by norm_num)),
    Nat.mul_mod_right]
  simp

/-- The parity-table entry for orbital `k` has the bit at position
`2·na − 1 − k` (the bit the operator for orbital `k` flips) clear. -/
lemma parity_check_flip_bit_clear (na k : ℕ) (hk : k < 2 * na) :
    (parity_check na k).testBit (2 * na - 1 - k) = false :=
  testBit_eq_false_of_dvd (parity_check_dvd na k) (by omega)

/-- Flipping a bit that a mask does not cover leaves the masked value
unchanged. -/
lemma xor_and_of_testBit_eq_false {a m : ℕ} (p : ℕ) (hm : m.testBit p = false) :
    (a ^^^ 2 ^ p) &&& m = a &&& m := by
  refine Nat.eq_of_testBit_eq fun j => ?_
  rw [Nat.testBit_and, Nat.testBit_and, Nat.testBit_xor, Nat.testBit_two_pow]
  by_cases hj : p = j
  · subst hj
    rw [hm]
    simp
  · simp [hj]

/-- The occupancy test of the source, `(det >>> pos) &&& 1`, agrees with
`Nat.testBit`. -/
lemma shift_and_one_eq_testBit (det pos : ℕ) :
    ((det >>> pos) &&& 1 = 1) = (det.testBit pos = true) := by
  rw [Nat.and_one_is_mod, Nat.testBit_to_div_mod, Nat.shiftRight_eq_div_pow]
  simp

/-! ## Closed-form characterization of the determinant loops -/

/-- The contribution of source determinant `i` to the result of
`apply_operator`: zero when screened out, killed, or (silently) out of
subspace; otherwise `factor·(−1)^phase·amplitude` at the target index. -/
def string_contrib {n : ℕ} {K : Type*} [LinearOrderedField K]
    (state : Fin n → K) (anni_rev create_rev : List ℕ) (num_active_orbs : ℕ)
    (parity : ℕ → ℕ) (idx2det : Fin n → ℕ) (det2idx : ℕ → Option (Fin n))
    (factor : K) (i : Fin n) : Fin n → K :=
  if |state i| < screening_threshold K then 0
  else
    match apply_string num_active_orbs parity anni_rev create_rev (idx2det i) with
    | none => 0
    | some dp =>
      match det2idx dp.1 with
      | some j => Pi.single j (factor * (-1) ^ dp.2 * state i)
      | none => 0

/-- The matrix contribution of source determinant `i` in
`add_operator_matrix` (no amplitude screening). -/
def string_contrib_mat {n : ℕ} {K : Type*} [LinearOrderedField K]
    (anni_rev create_rev : List ℕ) (num_active_orbs : ℕ)
    (parity : ℕ → ℕ) (idx2det : Fin n → ℕ) (det2idx : ℕ → Option (Fin n))
    (factor : K) (i : Fin n) : Matrix (Fin n) (Fin n) K :=
  match apply_string num_active_orbs parity anni_rev create_rev (idx2det i) with
  | none => 0
  | some dp =>
    match det2idx dp.1 with
    | some j => Matrix.stdBasisMatrix j i (factor * (-1) ^ dp.2)
    | none => 0

/-- In unsafe mode the determinant loop of `apply_operator` never raises
and returns exactly the accumulated in-subspace contributions. -/
lemma apply_operator_go_unsafe_mode {n : ℕ} {K : Type*} [LinearOrderedField K]
    (state : Fin n → K) (anni_rev create_rev : List ℕ) (na : ℕ)
    (parity : ℕ → ℕ) (idx2det : Fin n → ℕ) (det2idx : ℕ → Option (Fin n))
    (factor : K) (L : List (Fin n)) (tmp : Fin n → K) :
    apply_operator_go state anni_rev create_rev na parity idx2det det2idx true
        factor L tmp =
      .ok (tmp + (L.map
        (string_contrib state anni_rev create_rev na parity idx2det det2idx
          factor)).sum) := by
  induction L generalizing tmp with
  | nil => simp [apply_operator_go]
  | cons i rest ih =>
    rw [apply_operator_go]
    by_cases hthr : |state i| < screening_threshold K
    · rw [if_pos hthr, ih, List.map_cons, List.sum_cons, string_contrib,
        if_pos hthr, zero_add]
    · rw [if_neg hthr]
      rcases hs : apply_string na parity anni_rev create_rev (idx2det i) with _ | dp
      · simp only [hs]
        rw [ih, List.map_cons, List.sum_cons, string_contrib, if_neg hthr]
        simp only [hs]
        rw [zero_add]
      · rcases hd : det2idx dp.1 with _ | j
        · simp only [hs, hd, if_true]
          rw [ih, List.map_cons, List.sum_cons, string_contrib, if_neg hthr]
          simp only [hs, hd]
          rw [zero_add]
        · simp only [hs, hd]
          rw [ih, List.map_cons, List.sum_cons, string_contrib, if_neg hthr]
          simp only [hs, hd]
          rw [add_assoc]

/-- In safe mode, an error from the determinant loop of `apply_operator` is
a `KeyError` naming an out-of-subspace determinant actually produced from a
surviving (unscreened, non-killed) source determinant of the loop. -/
lemma apply_operator_go_safe_error {n : ℕ} {K : Type*} [LinearOrderedField K]
    (state : Fin n → K) (anni_rev create_rev : List ℕ) (na : ℕ)
    (parity : ℕ → ℕ) (idx2det : Fin n → ℕ) (det2idx : ℕ → Option (Fin n))
    (factor : K) (L : List (Fin n)) (tmp : Fin n → K) (e : PropError)
    (h : apply_operator_go state anni_rev create_rev na parity idx2det det2idx
        false factor L tmp = .error e) :
    ∃ d ph i, e = .keyError d ∧ det2idx d = none ∧ i ∈ L ∧
      ¬(|state i| < screening_threshold K) ∧
      apply_string na parity anni_rev create_rev (idx2det i) = some (d, ph) := by
  induction L generalizing tmp with
  | nil => simp [apply_operator_go] at h
  | cons i rest ih =>
    rw [apply_operator_go] at h
    by_cases hthr : |state i| < screening_threshold K
    · rw [if_pos hthr] at h
      obtain ⟨d, ph, i', he, hd, hmem, h1, h2⟩ := ih tmp h
      exact ⟨d, ph, i', he, hd, List.mem_cons_of_mem _ hmem, h1, h2⟩
    · rw [if_neg hthr] at h
      rcases hs : apply_string na parity anni_rev create_rev (idx2det i) with _ | dp
      · simp only [hs] at h
        obtain ⟨d, ph, i', he, hd, hmem, h1, h2⟩ := ih tmp h
        exact ⟨d, ph, i', he, hd, List.mem_cons_of_mem _ hmem, h1, h2⟩
      · rcases hd : det2idx dp.1 with _ | j
        · simp only [hs, hd, Bool.false_eq_true, if_false, Except.error.injEq] at h
          exact ⟨dp.1, dp.2, i, h.symm ▸ rfl, hd, List.mem_cons_self i rest,
            hthr, by rw [hs]⟩
        · simp only [hs, hd] at h
          obtain ⟨d, ph, i', he, hd', hmem, h1, h2⟩ := ih _ h
          exact ⟨d, ph, i', he, hd', List.mem_cons_of_mem _ hmem, h1, h2⟩

/-- In safe mode, when the determinant loop of `apply_operator` returns
normally every surviving contribution found its target in the subspace and
the result is the full accumulated sum: nothing was silently truncated. -/
lemma apply_operator_go_safe_ok {n : ℕ} {K : Type*} [LinearOrderedField K]
    (state : Fin n → K) (anni_rev create_rev : List ℕ) (na : ℕ)
    (parity : ℕ → ℕ) (idx2det : Fin n → ℕ) (det2idx : ℕ → Option (Fin n))
    (factor : K) (L : List (Fin n)) (tmp : Fin n → K) (v : Fin n → K)
    (h : apply_operator_go state anni_rev create_rev na parity idx2det det2idx
        false factor L tmp = .ok v) :
    v = tmp + (L.map
        (string_contrib state anni_rev create_rev na parity idx2det det2idx
          factor)).sum ∧
      ∀ i ∈ L, ¬(|state i| < screening_threshold K) →
        ∀ dp, apply_string na parity anni_rev create_rev (idx2det i) = some dp →
          ∃ j, det2idx dp.1 = some j := by
  induction L generalizing tmp with
  | nil =>
    simp only [apply_operator_go, Except.ok.injEq] at h
    simp [← h]
  | cons i rest ih =>
    rw [apply_operator_go] at h
    by_cases hthr : |state i| < screening_threshold K
    · rw [if_pos hthr] at h
      obtain ⟨hv, hall⟩ := ih tmp h
      refine ⟨?_, ?_⟩
      · rw [hv, List.map_cons, List.sum_cons, string_contrib, if_pos hthr, zero_add]
      · intro i' hi' h1 dp h2
        rcases List.mem_cons.mp hi' with rfl | hmem
        · exact absurd hthr h1
        · exact hall i' hmem h1 dp h2
    · rw [if_neg hthr] at h
      rcases hs : apply_string na parity anni_rev create_rev (idx2det i) with _ | dp
      · simp only [hs] at h
        obtain ⟨hv, hall⟩ := ih tmp h
        refine ⟨?_, ?_⟩
        · rw [hv, List.map_cons, List.sum_cons, string_contrib, if_neg hthr]
          simp only [hs]
          rw [zero_add]
        · intro i' hi' h1 dp h2
          rcases List.mem_cons.mp hi' with rfl | hmem
          · rw [hs] at h2; cases h2
          · exact hall i' hmem h1 dp h2
      · rcases hd : det2idx dp.1 with _ | j
        · simp only [hs, hd, Bool.false_eq_true, if_false] at h
          cases h
        · simp only [hs, hd] at h
          obtain ⟨hv, hall⟩ := ih _ h
          refine ⟨?_, ?_⟩
          · rw [hv, List.map_cons, List.sum_cons, string_contrib, if_neg hthr]
            simp only [hs, hd]
            rw [add_assoc]
          · intro i' hi' h1 dp' h2
            rcases List.mem_cons.mp hi' with rfl | hmem
            · rw [hs] at h2
              cases h2
              exact ⟨j, hd⟩
            · exact hall i' hmem h1 dp' h2

/-- In safe mode, when every surviving contribution of the loop has its
target in the subspace, the determinant loop of `apply_operator` runs to
completion with the full accumulated sum. -/
lemma apply_operator_go_safe_total {n : ℕ} {K : Type*} [LinearOrderedField K]
    (state : Fin n → K) (anni_rev create_rev : List ℕ) (na : ℕ)
    (parity : ℕ → ℕ) (idx2det : Fin n → ℕ) (det2idx : ℕ → Option (Fin n))
    (factor : K) (L : List (Fin n)) (tmp : Fin n → K)
    (hcl : ∀ i ∈ L, ¬(|state i| < screening_threshold K) →
      ∀ dp, apply_string na parity anni_rev create_rev (idx2det i) = some dp →
        ∃ j, det2idx dp.1 = some j) :
    apply_operator_go state anni_rev create_rev na parity idx2det det2idx false
        factor L tmp =
      .ok (tmp + (L.map
        (string_contrib state anni_rev create_rev na parity idx2det det2idx
          factor)).sum) := by
  induction L generalizing tmp with
  | nil => simp [apply_operator_go]
  | cons i rest ih =>
    have ih' := fun tmp => ih tmp fun i' hi' => hcl i' (List.mem_cons_of_mem _ hi')
    rw [apply_operator_go]
    by_cases hthr : |state i| < screening_threshold K
    · rw [if_pos hthr, ih', List.map_cons, List.sum_cons, string_contrib,
        if_pos hthr, zero_add]
    · rw [if_neg hthr]
      rcases hs : apply_string na parity anni_rev create_rev (idx2det i) with _ | dp
      · simp only [hs]
        rw [ih', List.map_cons, List.sum_cons, string_contrib, if_neg hthr]
        simp only [hs]
        rw [zero_add]
      · obtain ⟨j, hd⟩ := hcl i (List.mem_cons_self i rest) hthr dp hs
        simp only [hs, hd]
        rw [ih', List.map_cons, List.sum_cons, string_contrib, if_neg hthr]
        simp only [hs, hd]
        rw [add_assoc]

/-- In unsafe mode the determinant loop of `add_operator_matrix` never
raises and accumulates exactly the in-subspace single-entry matrices. -/
lemma add_operator_matrix_go_unsafe_mode {n : ℕ} {K : Type*} [LinearOrderedField K]
    (anni_rev create_rev : List ℕ) (na : ℕ)
    (parity : ℕ → ℕ) (idx2det : Fin n → ℕ) (det2idx : ℕ → Option (Fin n))
    (factor : K) (L : List (Fin n)) (A : Matrix (Fin n) (Fin n) K) :
    add_operator_matrix_go anni_rev create_rev na parity idx2det det2idx true
        factor L A =
      .ok (A + (L.map
        (string_contrib_mat anni_rev create_rev na parity idx2det det2idx
          factor)).sum) := by
  induction L generalizing A with
  | nil => simp [add_operator_matrix_go]
  | cons i rest ih =>
    rw [add_operator_matrix_go]
    rcases hs : apply_string na parity anni_rev create_rev (idx2det i) with _ | dp
    · simp only [hs]
      rw [ih, List.map_cons, List.sum_cons, string_contrib_mat]
      simp only [hs]
      rw [zero_add]
    · rcases hd : det2idx dp.1 with _ | j
      · simp only [hs, hd, if_true]
        rw [ih, List.map_cons, List.sum_cons, string_contrib_mat]
        simp only [hs, hd]
        rw [zero_add]
      · simp only [hs, hd]
        rw [ih, List.map_cons, List.sum_cons, string_contrib_mat]
        simp only [hs, hd]
        rw [add_assoc]

/-- In safe mode, an error from the determinant loop of
`add_operator_matrix` is a `KeyError` naming an out-of-subspace determinant
actually produced from a source determinant of the loop. -/
lemma add_operator_matrix_go_safe_error {n : ℕ} {K : Type*} [LinearOrderedField K]
    (anni_rev create_rev : List ℕ) (na : ℕ)
    (parity : ℕ → ℕ) (idx2det : Fin n → ℕ) (det2idx : ℕ → Option (Fin n))
    (factor : K) (L : List (Fin n)) (A : Matrix (Fin n) (Fin n) K) (e : PropError)
    (h : add_operator_matrix_go anni_rev create_rev na parity idx2det det2idx
        false factor L A = .error e) :
    ∃ d ph i, e = .keyError d ∧ det2idx d = none ∧ i ∈ L ∧
      apply_string na parity anni_rev create_rev (idx2det i) = some (d, ph) := by
  induction L generalizing A with
  | nil => simp [add_operator_matrix_go] at h
  | cons i rest ih =>
    rw [add_operator_matrix_go] at h
    rcases hs : apply_string na parity anni_rev create_rev (idx2det i) with _ | dp
    · simp only [hs] at h
      obtain ⟨d, ph, i', he, hd, hmem, h2⟩ := ih A h
      exact ⟨d, ph, i', he, hd, List.mem_cons_of_mem _ hmem, h2⟩
    · rcases hd : det2idx dp.1 with _ | j
      · simp only [hs, hd, Bool.false_eq_true, if_false, Except.error.injEq] at h
        exact ⟨dp.1, dp.2, i, h.symm ▸ rfl, hd, List.mem_cons_self i rest,
          by rw [hs]⟩
      · simp only [hs, hd] at h
        obtain ⟨d, ph, i', he, hd', hmem, h2⟩ := ih _ h
        exact ⟨d, ph, i', he, hd', List.mem_cons_of_mem _ hmem, h2⟩

/-- In safe mode, when the determinant loop of `add_operator_matrix`
returns normally every produced determinant found its target in the
subspace and the result is the full accumulated matrix: nothing was
silently truncated. -/
lemma add_operator_matrix_go_safe_ok {n : ℕ} {K : Type*} [LinearOrderedField K]
    (anni_rev create_rev : List ℕ) (na : ℕ)
    (parity : ℕ → ℕ) (idx2det : Fin n → ℕ) (det2idx : ℕ → Option (Fin n))
    (factor : K) (L : List (Fin n)) (A B : Matrix (Fin n) (Fin n) K)
    (h : add_operator_matrix_go anni_rev create_rev na parity idx2det det2idx
        false factor L A = .ok B) :
    B = A + (L.map
        (string_contrib_mat anni_rev create_rev na parity idx2det det2idx
          factor)).sum ∧
      ∀ i ∈ L, ∀ dp, apply_string na parity anni_rev create_rev (idx2det i) =
          some dp → ∃ j, det2idx dp.1 = some j := by
  induction L generalizing A with
  | nil =>
    simp only [add_operator_matrix_go, Except.ok.injEq] at h
    simp [← h]
  | cons i rest ih =>
    rw [add_operator_matrix_go] at h
    rcases hs : apply_string na parity anni_rev create_rev (idx2det i) with _ | dp
    · simp only [hs] at h
      obtain ⟨hv, hall⟩ := ih A h
      refine ⟨?_, ?_⟩
      · rw [hv, List.map_cons, List.sum_cons, string_contrib_mat]
        simp only [hs]
        rw [zero_add]
      · intro i' hi' dp h2
        rcases List.mem_cons.mp hi' with rfl | hmem
        · rw [hs] at h2; cases h2
        · exact hall i' hmem dp h2
    · rcases hd : det2idx dp.1 with _ | j
      · simp only [hs, hd, Bool.false_eq_true, if_false] at h
        cases h
      · simp only [hs, hd] at h
        obtain ⟨hv, hall⟩ := ih _ h
        refine ⟨?_, ?_⟩
        · rw [hv, List.map_cons, List.sum_cons, string_contrib_mat]
          simp only [hs, hd]
          rw [add_assoc]
        · intro i' hi' dp' h2
          rcases List.mem_cons.mp hi' with rfl | hmem
          · rw [hs] at h2
            cases h2
            exact ⟨j, hd⟩
          · exact hall i' hmem dp' h2

/-- C2: the out-of-subspace contract of `apply_operator` and
`add_operator_matrix`.  With `unsafe_mode = true` a produced determinant
absent from `det2idx` is silently discarded (zero contribution, never an
error).  With `unsafe_mode = false` both functions return an unrecoverable
`KeyError` naming a violating determinant actually produced from a
surviving source determinant, and a normal return of either function
carries the complete, untruncated accumulation in which every surviving
contribution found its target in the subspace. -/
theorem out_of_subspace_contract {n : ℕ} {K : Type*} [LinearOrderedField K]
    (state : Fin n → K) (anni_idxs create_idxs : List ℕ) (na : ℕ)
    (parity : ℕ → ℕ) (idx2det : Fin n → ℕ) (det2idx : ℕ → Option (Fin n))
    (tmp : Fin n → K) (op_mat : Matrix (Fin n) (Fin n) K) (factor : K) :
    (apply_operator state anni_idxs create_idxs na parity idx2det det2idx true
        tmp factor =
      .ok (tmp + ((List.finRange n).map
        (string_contrib state anni_idxs.reverse create_idxs.reverse na parity
          idx2det det2idx factor)).sum)) ∧
    (∀ e, apply_operator state anni_idxs create_idxs na parity idx2det det2idx
        false tmp factor = .error e →
      ∃ d ph i, e = .keyError d ∧ det2idx d = none ∧
        ¬(|state i| < screening_threshold K) ∧
        apply_string na parity anni_idxs.reverse create_idxs.reverse
          (idx2det i) = some (d, ph)) ∧
    (∀ v, apply_operator state anni_idxs create_idxs na parity idx2det det2idx
        false tmp factor = .ok v →
      v = tmp + ((List.finRange n).map
        (string_contrib state anni_idxs.reverse create_idxs.reverse na parity
          idx2det det2idx factor)).sum ∧
      ∀ i : Fin n, ¬(|state i| < screening_threshold K) →
        ∀ dp, apply_string na parity anni_idxs.reverse create_idxs.reverse
            (idx2det i) = some dp →
          ∃ j, det2idx dp.1 = some j) ∧
    (add_operator_matrix op_mat anni_idxs create_idxs na parity idx2det det2idx
        true factor =
      .ok (op_mat + ((List.finRange n).map
        (string_contrib_mat anni_idxs.reverse create_idxs.reverse na parity
          idx2det det2idx factor)).sum)) ∧
    (∀ e, add_operator_matrix op_mat anni_idxs create_idxs na parity idx2det
        det2idx false factor = .error e →
      ∃ d ph i, e = .keyError d ∧ det2idx d = none ∧
        apply_string na parity anni_idxs.reverse create_idxs.reverse
          (idx2det i) = some (d, ph)) ∧
    (∀ A, add_operator_matrix op_mat anni_idxs create_idxs na parity idx2det
        det2idx false factor = .ok A →
      A = op_mat + ((List.finRange n).map
        (string_contrib_mat anni_idxs.reverse create_idxs.reverse na parity
          idx2det det2idx factor)).sum ∧
      ∀ i : Fin n, ∀ dp, apply_string na parity anni_idxs.reverse
          create_idxs.reverse (idx2det i) = some dp →
        ∃ j, det2idx dp.1 = some j) := by
  refine ⟨?_, ?_, ?_, ?_, ?_, ?_⟩
  · exact apply_operator_go_unsafe_mode state _ _ na parity idx2det det2idx factor _ tmp
  · intro e he
    obtain ⟨d, ph, i, h1, h2, _, h3, h4⟩ :=
      apply_operator_go_safe_error state _ _ na parity idx2det det2idx factor _
        tmp e he
    exact ⟨d, ph, i, h1, h2, h3, h4⟩
  · intro v hv
    obtain ⟨h1, h2⟩ := apply_operator_go_safe_ok state _ _ na parity idx2det
      det2idx factor _ tmp v hv
    exact ⟨h1, fun i => h2 i (List.mem_finRange i)⟩
  · exact add_operator_matrix_go_unsafe_mode _ _ na parity idx2det det2idx factor _
      op_mat
  · intro e he
    obtain ⟨d, ph, i, h1, h2, _, h3⟩ :=
      add_operator_matrix_go_safe_error _ _ na parity idx2det det2idx factor _
        op_mat e he
    exact ⟨d, ph, i, h1, h2, h3⟩
  · intro A hA
    obtain ⟨h1, h2⟩ := add_operator_matrix_go_safe_ok _ _ na parity idx2det
      det2idx factor _ op_mat A hA
    exact ⟨h1, fun i => h2 i (List.mem_finRange i)⟩

/-- Witness basis: a single determinant `0b10` (spin orbital 0 occupied)
in a one-determinant space over one active spatial orbital. -/
def idx2detW : Fin 1 → ℕ := fun _ => 2

/-- Witness determinant lookup: only `0b10` is in the subspace. -/
def det2idxW : ℕ → Option (Fin 1) := fun d => if d = 2 then some 0 else none

/-- Witness state: amplitude 1 on the single basis determinant. -/
def stateW : Fin 1 → ℚ := fun _ => 1

/-- The witness string `a†_1 a_0` maps determinant `0b10` to `0b01` with
phase 0; `0b01` is outside the witness subspace. -/
lemma apply_string_witness_eval :
    apply_string 1 (parity_check 1) [0] [1] 2 = some (1, 0) := by
  decide

/-- Witness for C2: on the one-determinant space the string `a†_1 a_0`
leaves the subspace; safe mode returns `KeyError 0b01` (so the theorem
yields the violating determinant with its surviving source), and unsafe
mode returns the untruncated accumulation.  For the in-subspace string
`a†_0 a_0` the safe-mode matrix builder returns normally, and the theorem
shows the returned matrix is the complete, untruncated accumulation with
every produced determinant in the subspace. -/
theorem out_of_subspace_contract_witness :
    (∃ d ph i, (PropError.keyError 1) = PropError.keyError d ∧
      det2idxW d = none ∧ ¬(|stateW i| < screening_threshold ℚ) ∧
      apply_string 1 (parity_check 1) (List.reverse [0]) (List.reverse [1])
        (idx2detW i) = some (d, ph)) ∧
    (apply_operator stateW [0] [1] 1 (parity_check 1) idx2detW det2idxW true
        0 1 =
      .ok (0 + ((List.finRange 1).map
        (string_contrib stateW (List.reverse [0]) (List.reverse [1]) 1
          (parity_check 1) idx2detW det2idxW 1)).sum)) ∧
    (add_operator_matrix (0 : Matrix (Fin 1) (Fin 1) ℚ) [0] [0] 1
        (parity_check 1) idx2detW det2idxW false 1 =
      .ok (0 + Matrix.stdBasisMatrix 0 0 (1 * (-1 : ℚ) ^ 0))) ∧
    ((0 + Matrix.stdBasisMatrix 0 0 (1 * (-1 : ℚ) ^ 0) :
        Matrix (Fin 1) (Fin 1) ℚ) =
      0 + ((List.finRange 1).map
        (string_contrib_mat (List.reverse [0]) (List.reverse [0]) 1
          (parity_check 1) idx2detW det2idxW 1)).sum ∧
      ∀ i : Fin 1, ∀ dp, apply_string 1 (parity_check 1) (List.reverse [0])
          (List.reverse [0]) (idx2detW i) = some dp →
        ∃ j, det2idxW dp.1 = some j) := by
  have h := out_of_subspace_contract (K := ℚ) stateW [0] [1] 1
    (parity_check 1) idx2detW det2idxW 0 0 1
  have hso : add_operator_matrix (0 : Matrix (Fin 1) (Fin 1) ℚ) [0] [0] 1
      (parity_check 1) idx2detW det2idxW false 1 =
      .ok (0 + Matrix.stdBasisMatrix 0 0 (1 * (-1 : ℚ) ^ 0)) := by
    rw [add_operator_matrix]
    show add_operator_matrix_go [0] [0] 1 (parity_check 1) idx2detW det2idxW
      false 1 (List.finRange 1) 0 = _
    simp only [List.finRange_succ_eq_map, List.finRange_zero, List.map_nil]
    rw [add_operator_matrix_go]
    simp only [show apply_string 1 (parity_check 1) [0] [0] (idx2detW 0) =
      some (2, 0) from by decide, show det2idxW 2 = some 0 from by decide]
    rw [add_operator_matrix_go]
  have h' := out_of_subspace_contract (K := ℚ) stateW [0] [0] 1
    (parity_check 1) idx2detW det2idxW 0 0 1
  refine ⟨h.2.1 (PropError.keyError 1) ?_, h.1, hso,
    h'.2.2.2.2.2 (0 + Matrix.stdBasisMatrix 0 0 (1 * (-1 : ℚ) ^ 0)) hso⟩
  rw [apply_operator]
  simp only [List.finRange_succ_eq_map, List.finRange_zero, List.map_nil,
    List.reverse_cons, List.reverse_nil, List.nil_append]
  rw [apply_operator_go, if_neg (by norm_num [stateW, screening_threshold])]
  have hs : apply_string 1 (parity_check 1) [0] [1] (idx2detW 0) = some (1, 0) := by
    rw [show idx2detW 0 = 2 from rfl]
    exact apply_string_witness_eval
  simp only [hs, show det2idxW 1 = none from rfl, Bool.false_eq_true, if_false]

/-! ## C9: annihilate-then-create on the same orbital -/

/-- C9 (amended): applying `apply_operator` with annihilation list `[k]`
then creation list `[k]` to a basis determinant in which spin orbital `k`
is occupied reproduces that determinant with coefficient `+1` times the
supplied factor (the two parity counts cancel, giving net sign `+1`);
a basis determinant in which `k` is unoccupied is a kill-state and
contributes nothing (the number-operator behaviour, not the identity). -/
theorem anni_then_create_same_orbital {n : ℕ} {K : Type*} [LinearOrderedField K]
    (na k : ℕ) (hk : k < 2 * na) (idx2det : Fin n → ℕ)
    (det2idx : ℕ → Option (Fin n)) (i0 : Fin n)
    (hinv : det2idx (idx2det i0) = some i0) (du : Bool) (factor : K) :
    ((idx2det i0 >>> (2 * na - 1 - k)) &&& 1 = 1 →
      apply_operator (Pi.single i0 (1 : K)) [k] [k] na (parity_check na)
          idx2det det2idx du 0 factor =
        .ok (Pi.single i0 factor)) ∧
    ((idx2det i0 >>> (2 * na - 1 - k)) &&& 1 = 0 →
      apply_operator (Pi.single i0 (1 : K)) [k] [k] na (parity_check na)
          idx2det det2idx du 0 factor =
        .ok 0) := by
  have hthr_pos : (0 : K) < screening_threshold K := by
    rw [screening_threshold]; positivity
  have hthr_le : screening_threshold K ≤ 1 := by
    rw [screening_threshold]
    rw [div_le_one (by positivity)]
    norm_num
  have hstate0 : ∀ i : Fin n, i ≠ i0 →
      |(Pi.single i0 (1 : K) : Fin n → K) i| < screening_threshold K := by
    intro i hi
    rw [Pi.single_eq_of_ne hi]
    simpa using hthr_pos
  have hstate1 :
      ¬(|(Pi.single i0 (1 : K) : Fin n → K) i0| < screening_threshold K) := by
    rw [Pi.single_eq_same, abs_one]
    exact not_lt.mpr hthr_le
  constructor
  · intro hocc
    have hmask : ((idx2det i0 ^^^ 1 <<< (2 * na - 1 - k)) &&& parity_check na k) =
        idx2det i0 &&& parity_check na k := by
      rw [Nat.one_shiftLeft]
      exact xor_and_of_testBit_eq_false _ (parity_check_flip_bit_clear na k hk)
    have hflip : ((idx2det i0 ^^^ 1 <<< (2 * na - 1 - k)) >>>
        (2 * na - 1 - k)) &&& 1 = 0 := by
      have h1 : (idx2det i0).testBit (2 * na - 1 - k) = true := by
        rw [Nat.testBit_to_div_mod]
        rw [Nat.and_one_is_mod, Nat.shiftRight_eq_div_pow] at hocc
        simpa using hocc
      have h2 : (idx2det i0 ^^^ 2 ^ (2 * na - 1 - k)).testBit
          (2 * na - 1 - k) = false := by
        rw [Nat.testBit_xor, h1, Nat.testBit_two_pow_self]
        rfl
      rw [Nat.one_shiftLeft, Nat.and_one_is_mod, Nat.shiftRight_eq_div_pow]
      rw [Nat.testBit_to_div_mod] at h2
      simp only [decide_eq_false_iff_not] at h2
      omega
    have hstring : apply_string na (parity_check na) [k] [k] (idx2det i0) =
        some (idx2det i0, 2 * bitcount (idx2det i0 &&& parity_check na k)) := by
      rw [apply_string]
      simp only [anni_loop]
      rw [if_neg (by omega)]
      simp only [Option.some_bind, create_loop]
      rw [if_neg (by omega)]
      rw [Nat.xor_assoc, Nat.xor_self, Nat.xor_zero, hmask]
      simp only [Option.some.injEq, Prod.mk.injEq]
      exact ⟨trivial, by omega⟩
    have hcontrib : ∀ i : Fin n,
        string_contrib (Pi.single i0 (1 : K)) [k] [k] na (parity_check na)
            idx2det det2idx factor i =
          if i = i0 then (Pi.single i0 factor : Fin n → K) else 0 := by
      intro i
      by_cases hi : i = i0
      · subst hi
        rw [string_contrib, if_neg hstate1, if_pos rfl]
        simp only [hstring, hinv]
        rw [Pi.single_eq_same, mul_one]
        congr 1
        rw [pow_mul]
        norm_num
      · rw [string_contrib, if_pos (hstate0 i hi), if_neg hi]
    have hsum : ((List.finRange n).map
        (string_contrib (Pi.single i0 (1 : K)) [k] [k] na (parity_check na)
          idx2det det2idx factor)).sum = (Pi.single i0 factor : Fin n → K) := by
      rw [← Fin.sum_univ_def]
      have hrw : (∑ i : Fin n,
          string_contrib (Pi.single i0 (1 : K)) [k] [k] na (parity_check na)
            idx2det det2idx factor i) =
          ∑ i : Fin n, if i = i0 then (Pi.single i0 factor : Fin n → K) else 0 :=
        Finset.sum_congr rfl fun i _ => hcontrib i
      rw [hrw, Finset.sum_ite_eq' Finset.univ i0
        fun _ => (Pi.single i0 factor : Fin n → K)]
      simp
    cases du
    · rw [apply_operator, List.reverse_cons, List.reverse_nil, List.nil_append]
      rw [apply_operator_go_safe_total]
      · rw [hsum, zero_add]
      · intro i _ hbig dp hdp
        have hi : i = i0 := by
          by_contra hne
          exact hbig (hstate0 i hne)
        subst hi
        rw [hstring] at hdp
        cases hdp
        exact ⟨_, hinv⟩
    · rw [apply_operator, List.reverse_cons, List.reverse_nil, List.nil_append]
      rw [apply_operator_go_unsafe_mode, hsum, zero_add]
  · intro hunocc
    have hstring : apply_string na (parity_check na) [k] [k] (idx2det i0) =
        none := by
      rw [apply_string]
      simp only [anni_loop]
      rw [if_pos hunocc, Option.none_bind]
    have hcontrib : ∀ i : Fin n,
        string_contrib (Pi.single i0 (1 : K)) [k] [k] na (parity_check na)
            idx2det det2idx factor i = 0 := by
      intro i
      by_cases hi : i = i0
      · subst hi
        rw [string_contrib, if_neg hstate1]
        simp only [hstring]
      · rw [string_contrib, if_pos (hstate0 i hi)]
    have hsum : ((List.finRange n).map
        (string_contrib (Pi.single i0 (1 : K)) [k] [k] na (parity_check na)
          idx2det det2idx factor)).sum = 0 := by
      rw [← Fin.sum_univ_def]
      exact Finset.sum_eq_zero fun i _ => hcontrib i
    cases du
    · rw [apply_operator, List.reverse_cons, List.reverse_nil, List.nil_append]
      rw [apply_operator_go_safe_total]
      · rw [hsum, add_zero]
      · intro i _ hbig dp hdp
        have hi : i = i0 := by
          by_contra hne
          exact hbig (hstate0 i hne)
        subst hi
        rw [hstring] at hdp
        cases hdp
    · rw [apply_operator, List.reverse_cons, List.reverse_nil, List.nil_append]
      rw [apply_operator_go_unsafe_mode, hsum, add_zero]

/-- Witness for the amended C9 on the one-determinant space `{0b10}` with
spin orbital 0 occupied: annihilate-then-create at orbital 0 reproduces the
basis state with coefficient `+1` times the factor `5`. -/
theorem anni_then_create_same_orbital_witness :
    apply_operator (Pi.single (0 : Fin 1) (1 : ℚ)) [0] [0] 1 (parity_check 1)
        idx2detW det2idxW false 0 5 = .ok (Pi.single 0 5) :=
  (anni_then_create_same_orbital 1 0 (by norm_num) idx2detW det2idxW 0
    (by decide) false 5).1 (by decide)

/-- Basis of the C9 counterexample: the single determinant `0b01`, in which
spin orbital 0 is unoccupied. -/
def idx2detU : Fin 1 → ℕ := fun _ => 1

/-- Determinant lookup of the C9 counterexample. -/
def det2idxU : ℕ → Option (Fin 1) := fun d => if d = 1 then some 0 else none

/-- C9 counterexample: `apply_operator` with annihilation list `[0]` and
creation list `[0]` does NOT map every basis determinant to itself with
coefficient `+1·factor`: on the determinant `0b01` (orbital 0 unoccupied)
the annihilation operator reaches a kill-state and the contribution is
zero, not the claimed `+factor` times the basis state. -/
theorem anni_then_create_identity_counterexample :
    apply_operator (Pi.single (0 : Fin 1) (1 : ℚ)) [0] [0] 1 (parity_check 1)
        idx2detU det2idxU false 0 1 = .ok 0 ∧
    (Except.ok 0 : Except PropError (Fin 1 → ℚ)) ≠
      .ok (Pi.single (0 : Fin 1) (1 : ℚ)) := by
  constructor
  · rw [apply_operator]
    simp only [List.finRange_succ_eq_map, List.finRange_zero, List.map_nil,
      List.reverse_cons, List.reverse_nil, List.nil_append]
    rw [apply_operator_go,
      if_neg (by norm_num [screening_threshold, Pi.single_eq_same])]
    have hs : apply_string 1 (parity_check 1) [0] [0] (idx2detU 0) = none := by
      decide
    simp only [hs]
    rfl
  · intro h
    simp only [Except.ok.injEq] at h
    have h0 := congrFun h 0
    rw [Pi.single_eq_same] at h0
    norm_num at h0

/-! ## Excitation generators and ansatz structures -/

/-- Modelled from the spec: the anti-Hermitian single-excitation generator
`G1 i a = a†_a a_i − a†_i a_a` over spin orbitals (`operators.py` is
external to the core sources); the Boolean mirrors the source's call
signature. -/
def G1 {K : Type*} [LinearOrderedField K] (i a : ℕ) (_flag : Bool) :
    FermionicOperator K :=
  ⟨[([(a, true), (i, false)], 1), ([(i, true), (a, false)], -1)]⟩

/-- Modelled from the spec: the anti-Hermitian double-excitation generator
`G2 i j a b = a†_a a†_b a_j a_i − a†_i a†_j a_b a_a` over spin orbitals. -/
def G2 {K : Type*} [LinearOrderedField K] (i j a b : ℕ) (_flag : Bool) :
    FermionicOperator K :=
  ⟨[([(a, true), (b, true), (j, false), (i, false)], 1),
    ([(i, true), (j, true), (b, false), (a, false)], -1)]⟩

/-- Modelled from the spec: the anti-Hermitian triple-excitation generator
over spin orbitals. -/
def G3 {K : Type*} [LinearOrderedField K] (i j k a b c : ℕ) (_flag : Bool) :
    FermionicOperator K :=
  ⟨[([(a, true), (b, true), (c, true), (k, false), (j, false), (i, false)], 1),
    ([(i, true), (j, true), (k, true), (c, false), (b, false), (a, false)], -1)]⟩

/-- Modelled from the spec: the anti-Hermitian quadruple-excitation
generator over spin orbitals. -/
def G4 {K : Type*} [LinearOrderedField K] (i j k l a b c d : ℕ) (_flag : Bool) :
    FermionicOperator K :=
  ⟨[([(a, true), (b, true), (c, true), (d, true),
      (l, false), (k, false), (j, false), (i, false)], 1),
    ([(i, true), (j, true), (k, true), (l, true),
      (d, false), (c, false), (b, false), (a, false)], -1)]⟩

/-- Modelled from the spec: the anti-Hermitian quintuple-excitation
generator over spin orbitals. -/
def G5 {K : Type*} [LinearOrderedField K] (i j k l m a b c d e : ℕ)
    (_flag : Bool) : FermionicOperator K :=
  ⟨[([(a, true), (b, true), (c, true), (d, true), (e, true),
      (m, false), (l, false), (k, false), (j, false), (i, false)], 1),
    ([(i, true), (j, true), (k, true), (l, true), (m, true),
      (e, false), (d, false), (c, false), (b, false), (a, false)], -1)]⟩

/-- Modelled from the spec: the anti-Hermitian sextuple-excitation
generator over spin orbitals. -/
def G6 {K : Type*} [LinearOrderedField K] (i j k l m o a b c d e f : ℕ)
    (_flag : Bool) : FermionicOperator K :=
  ⟨[([(a, true), (b, true), (c, true), (d, true), (e, true), (f, true),
      (o, false), (m, false), (l, false), (k, false), (j, false), (i, false)], 1),
    ([(i, true), (j, true), (k, true), (l, true), (m, true), (o, true),
      (f, false), (e, false), (d, false), (c, false), (b, false), (a, false)], -1)]⟩

/-- Modelled from the spec: the spin-adapted single-excitation generator
(alpha plus beta single excitations over spatial orbitals `i`, `a`); the
external normalisation constant is not part of the spec. -/
def G1_sa {K : Type*} [LinearOrderedField K] (i a : ℕ) (_flag : Bool) :
    FermionicOperator K :=
  (G1 (2 * i) (2 * a) true).add (G1 (2 * i + 1) (2 * a + 1) true)

/-- Modelled from the spec: the first spin-adapted double-excitation
generator over spatial orbitals. -/
def G2_1_sa {K : Type*} [LinearOrderedField K] (i j a b : ℕ) (_flag : Bool) :
    FermionicOperator K :=
  (G2 (2 * i) (2 * j + 1) (2 * a) (2 * b + 1) true).add
    (G2 (2 * i + 1) (2 * j) (2 * a + 1) (2 * b) true)

/-- Modelled from the spec: the second spin-adapted double-excitation
generator over spatial orbitals. -/
def G2_2_sa {K : Type*} [LinearOrderedField K] (i j a b : ℕ) (_flag : Bool) :
    FermionicOperator K :=
  (G2 (2 * i) (2 * j + 1) (2 * b) (2 * a + 1) true).add
    (G2 (2 * i + 1) (2 * j) (2 * b + 1) (2 * a) true)

/-- Modelled from the spec: the UPS ansatz structure — an ordered list of
excitation-type tags with their orbital-index tuples (`util.py` is external
to the core sources). -/
structure UpsStructure where
  excitation_operator_type : List String
  excitation_indices : List (List ℕ)

/-- Modelled from the spec: the UCC ansatz structure. -/
structure UccStructure where
  excitation_operator_type : List String
  excitation_indices : List (List ℕ)

/-- The per-step operator selection of `get_ucc_T`: dispatch on the
excitation-type tag (the if/elif chain of the source), unpack the orbital
index tuple (a `ValueError` when the arity does not fit, as for tuple
unpacking), and return `θ·G…`; an unknown tag raises `ValueError`. -/
def ucc_step_operator {K : Type*} [LinearOrderedField K] (offset : ℕ)
    (ty : String) (idxs : List ℕ) (θ : K) :
    Except PropError (FermionicOperator K) :=
  if ty = "sa_single" then
    if idxs.length = 2 then
      .ok (FermionicOperator.smulOp θ
        (G1_sa (idxs.getD 0 0 + offset) (idxs.getD 1 0 + offset) true))
    else .error (.valueError "could not unpack excitation indices")
  else if ty = "sa_double_1" then
    if idxs.length = 4 then
      .ok (FermionicOperator.smulOp θ
        (G2_1_sa (idxs.getD 0 0 + offset) (idxs.getD 1 0 + offset)
          (idxs.getD 2 0 + offset) (idxs.getD 3 0 + offset) true))
    else .error (.valueError "could not unpack excitation indices")
  else if ty = "sa_double_2" then
    if idxs.length = 4 then
      .ok (FermionicOperator.smulOp θ
        (G2_2_sa (idxs.getD 0 0 + offset) (idxs.getD 1 0 + offset)
          (idxs.getD 2 0 + offset) (idxs.getD 3 0 + offset) true))
    else .error (.valueError "could not unpack excitation indices")
  else if ty = "single" then
    if idxs.length = 2 then
      .ok (FermionicOperator.smulOp θ
        (G1 (idxs.getD 0 0 + 2 * offset) (idxs.getD 1 0 + 2 * offset) true))
    else .error (.valueError "could not unpack excitation indices")
  else if ty = "double" then
    if idxs.length = 4 then
      .ok (FermionicOperator.smulOp θ
        (G2 (idxs.getD 0 0 + 2 * offset) (idxs.getD 1 0 + 2 * offset)
          (idxs.getD 2 0 + 2 * offset) (idxs.getD 3 0 + 2 * offset) true))
    else .error (.valueError "could not unpack excitation indices")
  else if ty = "triple" then
    if idxs.length = 6 then
      .ok (FermionicOperator.smulOp θ
        (G3 (idxs.getD 0 0 + 2 * offset) (idxs.getD 1 0 + 2 * offset)
          (idxs.getD 2 0 + 2 * offset) (idxs.getD 3 0 + 2 * offset)
          (idxs.getD 4 0 + 2 * offset) (idxs.getD 5 0 + 2 * offset) true))
    else .error (.valueError "could not unpack excitation indices")
  else if ty = "quadruple" then
    if idxs.length = 8 then
      .ok (FermionicOperator.smulOp θ
        (G4 (idxs.getD 0 0 + 2 * offset) (idxs.getD 1 0 + 2 * offset)
          (idxs.getD 2 0 + 2 * offset) (idxs.getD 3 0 + 2 * offset)
          (idxs.getD 4 0 + 2 * offset) (idxs.getD 5 0 + 2 * offset)
          (idxs.getD 6 0 + 2 * offset) (idxs.getD 7 0 + 2 * offset) true))
    else .error (.valueError "could not unpack excitation indices")
  else if ty = "quintuple" then
    if idxs.length = 10 then
      .ok (FermionicOperator.smulOp θ
        (G5 (idxs.getD 0 0 + 2 * offset) (idxs.getD 1 0 + 2 * offset)
          (idxs.getD 2 0 + 2 * offset) (idxs.getD 3 0 + 2 * offset)
          (idxs.getD 4 0 + 2 * offset) (idxs.getD 5 0 + 2 * offset)
          (idxs.getD 6 0 + 2 * offset) (idxs.getD 7 0 + 2 * offset)
          (idxs.getD 8 0 + 2 * offset) (idxs.getD 9 0 + 2 * offset) true))
    else .error (.valueError "could not unpack excitation indices")
  else if ty = "sextuple" then
    if idxs.length = 12 then
      .ok (FermionicOperator.smulOp θ
        (G6 (idxs.getD 0 0 + 2 * offset) (idxs.getD 1 0 + 2 * offset)
          (idxs.getD 2 0 + 2 * offset) (idxs.getD 3 0 + 2 * offset)
          (idxs.getD 4 0 + 2 * offset) (idxs.getD 5 0 + 2 * offset)
          (idxs.getD 6 0 + 2 * offset) (idxs.getD 7 0 + 2 * offset)
          (idxs.getD 8 0 + 2 * offset) (idxs.getD 9 0 + 2 * offset)
          (idxs.getD 10 0 + 2 * offset) (idxs.getD 11 0 + 2 * offset) true))
    else .error (.valueError "could not unpack excitation indices")
  else
    .error (.valueError ("Got unknown excitation type, " ++ ty))

/-- The step loop of `get_ucc_T`: zip of excitation types, index tuples and
parameters; steps with `|θ| < 10**-14` are skipped BEFORE the tag is
examined; surviving steps accumulate their `θ·G…` term into the operator
sum, propagating any `ValueError`. -/
def get_ucc_T_go {K : Type*} [LinearOrderedField K] (offset : ℕ) :
    List (String × List ℕ × K) → FermionicOperator K →
      Except PropError (FermionicOperator K)
  | [], T => .ok T
  | (ty, idxs, θ) :: rest, T =>
    if |θ| < screening_threshold K then
      get_ucc_T_go offset rest T
    else
      match ucc_step_operator offset ty idxs θ with
      | .ok G => get_ucc_T_go offset rest (T.add G)
      | .error e => .error e

/-- `get_ucc_T` from `operator_state_algebra.py`: build the UCC cluster
operator from the excitation schema and the parameters, starting from the
empty operator sum. -/
def get_ucc_T {K : Type*} [LinearOrderedField K] (thetas : List K)
    (ucc_struct : UccStructure) (offset : ℕ) :
    Except PropError (FermionicOperator K) :=
  get_ucc_T_go offset
    (ucc_struct.excitation_operator_type.zip
      (ucc_struct.excitation_indices.zip thetas)) ⟨[]⟩

/-! ## UPS state construction (analytic exponential unitaries) -/

/-- The analytic application body shared by `construct_ups_state` and
`propagate_unitary` for one UPS step with (already dagger-negated)
parameter `θ`: the closed form
`ψ + sin(θ)·T̂ψ + (1−cos(θ))·T̂²ψ` for a "single" or "double" step, applied
first for the alpha and then for the beta single excitation in the
"sa_single" case (with `A = 1` as in the source); unknown tags raise
`ValueError`. -/
noncomputable def ups_analytic_step {n : ℕ} (ci_info : CI_Info n) (ty : String)
    (idxs : List ℕ) (θ : ℝ) (tmp : Fin n → ℝ) :
    Except PropError (Fin n → ℝ) :=
  if ty = "sa_single" then
    if idxs.length = 2 then
      let A : ℝ := 1
      let i := idxs.getD 0 0 + ci_info.space_extension_offset
      let a := idxs.getD 1 0 + ci_info.space_extension_offset
      let Ta : FermionicOperator ℝ := G1 (i * 2) (a * 2) true
      let Tb : FermionicOperator ℝ := G1 (i * 2 + 1) (a * 2 + 1) true
      match propagate_state_fermi [Ta] tmp ci_info false false,
          propagate_state_fermi [Ta, Ta] tmp ci_info false false with
      | .ok t1, .ok t2 =>
        let tmp1 := tmp + Real.sin (A * θ) • t1 + (1 - Real.cos (A * θ)) • t2
        match propagate_state_fermi [Tb] tmp1 ci_info false false,
            propagate_state_fermi [Tb, Tb] tmp1 ci_info false false with
        | .ok t3, .ok t4 =>
          .ok (tmp1 + Real.sin (A * θ) • t3 + (1 - Real.cos (A * θ)) • t4)
        | .error e, _ => .error e
        | _, .error e => .error e
      | .error e, _ => .error e
      | _, .error e => .error e
    else .error (.valueError "could not unpack excitation indices")
  else if ty = "single" ∨ ty = "double" then
    match
      (if ty = "single" then
        if idxs.length = 2 then
          .ok (G1 (idxs.getD 0 0 + 2 * ci_info.space_extension_offset)
            (idxs.getD 1 0 + 2 * ci_info.space_extension_offset) true)
        else .error (.valueError "could not unpack excitation indices")
      else
        if idxs.length = 4 then
          .ok (G2 (idxs.getD 0 0 + 2 * ci_info.space_extension_offset)
            (idxs.getD 1 0 + 2 * ci_info.space_extension_offset)
            (idxs.getD 2 0 + 2 * ci_info.space_extension_offset)
            (idxs.getD 3 0 + 2 * ci_info.space_extension_offset) true)
        else .error (.valueError "could not unpack excitation indices") :
        Except PropError (FermionicOperator ℝ)) with
    | .error e => .error e
    | .ok T =>
      match propagate_state_fermi [T] tmp ci_info false false,
          propagate_state_fermi [T, T] tmp ci_info false false with
      | .ok t1, .ok t2 =>
        .ok (tmp + Real.sin θ • t1 + (1 - Real.cos θ) • t2)
      | .error e, _ => .error e
      | _, .error e => .error e
  else
    .error (.valueError ("Got unknown excitation type, " ++ ty))

/-- The step loop of `construct_ups_state`: steps with `|θ| < 10**-14` are
skipped entirely BEFORE the tag is examined; otherwise the parameter is
negated when `dagger` and the analytic step body is applied. -/
noncomputable def construct_ups_state_go {n : ℕ} (ci_info : CI_Info n)
    (dagger : Bool) :
    List (String × List ℕ × ℝ) → (Fin n → ℝ) → Except PropError (Fin n → ℝ)
  | [], tmp => .ok tmp
  | (ty, idxs, θ0) :: rest, tmp =>
    if |θ0| < screening_threshold ℝ then
      construct_ups_state_go ci_info dagger rest tmp
    else
      match ups_analytic_step ci_info ty idxs (if dagger then -θ0 else θ0) tmp with
      | .ok tmp' => construct_ups_state_go ci_info dagger rest tmp'
      | .error e => .error e

/-- The zipped step list of `construct_ups_state`: excitation types, index
tuples and parameters, each reversed when `dagger`. -/
def ups_step_list (ups_struct : UpsStructure) (thetas : List ℝ)
    (dagger : Bool) : List (String × List ℕ × ℝ) :=
  if dagger then
    ups_struct.excitation_operator_type.reverse.zip
      (ups_struct.excitation_indices.reverse.zip thetas.reverse)
  else
    ups_struct.excitation_operator_type.zip
      (ups_struct.excitation_indices.zip thetas)

/-- `construct_ups_state` from `operator_state_algebra.py`: apply the UPS
unitary product (or its adjoint, with reversed step order and negated
parameters) to the state. -/
noncomputable def construct_ups_state {n : ℕ} (state : Fin n → ℝ)
    (ci_info : CI_Info n) (thetas : List ℝ) (ups_struct : UpsStructure)
    (dagger : Bool) : Except PropError (Fin n → ℝ) :=
  construct_ups_state_go ci_info dagger (ups_step_list ups_struct thetas dagger)
    state

/-- `propagate_unitary` from `operator_state_algebra.py`: apply the single
UPS unitary number `idx` to the state; `|θ| < 10**-14` returns a copy of
the state before the tag is examined. -/
noncomputable def propagate_unitary {n : ℕ} (state : Fin n → ℝ) (idx : ℕ)
    (ci_info : CI_Info n) (thetas : List ℝ) (ups_struct : UpsStructure) :
    Except PropError (Fin n → ℝ) :=
  match ups_struct.excitation_operator_type.get? idx,
      ups_struct.excitation_indices.get? idx, thetas.get? idx with
  | some ty, some idxs, some θ =>
    if |θ| < screening_threshold ℝ then
      .ok state
    else
      ups_analytic_step ci_info ty idxs θ state
  | _, _, _ => .error (.valueError "excitation index out of range")

/-- `construct_ucc_state` from `operator_state_algebra.py`: build the UCC
cluster operator, materialise its matrix over the determinant basis, and
apply the action of the matrix exponential (negated for the adjoint) to
the state. -/
noncomputable def construct_ucc_state {n : ℕ} (state : Fin n → ℝ)
    (ci_info : CI_Info n) (thetas : List ℝ) (ucc_struct : UccStructure)
    (dagger : Bool) : Except PropError (Fin n → ℝ) :=
  match get_ucc_T thetas ucc_struct ci_info.space_extension_offset with
  | .error e => .error e
  | .ok T =>
    match build_operator_matrix T ci_info false with
    | .error e => .error e
    | .ok Tmat =>
      .ok ((NormedSpace.exp ℝ (if dagger then -Tmat else Tmat)) *ᵥ state)

/-! ## Full state propagation -/

/-- An element of the operator sequence of `propagate_state`: either a
tagged ansatz-unitary marker string or a concrete fermionic operator. -/
inductive PropOp where
  | str (s : String)
  | fermi (op : FermionicOperator ℝ)

/-- The two mutually exclusive ansatz-structure kinds, as the tagged union
the spec prescribes for the `UpsStructure | UccStructure` dispatch. -/
inductive WfStruct where
  | ups (s : UpsStructure)
  | ucc (s : UccStructure)

/-- The operator loop of `propagate_state` over the (already reversed)
operator sequence: marker strings other than `"U"`/`"Ud"` raise
`ValueError`; markers dispatch to the UPS or UCC constructor with the
dagger flag; fermionic operators are applied string-by-string through
`apply_operator` after optional folding. -/
noncomputable def propagate_state_go {n : ℕ} (ci_info : CI_Info n)
    (thetas : List ℝ) (wf_struct : WfStruct) (do_folding unsafe_mode : Bool) :
    List PropOp → (Fin n → ℝ) → Except PropError (Fin n → ℝ)
  | [], s => .ok s
  | op :: rest, s =>
    match op with
    | .str name =>
      if name = "U" ∨ name = "Ud" then
        match (match wf_struct with
          | .ups u => construct_ups_state s ci_info thetas u (name = "Ud")
          | .ucc u => construct_ucc_state s ci_info thetas u (name = "Ud")) with
        | .ok t => propagate_state_go ci_info thetas wf_struct do_folding
            unsafe_mode rest t
        | .error e => .error e
      else
        .error (.valueError ("Unknown str operator, expected (U, Ud) got " ++ name))
    | .fermi op =>
      match apply_fermionic op s ci_info do_folding unsafe_mode with
      | .ok t => propagate_state_go ci_info thetas wf_struct do_folding
          unsafe_mode rest t
      | .error e => .error e

/-- `propagate_state` from `operator_state_algebra.py`: process the
operator sequence in reverse order (the rightmost operator acts first). -/
noncomputable def propagate_state {n : ℕ} (operators : List PropOp)
    (state : Fin n → ℝ) (ci_info : CI_Info n) (thetas : List ℝ)
    (wf_struct : WfStruct) (do_folding unsafe_mode : Bool) :
    Except PropError (Fin n → ℝ) :=
  propagate_state_go ci_info thetas wf_struct do_folding unsafe_mode
    operators.reverse state

/-! ## C8: unknown excitation-type tags -/

/-- The CI-space bundle used by the small concrete examples: the
one-determinant space `{0b10}` over one active spatial orbital. -/
def ciW : CI_Info 1 :=
  ⟨idx2detW, det2idxW, 0, 1, 0, 0⟩

/-- C8 counterexample: an unknown excitation-type tag whose parameter has
`|θ| < 10**-14` is skipped BEFORE the tag is examined, so neither
`get_ucc_T` nor `construct_ups_state` nor `propagate_unitary` raises —
contradicting the claim that state construction fails for EVERY parameter
value of an unknown-tag step. -/
theorem unknown_tag_zero_theta_counterexample :
    get_ucc_T ([0] : List ℚ) ⟨["bogus"], [[]]⟩ 0 = .ok ⟨[]⟩ ∧
    construct_ups_state (fun _ : Fin 1 => (1 : ℝ)) ciW [0] ⟨["bogus"], [[]]⟩
      false = .ok (fun _ => 1) ∧
    propagate_unitary (fun _ : Fin 1 => (1 : ℝ)) 0 ciW [0] ⟨["bogus"], [[]]⟩ =
      .ok (fun _ => 1) := by
  refine ⟨?_, ?_, ?_⟩
  · rw [get_ucc_T]
    simp only [List.zip_cons_cons, List.zip_nil_right, List.zip_nil_left]
    rw [get_ucc_T_go, if_pos (by norm_num [screening_threshold])]
    rfl
  · rw [construct_ups_state, ups_step_list, if_neg (by simp)]
    simp only [List.zip_cons_cons, List.zip_nil_right, List.zip_nil_left]
    rw [construct_ups_state_go, if_pos (by norm_num [screening_threshold])]
    rfl
  · rw [propagate_unitary]
    simp only [List.get?]
    rw [if_pos (by norm_num [screening_threshold])]

/-- C8 (amended): an unknown excitation-type tag is a fatal configuration
error at its first use PROVIDED the step's parameter satisfies
`|θ| ≥ 10**-14`: `get_ucc_T` raises `ValueError` on the tag when building
the UCC operator, and `construct_ups_state` and `propagate_unitary` raise
on the tag when applying the UPS step; a step whose parameter has
`|θ| < 10**-14` is skipped before the tag check (identity action, no
error). -/
theorem unknown_tag_fatal_when_parameter_survives {n : ℕ} {K : Type*}
    [LinearOrderedField K]
    (ty : String) (idxs : List ℕ) (θq : K) (tys : List String)
    (idxss : List (List ℕ)) (θqs : List K) (T0 : FermionicOperator K)
    (offset : ℕ) (state : Fin n → ℝ) (ci_info : CI_Info n) (θ : ℝ)
    (θs : List ℝ) :
    (¬(|θq| < screening_threshold K) →
      ty ≠ "sa_single" → ty ≠ "sa_double_1" → ty ≠ "sa_double_2" →
      ty ≠ "single" → ty ≠ "double" → ty ≠ "triple" → ty ≠ "quadruple" →
      ty ≠ "quintuple" → ty ≠ "sextuple" →
      get_ucc_T_go offset ((ty, idxs, θq) :: (tys.zip (idxss.zip θqs))) T0 =
        .error (.valueError ("Got unknown excitation type, " ++ ty))) ∧
    (|θq| < screening_threshold K →
      get_ucc_T_go offset ((ty, idxs, θq) :: (tys.zip (idxss.zip θqs))) T0 =
        get_ucc_T_go offset (tys.zip (idxss.zip θqs)) T0) ∧
    (¬(|θ| < screening_threshold ℝ) →
      ty ≠ "sa_single" → ty ≠ "single" → ty ≠ "double" →
      construct_ups_state_go ci_info false ((ty, idxs, θ) ::
          (tys.zip (idxss.zip θs))) state =
        .error (.valueError ("Got unknown excitation type, " ++ ty))) ∧
    (|θ| < screening_threshold ℝ →
      construct_ups_state_go ci_info false ((ty, idxs, θ) ::
          (tys.zip (idxss.zip θs))) state =
        construct_ups_state_go ci_info false (tys.zip (idxss.zip θs)) state) ∧
    (¬(|θ| < screening_threshold ℝ) →
      ty ≠ "sa_single" → ty ≠ "single" → ty ≠ "double" →
      propagate_unitary state 0 ci_info (θ :: θs) ⟨ty :: tys, idxs :: idxss⟩ =
        .error (.valueError ("Got unknown excitation type, " ++ ty))) ∧
    (|θ| < screening_threshold ℝ →
      propagate_unitary state 0 ci_info (θ :: θs) ⟨ty :: tys, idxs :: idxss⟩ =
        .ok state) := by
  refine ⟨?_, ?_, ?_, ?_, ?_, ?_⟩
  · intro hθ h1 h2 h3 h4 h5 h6 h7 h8 h9
    rw [get_ucc_T_go, if_neg hθ]
    have hop : ucc_step_operator (K := K) offset ty idxs θq =
        .error (.valueError ("Got unknown excitation type, " ++ ty)) := by
      rw [ucc_step_operator, if_neg h1, if_neg h2, if_neg h3, if_neg h4,
        if_neg h5, if_neg h6, if_neg h7, if_neg h8, if_neg h9]
    simp only [hop]
  · intro hθ
    rw [get_ucc_T_go, if_pos hθ]
  · intro hθ h1 h2 h3
    rw [construct_ups_state_go, if_neg hθ, if_neg Bool.false_ne_true]
    have hstep : ups_analytic_step ci_info ty idxs θ state =
        .error (.valueError ("Got unknown excitation type, " ++ ty)) := by
      rw [ups_analytic_step, if_neg h1, if_neg (by
        intro h
        rcases h with h | h
        · exact h2 h
        · exact h3 h)]
    simp only [hstep]
  · intro hθ
    rw [construct_ups_state_go, if_pos hθ]
  · intro hθ h1 h2 h3
    rw [propagate_unitary]
    simp only [List.get?]
    rw [if_neg hθ]
    rw [ups_analytic_step, if_neg h1, if_neg (by
      intro h
      rcases h with h | h
      · exact h2 h
      · exact h3 h)]
  · intro hθ
    rw [propagate_unitary]
    simp only [List.get?]
    rw [if_pos hθ]

/-- Witness for the amended C8: tag `"bogus"` with parameter `1` makes
`get_ucc_T_go`, `construct_ups_state_go` and `propagate_unitary` raise the
unknown-excitation `ValueError`, while parameter `0` is skipped. -/
theorem unknown_tag_fatal_when_parameter_survives_witness :
    (get_ucc_T_go (K := ℚ) 0 [("bogus", [], 1)] ⟨[]⟩ =
      .error (.valueError ("Got unknown excitation type, " ++ "bogus"))) ∧
    (construct_ups_state_go ciW false [("bogus", [], (1 : ℝ))]
        (fun _ => (1 : ℝ)) =
      .error (.valueError ("Got unknown excitation type, " ++ "bogus"))) ∧
    (propagate_unitary (fun _ : Fin 1 => (1 : ℝ)) 0 ciW [(1 : ℝ)]
        ⟨["bogus"], [[]]⟩ =
      .error (.valueError ("Got unknown excitation type, " ++ "bogus"))) ∧
    (get_ucc_T_go (K := ℚ) 0 [("bogus", [], 0)] ⟨[]⟩ =
      get_ucc_T_go (K := ℚ) 0 [] ⟨[]⟩) := by
  have h1 := unknown_tag_fatal_when_parameter_survives (n := 1) (K := ℚ)
    "bogus" [] 1 [] [] [] ⟨[]⟩ 0 (fun _ => (1 : ℝ)) ciW 1 []
  have h0 := unknown_tag_fatal_when_parameter_survives (n := 1) (K := ℚ)
    "bogus" [] 0 [] [] [] ⟨[]⟩ 0 (fun _ => (1 : ℝ)) ciW 1 []
  refine ⟨?_, ?_, ?_, ?_⟩
  · exact h1.1 (by norm_num [screening_threshold]) (by decide) (by decide)
      (by decide) (by decide) (by decide) (by decide) (by decide) (by decide)
      (by decide)
  · exact h1.2.2.1 (by norm_num [screening_threshold]) (by decide) (by decide)
      (by decide)
  · exact h1.2.2.2.2.1 (by norm_num [screening_threshold]) (by decide)
      (by decide) (by decide)
  · exact h0.2.1 (by norm_num [screening_threshold])

/-! ## C10: the materialised-matrix path against the direct path -/

/-- A single-entry matrix acts on a vector as the scaled coordinate
projection. -/
lemma stdBasisMatrix_mulVec_single {n : ℕ} {K : Type*} [LinearOrderedField K]
    (j i : Fin n) (c : K) (s : Fin n → K) :
    Matrix.stdBasisMatrix j i c *ᵥ s = Pi.single j (c * s i) := by
  rw [Matrix.mulVec_stdBasisMatrix]
  rfl

/-- Parallel run of the determinant loops: when the matrix loop of
`add_operator_matrix` succeeds and every amplitude of the state is either
exactly 0 or unscreened, the thresholded vector loop of `apply_operator`
accumulates exactly the produced matrix block applied to the state. -/
lemma apply_operator_go_eq_matrix_go {n : ℕ} {K : Type*} [LinearOrderedField K]
    (state : Fin n → K) (anni_rev create_rev : List ℕ) (na : ℕ)
    (parity : ℕ → ℕ) (idx2det : Fin n → ℕ) (det2idx : ℕ → Option (Fin n))
    (u : Bool) (factor : K)
    (hstate : ∀ i, state i = 0 ∨ ¬(|state i| < screening_threshold K)) :
    ∀ (L : List (Fin n)) (A A' : Matrix (Fin n) (Fin n) K) (t : Fin n → K),
      add_operator_matrix_go anni_rev create_rev na parity idx2det det2idx u
          factor L A = .ok A' →
      apply_operator_go state anni_rev create_rev na parity idx2det det2idx u
          factor L t = .ok (t + (A' - A) *ᵥ state) := by
  intro L
  induction L with
  | nil =>
    intro A A' t h
    simp only [add_operator_matrix_go, Except.ok.injEq] at h
    subst h
    simp [apply_operator_go]
  | cons i rest ih =>
    intro A A' t h
    rw [add_operator_matrix_go] at h
    rw [apply_operator_go]
    rcases hs : apply_string na parity anni_rev create_rev (idx2det i) with _ | dp
    · simp only [hs] at h ⊢
      by_cases hthr : |state i| < screening_threshold K
      · rw [if_pos hthr]
        exact ih A A' t h
      · rw [if_neg hthr]
        exact ih A A' t h
    · rcases hd : det2idx dp.1 with _ | j
      · simp only [hs, hd] at h ⊢
        cases u
        · simp only [Bool.false_eq_true, if_false] at h
          cases h
        · simp only [if_true] at h ⊢
          by_cases hthr : |state i| < screening_threshold K
          · rw [if_pos hthr]
            exact ih A A' t h
          · rw [if_neg hthr]
            exact ih A A' t h
      · simp only [hs, hd] at h ⊢
        have hsplit : (A' - A) *ᵥ state =
            (A' - (A + Matrix.stdBasisMatrix j i (factor * (-1) ^ dp.2))) *ᵥ
                state +
              Pi.single j (factor * (-1) ^ dp.2 * state i) := by
          rw [← stdBasisMatrix_mulVec_single j i (factor * (-1) ^ dp.2) state,
            ← Matrix.add_mulVec]
          congr 1
          abel
        by_cases hthr : |state i| < screening_threshold K
        · rw [if_pos hthr, ih _ _ t h]
          have hzero : state i = 0 := by
            rcases hstate i with h0 | h0
            · exact h0
            · exact absurd hthr h0
          rw [hsplit, hzero, mul_zero]
          simp
        · rw [if_neg hthr, ih _ _ _ h, hsplit]
          congr 1
          abel

/-- Parallel run of the string loops: when `build_operator_matrix`'s string
loop succeeds, the fermionic-operator application loop of `propagate_state`
computes exactly the accumulated matrix difference applied to the state. -/
lemma apply_fermionic_go_eq_build_go {n : ℕ} {K : Type*} [LinearOrderedField K]
    (state : Fin n → K) (na : ℕ) (parity : ℕ → ℕ) (idx2det : Fin n → ℕ)
    (det2idx : ℕ → Option (Fin n)) (u : Bool)
    (hstate : ∀ i, state i = 0 ∨ ¬(|state i| < screening_threshold K)) :
    ∀ (strings : List (List (ℕ × Bool) × K)) (A M : Matrix (Fin n) (Fin n) K)
      (t : Fin n → K),
      build_operator_matrix_go na parity idx2det det2idx u strings A = .ok M →
      apply_fermionic_go state na parity idx2det det2idx u strings t =
        .ok (t + (M - A) *ᵥ state) := by
  intro strings
  induction strings with
  | nil =>
    intro A M t h
    simp only [build_operator_matrix_go, Except.ok.injEq] at h
    subst h
    simp [apply_fermionic_go]
  | cons lc rest ih =>
    intro A M t h
    rw [build_operator_matrix_go] at h
    rw [apply_fermionic_go]
    rcases hadd : add_operator_matrix A (anni_of lc.1) (create_of lc.1) na
        parity idx2det det2idx u lc.2 with e | A1
    · simp only [hadd] at h
      cases h
    · simp only [hadd] at h
      have hvec : apply_operator state (anni_of lc.1) (create_of lc.1) na
          parity idx2det det2idx u t lc.2 = .ok (t + (A1 - A) *ᵥ state) := by
        rw [apply_operator]
        exact apply_operator_go_eq_matrix_go state _ _ na parity idx2det det2idx
          u lc.2 hstate _ A A1 t hadd
      simp only [hvec]
      rw [ih A1 M _ h]
      congr 1
      rw [add_assoc, ← Matrix.add_mulVec]
      congr 2
      abel

/-- C10: when the materialised matrix of a fermionic operator exists
(`build_operator_matrix` succeeds) and every amplitude of the state is
either exactly 0 or of magnitude at least `10**-14`, the matrix applied to
the state equals the direct-application path
`propagate_state [op] state (do_folding := false)` — the two paths can
differ only on amplitudes below the screening threshold, which
`apply_operator` skips but the matrix path does not. -/
theorem matrix_path_eq_direct_path {n : ℕ} (op : FermionicOperator ℝ)
    (ci_info : CI_Info n) (du : Bool) (state : Fin n → ℝ) (thetas : List ℝ)
    (wf_struct : WfStruct) (M : Matrix (Fin n) (Fin n) ℝ)
    (hM : build_operator_matrix op ci_info du = .ok M)
    (hstate : ∀ i, state i = 0 ∨ ¬(|state i| < screening_threshold ℝ)) :
    propagate_state [PropOp.fermi op] state ci_info thetas wf_struct false du =
      .ok (M *ᵥ state) := by
  rw [propagate_state, List.reverse_cons, List.reverse_nil, List.nil_append]
  rw [propagate_state_go]
  have hferm : apply_fermionic op state ci_info false du = .ok (M *ᵥ state) := by
    rw [apply_fermionic]
    rw [build_operator_matrix] at hM
    have := apply_fermionic_go_eq_build_go state ci_info.num_active_orbs
      (parity_check ci_info.num_active_orbs) ci_info.idx2det ci_info.det2idx du
      hstate op.operators 0 M 0 hM
    simp only [Bool.false_eq_true, if_false] at this ⊢
    rw [this]
    congr 1
    simp
  simp only [hferm]
  rw [propagate_state_go]

/-- The number operator `a†_0 a_0` used by the C10 witness. -/
def opW : FermionicOperator ℝ := ⟨[([(0, true), (0, false)], 1)]⟩

/-- Evaluation of the witness operator's matrix over the one-determinant
space: the string fixes `0b10` with phase 0, giving the single matrix
entry `1·(−1)^0`. -/
lemma opW_matrix_eval :
    build_operator_matrix opW ciW false =
      .ok (0 + Matrix.stdBasisMatrix (0 : Fin 1) (0 : Fin 1) (1 * (-1 : ℝ) ^ 0)) := by
  have happ : apply_string 1 (parity_check 1) [0] [0] (idx2detW 0) =
      some (2, 0) := by decide
  have hdet : det2idxW 2 = some 0 := by decide
  rw [build_operator_matrix]
  show build_operator_matrix_go 1 (parity_check 1) idx2detW det2idxW false
    [([(0, true), (0, false)], 1)] 0 = _
  rw [build_operator_matrix_go]
  have hadd : add_operator_matrix (0 : Matrix (Fin 1) (Fin 1) ℝ)
      (anni_of [(0, true), (0, false)]) (create_of [(0, true), (0, false)]) 1
      (parity_check 1) idx2detW det2idxW false 1 =
      .ok (0 + Matrix.stdBasisMatrix (0 : Fin 1) (0 : Fin 1)
        (1 * (-1 : ℝ) ^ 0)) := by
    rw [add_operator_matrix]
    show add_operator_matrix_go [0] [0] 1 (parity_check 1) idx2detW det2idxW
      false 1 (List.finRange 1) 0 = _
    simp only [List.finRange_succ_eq_map, List.finRange_zero, List.map_nil]
    rw [add_operator_matrix_go]
    simp only [happ, hdet]
    rw [add_operator_matrix_go]
  simp only [hadd]
  rw [build_operator_matrix_go]

/-- Witness for C10: the number operator `a†_0 a_0` on the one-determinant
space with state amplitude `3`: the materialised matrix applied to the
state equals the direct `propagate_state` application. -/
theorem matrix_path_eq_direct_path_witness :
    propagate_state [PropOp.fermi opW] (fun _ => (3 : ℝ)) ciW []
        (WfStruct.ups ⟨[], []⟩) false false =
      .ok ((0 + Matrix.stdBasisMatrix (0 : Fin 1) (0 : Fin 1)
        (1 * (-1 : ℝ) ^ 0)) *ᵥ fun _ => (3 : ℝ)) :=
  matrix_path_eq_direct_path opW ciW false (fun _ => (3 : ℝ)) []
    (WfStruct.ups ⟨[], []⟩) _ opW_matrix_eval
    (fun _ => Or.inr (by norm_num [screening_threshold]))

/-! ## C3/C4: analytic UPS steps and the adjoint roundtrip

The spec's closed form `exp(θT̂)ψ = ψ + sin(θ)·T̂ψ + (1−cos(θ))·T̂²ψ` speaks
about the exact action of the generator.  The code realises `T̂ψ` through
`propagate_state`, whose `apply_operator` loop skips source amplitudes below
`10**-14`, so the realised map is NOT the closed form on states with
sub-threshold amplitudes.  The threshold-free idealisation takes the
generator action through the operator's materialised matrix
(`build_operator_matrix` applies no amplitude screening, and by
`apply_fermionic_go_eq_build_go` the screened loop agrees with the matrix
action exactly on unscreened states). -/

/-- The analytic one-step matrix `1 + sin(θ)·M + (1−cos(θ))·M²` of the
spec's closed form, as a matrix over the determinant basis. -/
noncomputable def stepMat {n : ℕ} (M : Matrix (Fin n) (Fin n) ℝ) (θ : ℝ) :
    Matrix (Fin n) (Fin n) ℝ :=
  1 + Real.sin θ • M + (1 - Real.cos θ) • (M * M)

/-- Action of the analytic step matrix on a state is the spec's closed
form. -/
lemma stepMat_mulVec {n : ℕ} (M : Matrix (Fin n) (Fin n) ℝ) (θ : ℝ)
    (ψ : Fin n → ℝ) :
    stepMat M θ *ᵥ ψ =
      ψ + Real.sin θ • (M *ᵥ ψ) + (1 - Real.cos θ) • (M *ᵥ (M *ᵥ ψ)) := by
  simp [stepMat, Matrix.add_mulVec, Matrix.smul_mulVec_assoc, Matrix.one_mulVec,
    Matrix.mulVec_mulVec]

/-- The analytic step at `−θ` inverts the analytic step at `θ` whenever the
generator matrix satisfies `M³ = −M` (the property that makes the closed
form equal the exponential). -/
lemma stepMat_inverse {n : ℕ} (M : Matrix (Fin n) (Fin n) ℝ)
    (hM3 : M * M * M = -M) (θ : ℝ) :
    stepMat M (-θ) * stepMat M θ = 1 := by
  have hss : Real.sin θ * Real.sin θ = 1 - Real.cos θ * Real.cos θ := by
    nlinarith [Real.sin_sq_add_cos_sq θ]
  unfold stepMat
  rw [Real.sin_neg, Real.cos_neg]
  simp only [add_mul, mul_add, one_mul, mul_one, smul_mul_assoc, mul_smul_comm,
    smul_smul, smul_add, smul_neg, neg_smul, neg_mul, mul_neg, neg_neg,
    ← mul_assoc, hM3]
  rw [hss]
  module

/-- Analytic step matrices of commuting generators commute. -/
lemma stepMat_commute {n : ℕ} {Ma Mb : Matrix (Fin n) (Fin n) ℝ}
    (h : Commute Ma Mb) (x y : ℝ) :
    Commute (stepMat Ma x) (stepMat Mb y) := by
  unfold stepMat
  have h1 : Commute Ma (1 + Real.sin y • Mb + (1 - Real.cos y) • (Mb * Mb)) :=
    ((Commute.one_right Ma).add_right (h.smul_right _)).add_right
      ((h.mul_right h).smul_right _)
  have h2 : Commute (Ma * Ma)
      (1 + Real.sin y • Mb + (1 - Real.cos y) • (Mb * Mb)) :=
    h1.mul_left h1
  have h3 : Commute (1 : Matrix (Fin n) (Fin n) ℝ)
      (1 + Real.sin y • Mb + (1 - Real.cos y) • (Mb * Mb)) := Commute.one_left _
  exact (h3.add_left (h1.smul_left _)).add_left (h2.smul_left _)

/-- Zipping commutes with reversal for lists of equal length (the `dagger`
branch of `construct_ups_state` reverses the three step lists before
zipping). -/
lemma zip_reverse_comm {α β : Type*} :
    ∀ (l₁ : List α) (l₂ : List β), l₁.length = l₂.length →
      l₁.reverse.zip l₂.reverse = (l₁.zip l₂).reverse := by
  intro l₁
  induction l₁ with
  | nil =>
    intro l₂ h
    rw [List.length_nil] at h
    rw [(List.length_eq_zero.mp h.symm)]
    rfl
  | cons a t ih =>
    intro l₂ h
    cases l₂ with
    | nil => simp at h
    | cons b t₂ =>
      simp only [List.length_cons, add_left_inj] at h
      simp only [List.reverse_cons]
      rw [List.zip_append (by simp [h]), ih t₂ h]
      simp

/-- The threshold-free idealisation of `ups_analytic_step`: identical
branch structure and generators, but the generator acts through its
materialised matrix (`build_operator_matrix`, which applies no amplitude
screening) instead of through the `10**-14`-screened `propagate_state`
loops.  This is the semantics in which the spec's closed form is exact. -/
noncomputable def ups_analytic_step_exact {n : ℕ} (ci_info : CI_Info n)
    (ty : String) (idxs : List ℕ) (θ : ℝ) (tmp : Fin n → ℝ) :
    Except PropError (Fin n → ℝ) :=
  if ty = "sa_single" then
    if idxs.length = 2 then
      let A : ℝ := 1
      let i := idxs.getD 0 0 + ci_info.space_extension_offset
      let a := idxs.getD 1 0 + ci_info.space_extension_offset
      match build_operator_matrix (G1 (i * 2) (a * 2) true) ci_info false with
      | .error e => .error e
      | .ok Ma =>
        match build_operator_matrix (G1 (i * 2 + 1) (a * 2 + 1) true)
            ci_info false with
        | .error e => .error e
        | .ok Mb =>
          .ok ((tmp + Real.sin (A * θ) • (Ma *ᵥ tmp) +
              (1 - Real.cos (A * θ)) • (Ma *ᵥ (Ma *ᵥ tmp))) +
            Real.sin (A * θ) • (Mb *ᵥ (tmp + Real.sin (A * θ) • (Ma *ᵥ tmp) +
              (1 - Real.cos (A * θ)) • (Ma *ᵥ (Ma *ᵥ tmp)))) +
            (1 - Real.cos (A * θ)) • (Mb *ᵥ (Mb *ᵥ
              (tmp + Real.sin (A * θ) • (Ma *ᵥ tmp) +
                (1 - Real.cos (A * θ)) • (Ma *ᵥ (Ma *ᵥ tmp))))))
    else .error (.valueError "could not unpack excitation indices")
  else if ty = "single" ∨ ty = "double" then
    match
      (if ty = "single" then
        if idxs.length = 2 then
          .ok (G1 (idxs.getD 0 0 + 2 * ci_info.space_extension_offset)
            (idxs.getD 1 0 + 2 * ci_info.space_extension_offset) true)
        else .error (.valueError "could not unpack excitation indices")
      else
        if idxs.length = 4 then
          .ok (G2 (idxs.getD 0 0 + 2 * ci_info.space_extension_offset)
            (idxs.getD 1 0 + 2 * ci_info.space_extension_offset)
            (idxs.getD 2 0 + 2 * ci_info.space_extension_offset)
            (idxs.getD 3 0 + 2 * ci_info.space_extension_offset) true)
        else .error (.valueError "could not unpack excitation indices") :
        Except PropError (FermionicOperator ℝ)) with
    | .error e => .error e
    | .ok T =>
      match build_operator_matrix T ci_info false with
      | .error e => .error e
      | .ok M =>
        .ok (tmp + Real.sin θ • (M *ᵥ tmp) + (1 - Real.cos θ) • (M *ᵥ (M *ᵥ tmp)))
  else
    .error (.valueError ("Got unknown excitation type, " ++ ty))

/-- The step loop of `construct_ups_state` in the threshold-free step
semantics: the `|θ| < 10**-14` parameter skip of the source is kept (it is
a deliberate step skip, not amplitude screening), only the per-step state
update is idealised. -/
noncomputable def construct_ups_state_exact_go {n : ℕ} (ci_info : CI_Info n)
    (dagger : Bool) :
    List (String × List ℕ × ℝ) → (Fin n → ℝ) → Except PropError (Fin n → ℝ)
  | [], tmp => .ok tmp
  | (ty, idxs, θ0) :: rest, tmp =>
    if |θ0| < screening_threshold ℝ then
      construct_ups_state_exact_go ci_info dagger rest tmp
    else
      match ups_analytic_step_exact ci_info ty idxs
          (if dagger then -θ0 else θ0) tmp with
      | .ok tmp' => construct_ups_state_exact_go ci_info dagger rest tmp'
      | .error e => .error e

/-- `construct_ups_state` in the threshold-free step semantics. -/
noncomputable def construct_ups_state_exact {n : ℕ} (state : Fin n → ℝ)
    (ci_info : CI_Info n) (thetas : List ℝ) (ups_struct : UpsStructure)
    (dagger : Bool) : Except PropError (Fin n → ℝ) :=
  construct_ups_state_exact_go ci_info dagger
    (ups_step_list ups_struct thetas dagger) state

/-- Conditions under which one UPS step is analytically invertible: the
step's generator matrix over the determinant basis exists and cubes to its
own negation (for "sa_single": both the alpha and the beta generator, and
they commute — alpha and beta excitations act on disjoint spin orbitals). -/
def ups_step_invertible {n : ℕ} (ci : CI_Info n)
    (step : String × List ℕ × ℝ) : Prop :=
  (∃ M : Matrix (Fin n) (Fin n) ℝ, M * M * M = -M ∧
    ((step.1 = "single" ∧ step.2.1.length = 2 ∧
      build_operator_matrix
        (G1 (step.2.1.getD 0 0 + 2 * ci.space_extension_offset)
          (step.2.1.getD 1 0 + 2 * ci.space_extension_offset) true) ci false =
        .ok M) ∨
     (step.1 = "double" ∧ step.2.1.length = 4 ∧
      build_operator_matrix
        (G2 (step.2.1.getD 0 0 + 2 * ci.space_extension_offset)
          (step.2.1.getD 1 0 + 2 * ci.space_extension_offset)
          (step.2.1.getD 2 0 + 2 * ci.space_extension_offset)
          (step.2.1.getD 3 0 + 2 * ci.space_extension_offset) true) ci false =
        .ok M))) ∨
  (step.1 = "sa_single" ∧ step.2.1.length = 2 ∧
    ∃ Ma Mb : Matrix (Fin n) (Fin n) ℝ,
      build_operator_matrix
        (G1 ((step.2.1.getD 0 0 + ci.space_extension_offset) * 2)
          ((step.2.1.getD 1 0 + ci.space_extension_offset) * 2) true) ci
        false = .ok Ma ∧
      build_operator_matrix
        (G1 ((step.2.1.getD 0 0 + ci.space_extension_offset) * 2 + 1)
          ((step.2.1.getD 1 0 + ci.space_extension_offset) * 2 + 1) true) ci
        false = .ok Mb ∧
      Ma * Ma * Ma = -Ma ∧ Mb * Mb * Mb = -Mb ∧ Commute Ma Mb)

/-- One invertible UPS step run at `−θ` undoes the same step run at `θ` in
the threshold-free semantics. -/
lemma ups_exact_step_inverse {n : ℕ} (ci : CI_Info n) (ty : String)
    (idxs : List ℕ) (θp θ : ℝ) (s s₁ : Fin n → ℝ)
    (hP : ups_step_invertible ci (ty, idxs, θp))
    (hf : ups_analytic_step_exact ci ty idxs θ s = .ok s₁) :
    ups_analytic_step_exact ci ty idxs (-θ) s₁ = .ok s := by
  rcases hP with ⟨M, hM3, ⟨hty, hlen, hbuild⟩ | ⟨hty, hlen, hbuild⟩⟩ |
    ⟨hty, hlen, Ma, Mb, hMa, hMb, hMa3, hMb3, hab⟩
  · -- "single"
    dsimp only at hty hlen hbuild
    subst hty
    unfold ups_analytic_step_exact at hf ⊢
    rw [if_neg (by decide), if_pos (Or.inl rfl), if_pos rfl, if_pos hlen]
      at hf ⊢
    simp only [hbuild] at hf ⊢
    rw [Except.ok.injEq] at hf ⊢
    rw [← stepMat_mulVec] at hf
    rw [← stepMat_mulVec, ← hf, Matrix.mulVec_mulVec, stepMat_inverse M hM3 θ,
      Matrix.one_mulVec]
  · -- "double"
    dsimp only at hty hlen hbuild
    subst hty
    unfold ups_analytic_step_exact at hf ⊢
    rw [if_neg (by decide), if_pos (Or.inr rfl), if_neg (by decide),
      if_pos hlen] at hf ⊢
    simp only [hbuild] at hf ⊢
    rw [Except.ok.injEq] at hf ⊢
    rw [← stepMat_mulVec] at hf
    rw [← stepMat_mulVec, ← hf, Matrix.mulVec_mulVec, stepMat_inverse M hM3 θ,
      Matrix.one_mulVec]
  · -- "sa_single"
    dsimp only at hty hlen hMa hMb
    subst hty
    unfold ups_analytic_step_exact at hf ⊢
    rw [if_pos rfl, if_pos hlen] at hf ⊢
    simp only [hMa, hMb, one_mul] at hf ⊢
    rw [Except.ok.injEq] at hf ⊢
    rw [show (s + Real.sin θ • (Ma *ᵥ s) +
        (1 - Real.cos θ) • (Ma *ᵥ (Ma *ᵥ s))) = stepMat Ma θ *ᵥ s from
      (stepMat_mulVec _ _ _).symm] at hf
    rw [← stepMat_mulVec Mb θ] at hf
    rw [show (s₁ + Real.sin (-θ) • (Ma *ᵥ s₁) +
        (1 - Real.cos (-θ)) • (Ma *ᵥ (Ma *ᵥ s₁))) = stepMat Ma (-θ) *ᵥ s₁ from
      (stepMat_mulVec _ _ _).symm]
    rw [← stepMat_mulVec Mb (-θ), ← hf, Matrix.mulVec_mulVec,
      Matrix.mulVec_mulVec, Matrix.mulVec_mulVec]
    have hswap : Commute (stepMat Ma (-θ)) (stepMat Mb θ) :=
      stepMat_commute hab _ _
    have h1 : stepMat Mb (-θ) * stepMat Ma (-θ) * stepMat Mb θ *
        stepMat Ma θ = 1 := by
      rw [mul_assoc (stepMat Mb (-θ)) (stepMat Ma (-θ)) (stepMat Mb θ),
        hswap.eq, ← mul_assoc (stepMat Mb (-θ)) (stepMat Mb θ)
          (stepMat Ma (-θ)),
        stepMat_inverse Mb hMb3 θ, one_mul, stepMat_inverse Ma hMa3 θ]
    rw [h1, Matrix.one_mulVec]

/-- Running the exact step loop over a list concatenation continues from
the intermediate state. -/
lemma construct_ups_state_exact_go_append {n : ℕ} (ci : CI_Info n)
    (dg : Bool) :
    ∀ (A B : List (String × List ℕ × ℝ)) (t v : Fin n → ℝ),
      construct_ups_state_exact_go ci dg A t = .ok v →
      construct_ups_state_exact_go ci dg (A ++ B) t =
        construct_ups_state_exact_go ci dg B v := by
  intro A
  induction A with
  | nil =>
    intro B t v h
    rw [construct_ups_state_exact_go] at h
    cases h
    rfl
  | cons step rest ih =>
    intro B t v h
    obtain ⟨ty, idxs, θ0⟩ := step
    rw [construct_ups_state_exact_go] at h
    rw [List.cons_append, construct_ups_state_exact_go]
    by_cases hθ : |θ0| < screening_threshold ℝ
    · rw [if_pos hθ] at h
      rw [if_pos hθ]
      exact ih B t v h
    · rw [if_neg hθ] at h
      rw [if_neg hθ]
      rcases hstep : ups_analytic_step_exact ci ty idxs
          (if dg then -θ0 else θ0) t with e | t'
      · simp only [hstep] at h
        cases h
      · simp only [hstep] at h ⊢
        exact ih B t' v h

/-- Roundtrip of the exact step loop: running the reversed step list with
the dagger flag (negated parameters) undoes the forward run, provided every
step is analytically invertible. -/
lemma construct_ups_state_exact_go_roundtrip {n : ℕ} (ci : CI_Info n) :
    ∀ (L : List (String × List ℕ × ℝ)) (s v : Fin n → ℝ),
      (∀ step ∈ L, ups_step_invertible ci step) →
      construct_ups_state_exact_go ci false L s = .ok v →
      construct_ups_state_exact_go ci true L.reverse v = .ok s := by
  intro L
  induction L with
  | nil =>
    intro s v _ h
    rw [construct_ups_state_exact_go] at h
    cases h
    rw [List.reverse_nil, construct_ups_state_exact_go]
  | cons step rest ih =>
    intro s v hall h
    obtain ⟨ty, idxs, θ0⟩ := step
    rw [construct_ups_state_exact_go] at h
    rw [List.reverse_cons]
    by_cases hθ : |θ0| < screening_threshold ℝ
    · rw [if_pos hθ] at h
      have hrec := ih s v
        (fun st hst => hall st (List.mem_cons_of_mem _ hst)) h
      rw [construct_ups_state_exact_go_append ci true rest.reverse
        [(ty, idxs, θ0)] v s hrec]
      rw [construct_ups_state_exact_go, if_pos hθ,
        construct_ups_state_exact_go]
    · rw [if_neg hθ, if_neg Bool.false_ne_true] at h
      rcases hstep : ups_analytic_step_exact ci ty idxs θ0 s with e | s₁
      · simp only [hstep] at h
        cases h
      · simp only [hstep] at h
        have hrec := ih s₁ v
          (fun st hst => hall st (List.mem_cons_of_mem _ hst)) h
        rw [construct_ups_state_exact_go_append ci true rest.reverse
          [(ty, idxs, θ0)] v s₁ hrec]
        rw [construct_ups_state_exact_go, if_neg hθ, if_pos rfl]
        have hinv := ups_exact_step_inverse ci ty idxs θ0 θ0 s s₁
          (hall _ (List.mem_cons_self _ _)) hstep
        simp only [hinv]
        rw [construct_ups_state_exact_go]

/-- C3 (amended): a UPS step whose parameter has `|θ| < 10**-14` is skipped
entirely — acting as the exact identity — by both the step loop of
`construct_ups_state` and by `propagate_unitary` (actual code paths); and in
the threshold-free step semantics (`ups_analytic_step_exact`, where the
generator acts through its unscreened materialised matrix) a "single" or
"double" step transforms `ψ` into exactly
`ψ + sin(θ)·T̂ψ + (1−cos(θ))·T̂²ψ` with `T̂` the step's excitation-generator
matrix, and an "sa_single" step applies that same closed form first for the
alpha and then for the beta single excitation.  In the code's own screened
semantics the closed form fails on sub-threshold amplitudes (see the
counterexample). -/
theorem ups_step_closed_form {n : ℕ} (ci : CI_Info n) (dagger : Bool)
    (ψ0 ψ : Fin n → ℝ) (rest : List (String × List ℕ × ℝ))
    (ty0 : String) (idxs0 : List ℕ) (θ0 : ℝ)
    (ups : UpsStructure) (thetas : List ℝ) (k : ℕ) (θ : ℝ)
    (i a i2 j2 a2 b2 isa asa : ℕ)
    (Ms Md Ma Mb : Matrix (Fin n) (Fin n) ℝ)
    (hθ0 : |θ0| < screening_threshold ℝ)
    (hty : ups.excitation_operator_type.get? k = some ty0)
    (hidx : ups.excitation_indices.get? k = some idxs0)
    (hth : thetas.get? k = some θ0)
    (hMs : build_operator_matrix
      (G1 (i + 2 * ci.space_extension_offset)
        (a + 2 * ci.space_extension_offset) true) ci false = .ok Ms)
    (hMd : build_operator_matrix
      (G2 (i2 + 2 * ci.space_extension_offset)
        (j2 + 2 * ci.space_extension_offset)
        (a2 + 2 * ci.space_extension_offset)
        (b2 + 2 * ci.space_extension_offset) true) ci false = .ok Md)
    (hMa : build_operator_matrix
      (G1 ((isa + ci.space_extension_offset) * 2)
        ((asa + ci.space_extension_offset) * 2) true) ci false = .ok Ma)
    (hMb : build_operator_matrix
      (G1 ((isa + ci.space_extension_offset) * 2 + 1)
        ((asa + ci.space_extension_offset) * 2 + 1) true) ci false = .ok Mb) :
    construct_ups_state_go ci dagger ((ty0, idxs0, θ0) :: rest) ψ0 =
        construct_ups_state_go ci dagger rest ψ0 ∧
    propagate_unitary ψ0 k ci thetas ups = .ok ψ0 ∧
    ups_analytic_step_exact ci "single" [i, a] θ ψ =
        .ok (ψ + Real.sin θ • (Ms *ᵥ ψ) +
          (1 - Real.cos θ) • (Ms *ᵥ (Ms *ᵥ ψ))) ∧
    ups_analytic_step_exact ci "double" [i2, j2, a2, b2] θ ψ =
        .ok (ψ + Real.sin θ • (Md *ᵥ ψ) +
          (1 - Real.cos θ) • (Md *ᵥ (Md *ᵥ ψ))) ∧
    ups_analytic_step_exact ci "sa_single" [isa, asa] θ ψ =
        .ok ((ψ + Real.sin θ • (Ma *ᵥ ψ) +
            (1 - Real.cos θ) • (Ma *ᵥ (Ma *ᵥ ψ))) +
          Real.sin θ • (Mb *ᵥ (ψ + Real.sin θ • (Ma *ᵥ ψ) +
            (1 - Real.cos θ) • (Ma *ᵥ (Ma *ᵥ ψ)))) +
          (1 - Real.cos θ) • (Mb *ᵥ (Mb *ᵥ (ψ + Real.sin θ • (Ma *ᵥ ψ) +
            (1 - Real.cos θ) • (Ma *ᵥ (Ma *ᵥ ψ)))))) := by
  refine ⟨?_, ?_, ?_, ?_, ?_⟩
  · rw [construct_ups_state_go, if_pos hθ0]
  · rw [propagate_unitary]
    simp only [hty, hidx, hth]
    rw [if_pos hθ0]
  · have hform : ups_analytic_step_exact ci "single" [i, a] θ ψ =
        (match build_operator_matrix
            (G1 (i + 2 * ci.space_extension_offset)
              (a + 2 * ci.space_extension_offset) true) ci false with
          | .error e => .error e
          | .ok M => .ok (ψ + Real.sin θ • (M *ᵥ ψ) +
              (1 - Real.cos θ) • (M *ᵥ (M *ᵥ ψ)))) := rfl
    rw [hform]
    simp only [hMs]
  · have hform : ups_analytic_step_exact ci "double" [i2, j2, a2, b2] θ ψ =
        (match build_operator_matrix
            (G2 (i2 + 2 * ci.space_extension_offset)
              (j2 + 2 * ci.space_extension_offset)
              (a2 + 2 * ci.space_extension_offset)
              (b2 + 2 * ci.space_extension_offset) true) ci false with
          | .error e => .error e
          | .ok M => .ok (ψ + Real.sin θ • (M *ᵥ ψ) +
              (1 - Real.cos θ) • (M *ᵥ (M *ᵥ ψ)))) := rfl
    rw [hform]
    simp only [hMd]
  · have hform : ups_analytic_step_exact ci "sa_single" [isa, asa] θ ψ =
        (match build_operator_matrix
            (G1 ((isa + ci.space_extension_offset) * 2)
              ((asa + ci.space_extension_offset) * 2) true) ci false with
          | .error e => .error e
          | .ok Ma' =>
            match build_operator_matrix
                (G1 ((isa + ci.space_extension_offset) * 2 + 1)
                  ((asa + ci.space_extension_offset) * 2 + 1) true) ci
                false with
            | .error e => .error e
            | .ok Mb' =>
              .ok ((ψ + Real.sin (1 * θ) • (Ma' *ᵥ ψ) +
                  (1 - Real.cos (1 * θ)) • (Ma' *ᵥ (Ma' *ᵥ ψ))) +
                Real.sin (1 * θ) • (Mb' *ᵥ (ψ + Real.sin (1 * θ) • (Ma' *ᵥ ψ) +
                  (1 - Real.cos (1 * θ)) • (Ma' *ᵥ (Ma' *ᵥ ψ)))) +
                (1 - Real.cos (1 * θ)) • (Mb' *ᵥ (Mb' *ᵥ
                  (ψ + Real.sin (1 * θ) • (Ma' *ᵥ ψ) +
                    (1 - Real.cos (1 * θ)) • (Ma' *ᵥ (Ma' *ᵥ ψ))))))) := rfl
    rw [hform]
    simp only [hMa, hMb, one_mul]

/-- C4 (amended): applying the ansatz unitary and then its adjoint is the
identity — exactly, in the code's own semantics, for a UCC structure (the
matrix-exponential path applies no amplitude screening:
`exp(−T̂)·exp(T̂) = 1`); and for a UPS structure in the threshold-free step
semantics, provided every surviving step is analytically invertible (its
generator matrix cubes to its own negation).  In the code's screened UPS
semantics the roundtrip fails on sub-threshold amplitudes (see the
counterexample). -/
theorem ansatz_adjoint_roundtrip {n : ℕ} (ci : CI_Info n)
    (state : Fin n → ℝ) (thetas : List ℝ) (df du : Bool)
    (ucc : UccStructure) (T : FermionicOperator ℝ)
    (Tmat : Matrix (Fin n) (Fin n) ℝ)
    (ups : UpsStructure) (v : Fin n → ℝ)
    (hT : get_ucc_T thetas ucc ci.space_extension_offset = .ok T)
    (hTmat : build_operator_matrix T ci false = .ok Tmat)
    (hlen1 : ups.excitation_operator_type.length =
      ups.excitation_indices.length)
    (hlen2 : ups.excitation_indices.length = thetas.length)
    (hsteps : ∀ step ∈ ups_step_list ups thetas false,
      ups_step_invertible ci step)
    (hfwd : construct_ups_state_exact state ci thetas ups false = .ok v) :
    (∀ w, propagate_state [PropOp.str "U"] state ci thetas
        (WfStruct.ucc ucc) df du = .ok w →
      propagate_state [PropOp.str "Ud"] w ci thetas
        (WfStruct.ucc ucc) df du = .ok state) ∧
    construct_ups_state_exact v ci thetas ups true = .ok state := by
  constructor
  · intro w hw
    have hcuU : construct_ucc_state state ci thetas ucc false =
        .ok (NormedSpace.exp ℝ Tmat *ᵥ state) := by
      unfold construct_ucc_state
      simp only [hT, hTmat]
      rw [if_neg Bool.false_ne_true]
    have hgoU : propagate_state [PropOp.str "U"] state ci thetas
        (WfStruct.ucc ucc) df du =
        (match construct_ucc_state state ci thetas ucc false with
          | .ok t => propagate_state_go ci thetas (WfStruct.ucc ucc) df du [] t
          | .error e => .error e) := rfl
    rw [hgoU] at hw
    simp only [hcuU] at hw
    rw [propagate_state_go] at hw
    cases hw
    have hcuD : construct_ucc_state (NormedSpace.exp ℝ Tmat *ᵥ state) ci
        thetas ucc true =
        .ok (NormedSpace.exp ℝ (-Tmat) *ᵥ (NormedSpace.exp ℝ Tmat *ᵥ state)) := by
      unfold construct_ucc_state
      simp only [hT, hTmat]
      simp only [if_true]
    have hgoD : propagate_state [PropOp.str "Ud"]
        (NormedSpace.exp ℝ Tmat *ᵥ state) ci thetas
        (WfStruct.ucc ucc) df du =
        (match construct_ucc_state (NormedSpace.exp ℝ Tmat *ᵥ state) ci
            thetas ucc true with
          | .ok t => propagate_state_go ci thetas (WfStruct.ucc ucc) df du [] t
          | .error e => .error e) := rfl
    rw [hgoD]
    simp only [hcuD]
    rw [propagate_state_go, Matrix.mulVec_mulVec,
      ← Matrix.exp_add_of_commute ℝ (-Tmat) Tmat (Commute.refl Tmat).neg_left,
      neg_add_cancel, NormedSpace.exp_zero, Matrix.one_mulVec]
  · have hzip1 : ups.excitation_indices.reverse.zip thetas.reverse =
        (ups.excitation_indices.zip thetas).reverse :=
      zip_reverse_comm _ _ hlen2
    have hlen3 : ups.excitation_operator_type.length =
        (ups.excitation_indices.zip thetas).length := by
      rw [List.length_zip]
      omega
    have hzip2 : ups.excitation_operator_type.reverse.zip
        (ups.excitation_indices.zip thetas).reverse =
        (ups.excitation_operator_type.zip
          (ups.excitation_indices.zip thetas)).reverse :=
      zip_reverse_comm _ _ hlen3
    have hlist : ups_step_list ups thetas true =
        (ups_step_list ups thetas false).reverse := by
      unfold ups_step_list
      rw [if_pos rfl, if_neg Bool.false_ne_true, hzip1, hzip2]
    rw [construct_ups_state_exact, hlist]
    rw [construct_ups_state_exact] at hfwd
    exact construct_ups_state_exact_go_roundtrip ci _ state v hsteps hfwd

/-! ### A concrete two-determinant space over one active spatial orbital

Determinant basis `[0b10, 0b01]` (one electron in two spin orbitals); the
single excitation `G1 0 1` acts on it as the rotation generator
`[[0,−1],[1,0]]`. -/

/-- Index-to-determinant table of the two-determinant example space. -/
def idx2detC : Fin 2 → ℕ := ![2, 1]

/-- Determinant-to-index lookup of the two-determinant example space. -/
def det2idxC : ℕ → Option (Fin 2) := fun d =>
  if d = 2 then some 0 else if d = 1 then some 1 else none

/-- The two-determinant example space: one active spatial orbital, no
inactive or virtual orbitals, no space extension. -/
def ciC : CI_Info 2 := ⟨idx2detC, det2idxC, 0, 1, 0, 0⟩

/-- A one-step UPS ansatz: a single excitation from spin orbital 0 to 1. -/
def upsC : UpsStructure := ⟨["single"], [[0, 1]]⟩

/-- The same one-step schema as a UCC ansatz. -/
def uccC : UccStructure := ⟨["single"], [[0, 1]]⟩

/-- A state with one unit amplitude and one amplitude `10**-20`, far below
the `10**-14` screening threshold. -/
noncomputable def sC : Fin 2 → ℝ := ![1, 1 / 10 ^ 20]

/-- The materialised matrix of `G1 0 1` over the example space: the plane
rotation generator. -/
noncomputable def Mrot : Matrix (Fin 2) (Fin 2) ℝ := !![0, -1; 1, 0]

/-- Evaluation of the single-excitation generator matrix on the example
space. -/
lemma Mrot_eval : build_operator_matrix (G1 0 1 true) ciC false = .ok Mrot := by
  have hfr : (List.finRange 2) = [0, 1] := by decide
  have happ10 : apply_string 1 (parity_check 1) [0] [1] (idx2detC 0) =
      some (1, 0) := by decide
  have happ11 : apply_string 1 (parity_check 1) [0] [1] (idx2detC 1) =
      none := by decide
  have hd1 : det2idxC 1 = some 1 := by decide
  have happ20 : apply_string 1 (parity_check 1) [1] [0] (idx2detC 0) =
      none := by decide
  have happ21 : apply_string 1 (parity_check 1) [1] [0] (idx2detC 1) =
      some (2, 0) := by decide
  have hd2 : det2idxC 2 = some 0 := by decide
  have hadd1 : add_operator_matrix (0 : Matrix (Fin 2) (Fin 2) ℝ)
      (anni_of [(1, true), (0, false)]) (create_of [(1, true), (0, false)]) 1
      (parity_check 1) idx2detC det2idxC false 1 =
      .ok (0 + Matrix.stdBasisMatrix 1 0 (1 * (-1 : ℝ) ^ 0)) := by
    rw [add_operator_matrix]
    show add_operator_matrix_go [0] [1] 1 (parity_check 1) idx2detC det2idxC
      false 1 (List.finRange 2) 0 = _
    rw [hfr, add_operator_matrix_go]
    simp only [happ10, hd1]
    rw [add_operator_matrix_go]
    simp only [happ11]
    rw [add_operator_matrix_go]
  have hadd2 : add_operator_matrix
      (0 + Matrix.stdBasisMatrix 1 0 (1 * (-1 : ℝ) ^ 0))
      (anni_of [(0, true), (1, false)]) (create_of [(0, true), (1, false)]) 1
      (parity_check 1) idx2detC det2idxC false (-1) =
      .ok (0 + Matrix.stdBasisMatrix 1 0 (1 * (-1 : ℝ) ^ 0) +
        Matrix.stdBasisMatrix 0 1 (-1 * (-1 : ℝ) ^ 0)) := by
    rw [add_operator_matrix]
    show add_operator_matrix_go [1] [0] 1 (parity_check 1) idx2detC det2idxC
      false (-1) (List.finRange 2)
      (0 + Matrix.stdBasisMatrix 1 0 (1 * (-1 : ℝ) ^ 0)) = _
    rw [hfr, add_operator_matrix_go]
    simp only [happ20]
    rw [add_operator_matrix_go]
    simp only [happ21, hd2]
    rw [add_operator_matrix_go]
  rw [build_operator_matrix]
  show build_operator_matrix_go 1 (parity_check 1) idx2detC det2idxC false
    [([(1, true), (0, false)], 1), ([(0, true), (1, false)], -1)] 0 = _
  rw [build_operator_matrix_go]
  simp only [hadd1]
  rw [build_operator_matrix_go]
  simp only [hadd2]
  rw [build_operator_matrix_go]
  congr 1
  ext i j
  fin_cases i <;> fin_cases j <;>
    simp [Mrot, Matrix.stdBasisMatrix] <;> norm_num

/-- Evaluation of the double-excitation generator `G2 0 0 1 1` on the
example space: every string doubly annihilates or doubly creates the same
spin orbital, so every determinant reaches a kill-state and the matrix is
zero. -/
lemma G2_zero_eval :
    build_operator_matrix (G2 0 0 1 1 true) ciC false =
      .ok (0 : Matrix (Fin 2) (Fin 2) ℝ) := by
  have hfr : (List.finRange 2) = [0, 1] := by decide
  have happ10 : apply_string 1 (parity_check 1) [0, 0] [1, 1] (idx2detC 0) =
      none := by decide
  have happ11 : apply_string 1 (parity_check 1) [0, 0] [1, 1] (idx2detC 1) =
      none := by decide
  have happ20 : apply_string 1 (parity_check 1) [1, 1] [0, 0] (idx2detC 0) =
      none := by decide
  have happ21 : apply_string 1 (parity_check 1) [1, 1] [0, 0] (idx2detC 1) =
      none := by decide
  have hadd1 : add_operator_matrix (0 : Matrix (Fin 2) (Fin 2) ℝ)
      (anni_of [(1, true), (1, true), (0, false), (0, false)])
      (create_of [(1, true), (1, true), (0, false), (0, false)]) 1
      (parity_check 1) idx2detC det2idxC false 1 = .ok 0 := by
    rw [add_operator_matrix]
    show add_operator_matrix_go [0, 0] [1, 1] 1 (parity_check 1) idx2detC
      det2idxC false 1 (List.finRange 2) 0 = _
    rw [hfr, add_operator_matrix_go]
    simp only [happ10]
    rw [add_operator_matrix_go]
    simp only [happ11]
    rw [add_operator_matrix_go]
  have hadd2 : add_operator_matrix (0 : Matrix (Fin 2) (Fin 2) ℝ)
      (anni_of [(0, true), (0, true), (1, false), (1, false)])
      (create_of [(0, true), (0, true), (1, false), (1, false)]) 1
      (parity_check 1) idx2detC det2idxC false (-1) = .ok 0 := by
    rw [add_operator_matrix]
    show add_operator_matrix_go [1, 1] [0, 0] 1 (parity_check 1) idx2detC
      det2idxC false (-1) (List.finRange 2) 0 = _
    rw [hfr, add_operator_matrix_go]
    simp only [happ20]
    rw [add_operator_matrix_go]
    simp only [happ21]
    rw [add_operator_matrix_go]
  rw [build_operator_matrix]
  show build_operator_matrix_go 1 (parity_check 1) idx2detC det2idxC false
    [([(1, true), (1, true), (0, false), (0, false)], 1),
      ([(0, true), (0, true), (1, false), (1, false)], -1)] 0 = _
  rw [build_operator_matrix_go]
  simp only [hadd1]
  rw [build_operator_matrix_go]
  simp only [hadd2]
  rw [build_operator_matrix_go]

/-- The materialised matrix of the alpha generator `G1 0 2` of an
"sa_single" step with spatial orbitals `(0, 1)` on the example space. -/
noncomputable def MsaA : Matrix (Fin 2) (Fin 2) ℝ :=
  0 + Matrix.stdBasisMatrix 1 0 (1 * (-1 : ℝ) ^ 1) +
    Matrix.stdBasisMatrix 0 1 (-1 * (-1 : ℝ) ^ 0)

/-- The materialised matrix of the beta generator `G1 1 3` of an
"sa_single" step with spatial orbitals `(0, 1)` on the example space. -/
noncomputable def MsaB : Matrix (Fin 2) (Fin 2) ℝ :=
  0 + Matrix.stdBasisMatrix 1 1 (1 * (-1 : ℝ) ^ 1) +
    Matrix.stdBasisMatrix 1 1 (-1 * (-1 : ℝ) ^ 0)

/-- Evaluation of the alpha generator `G1 0 2` of an "sa_single" step with
spatial orbitals `(0, 1)` on the example space. -/
lemma MsaA_eval :
    build_operator_matrix (G1 0 2 true) ciC false = .ok MsaA := by
  have hfr : (List.finRange 2) = [0, 1] := by decide
  have happ10 : apply_string 1 (parity_check 1) [0] [2] (idx2detC 0) =
      some (1, 1) := by decide
  have happ11 : apply_string 1 (parity_check 1) [0] [2] (idx2detC 1) =
      none := by decide
  have hd1 : det2idxC 1 = some 1 := by decide
  have happ20 : apply_string 1 (parity_check 1) [2] [0] (idx2detC 0) =
      none := by decide
  have happ21 : apply_string 1 (parity_check 1) [2] [0] (idx2detC 1) =
      some (2, 0) := by decide
  have hd2 : det2idxC 2 = some 0 := by decide
  have hadd1 : add_operator_matrix (0 : Matrix (Fin 2) (Fin 2) ℝ)
      (anni_of [(2, true), (0, false)]) (create_of [(2, true), (0, false)]) 1
      (parity_check 1) idx2detC det2idxC false 1 =
      .ok (0 + Matrix.stdBasisMatrix 1 0 (1 * (-1 : ℝ) ^ 1)) := by
    rw [add_operator_matrix]
    show add_operator_matrix_go [0] [2] 1 (parity_check 1) idx2detC det2idxC
      false 1 (List.finRange 2) 0 = _
    rw [hfr, add_operator_matrix_go]
    simp only [happ10, hd1]
    rw [add_operator_matrix_go]
    simp only [happ11]
    rw [add_operator_matrix_go]
  have hadd2 : add_operator_matrix
      (0 + Matrix.stdBasisMatrix 1 0 (1 * (-1 : ℝ) ^ 1))
      (anni_of [(0, true), (2, false)]) (create_of [(0, true), (2, false)]) 1
      (parity_check 1) idx2detC det2idxC false (-1) =
      .ok (0 + Matrix.stdBasisMatrix 1 0 (1 * (-1 : ℝ) ^ 1) +
        Matrix.stdBasisMatrix 0 1 (-1 * (-1 : ℝ) ^ 0)) := by
    rw [add_operator_matrix]
    show add_operator_matrix_go [2] [0] 1 (parity_check 1) idx2detC det2idxC
      false (-1) (List.finRange 2)
      (0 + Matrix.stdBasisMatrix 1 0 (1 * (-1 : ℝ) ^ 1)) = _
    rw [hfr, add_operator_matrix_go]
    simp only [happ20]
    rw [add_operator_matrix_go]
    simp only [happ21, hd2]
    rw [add_operator_matrix_go]
  rw [build_operator_matrix]
  show build_operator_matrix_go 1 (parity_check 1) idx2detC det2idxC false
    [([(2, true), (0, false)], 1), ([(0, true), (2, false)], -1)] 0 = _
  rw [build_operator_matrix_go]
  simp only [hadd1]
  rw [build_operator_matrix_go]
  simp only [hadd2]
  rw [build_operator_matrix_go]
  rfl

/-- Evaluation of the beta generator `G1 1 3` of an "sa_single" step with
spatial orbitals `(0, 1)` on the example space. -/
lemma MsaB_eval :
    build_operator_matrix (G1 1 3 true) ciC false = .ok MsaB := by
  have hfr : (List.finRange 2) = [0, 1] := by decide
  have happ10 : apply_string 1 (parity_check 1) [1] [3] (idx2detC 0) =
      none := by decide
  have happ11 : apply_string 1 (parity_check 1) [1] [3] (idx2detC 1) =
      some (1, 1) := by decide
  have hd1 : det2idxC 1 = some 1 := by decide
  have happ20 : apply_string 1 (parity_check 1) [3] [1] (idx2detC 0) =
      none := by decide
  have happ21 : apply_string 1 (parity_check 1) [3] [1] (idx2detC 1) =
      some (1, 0) := by decide
  have hadd1 : add_operator_matrix (0 : Matrix (Fin 2) (Fin 2) ℝ)
      (anni_of [(3, true), (1, false)]) (create_of [(3, true), (1, false)]) 1
      (parity_check 1) idx2detC det2idxC false 1 =
      .ok (0 + Matrix.stdBasisMatrix 1 1 (1 * (-1 : ℝ) ^ 1)) := by
    rw [add_operator_matrix]
    show add_operator_matrix_go [1] [3] 1 (parity_check 1) idx2detC det2idxC
      false 1 (List.finRange 2) 0 = _
    rw [hfr, add_operator_matrix_go]
    simp only [happ10]
    rw [add_operator_matrix_go]
    simp only [happ11, hd1]
    rw [add_operator_matrix_go]
  have hadd2 : add_operator_matrix
      (0 + Matrix.stdBasisMatrix 1 1 (1 * (-1 : ℝ) ^ 1))
      (anni_of [(1, true), (3, false)]) (create_of [(1, true), (3, false)]) 1
      (parity_check 1) idx2detC det2idxC false (-1) =
      .ok (0 + Matrix.stdBasisMatrix 1 1 (1 * (-1 : ℝ) ^ 1) +
        Matrix.stdBasisMatrix 1 1 (-1 * (-1 : ℝ) ^ 0)) := by
    rw [add_operator_matrix]
    show add_operator_matrix_go [3] [1] 1 (parity_check 1) idx2detC det2idxC
      false (-1) (List.finRange 2)
      (0 + Matrix.stdBasisMatrix 1 1 (1 * (-1 : ℝ) ^ 1)) = _
    rw [hfr, add_operator_matrix_go]
    simp only [happ20]
    rw [add_operator_matrix_go]
    simp only [happ21, hd1]
    rw [add_operator_matrix_go]
  rw [build_operator_matrix]
  show build_operator_matrix_go 1 (parity_check 1) idx2detC det2idxC false
    [([(3, true), (1, false)], 1), ([(1, true), (3, false)], -1)] 0 = _
  rw [build_operator_matrix_go]
  simp only [hadd1]
  rw [build_operator_matrix_go]
  simp only [hadd2]
  rw [build_operator_matrix_go]
  rfl

/-- Amplitude `π/2` survives the parameter screening. -/
lemma pi_half_unscreened : ¬(|Real.pi / 2| < screening_threshold ℝ) := by
  rw [abs_of_pos (by positivity), screening_threshold]
  intro hlt
  have h3 := Real.pi_gt_three
  have h4 : (1 : ℝ) / 10 ^ 14 < 3 / 2 := by norm_num
  linarith

/-- First string of `G1 0 1` (`a†_1 a_0`) on the example space for a state
whose first amplitude survives screening and whose second is screened:
determinant `0b10` hops to `0b01` with phase `+1`. -/
lemma str1C_live0 (u t : Fin 2 → ℝ)
    (h0 : ¬(|u 0| < screening_threshold ℝ))
    (h1 : |u 1| < screening_threshold ℝ) :
    apply_operator u (anni_of [(1, true), (0, false)])
      (create_of [(1, true), (0, false)]) 1 (parity_check 1) idx2detC det2idxC
      false t 1 =
      .ok (t + (Pi.single 1 (1 * (-1 : ℝ) ^ 0 * u 0) : Fin 2 → ℝ)) := by
  have hfr : (List.finRange 2) = [0, 1] := by decide
  have happ0 : apply_string 1 (parity_check 1) [0] [1] (idx2detC 0) =
      some (1, 0) := by decide
  have hd : det2idxC 1 = some 1 := by decide
  rw [apply_operator]
  show apply_operator_go u [0] [1] 1 (parity_check 1) idx2detC det2idxC false
    1 (List.finRange 2) t = _
  rw [hfr, apply_operator_go, if_neg h0]
  simp only [happ0, hd]
  rw [apply_operator_go, if_pos h1]
  rw [apply_operator_go]

/-- First string of `G1 0 1` on the example space for a state whose first
amplitude is screened: determinant `0b01` is annihilated to a kill-state,
nothing is accumulated. -/
lemma str1C_live1 (u t : Fin 2 → ℝ)
    (h0 : |u 0| < screening_threshold ℝ)
    (h1 : ¬(|u 1| < screening_threshold ℝ)) :
    apply_operator u (anni_of [(1, true), (0, false)])
      (create_of [(1, true), (0, false)]) 1 (parity_check 1) idx2detC det2idxC
      false t 1 = .ok t := by
  have hfr : (List.finRange 2) = [0, 1] := by decide
  have happ1 : apply_string 1 (parity_check 1) [0] [1] (idx2detC 1) =
      none := by decide
  rw [apply_operator]
  show apply_operator_go u [0] [1] 1 (parity_check 1) idx2detC det2idxC false
    1 (List.finRange 2) t = _
  rw [hfr, apply_operator_go, if_pos h0]
  rw [apply_operator_go, if_neg h1]
  simp only [happ1]
  rw [apply_operator_go]

/-- Second string of `G1 0 1` (`−a†_0 a_1`) on the example space when only
the first amplitude survives: determinant `0b10` reaches a kill-state. -/
lemma str2C_live0 (u t : Fin 2 → ℝ)
    (h0 : ¬(|u 0| < screening_threshold ℝ))
    (h1 : |u 1| < screening_threshold ℝ) :
    apply_operator u (anni_of [(0, true), (1, false)])
      (create_of [(0, true), (1, false)]) 1 (parity_check 1) idx2detC det2idxC
      false t (-1) = .ok t := by
  have hfr : (List.finRange 2) = [0, 1] := by decide
  have happ0 : apply_string 1 (parity_check 1) [1] [0] (idx2detC 0) =
      none := by decide
  rw [apply_operator]
  show apply_operator_go u [1] [0] 1 (parity_check 1) idx2detC det2idxC false
    (-1) (List.finRange 2) t = _
  rw [hfr, apply_operator_go, if_neg h0]
  simp only [happ0]
  rw [apply_operator_go, if_pos h1]
  rw [apply_operator_go]

/-- Second string of `G1 0 1` on the example space when only the second
amplitude survives: determinant `0b01` hops back to `0b10` with the string
coefficient `−1` and phase `+1`. -/
lemma str2C_live1 (u t : Fin 2 → ℝ)
    (h0 : |u 0| < screening_threshold ℝ)
    (h1 : ¬(|u 1| < screening_threshold ℝ)) :
    apply_operator u (anni_of [(0, true), (1, false)])
      (create_of [(0, true), (1, false)]) 1 (parity_check 1) idx2detC det2idxC
      false t (-1) =
      .ok (t + (Pi.single 0 (-1 * (-1 : ℝ) ^ 0 * u 1) : Fin 2 → ℝ)) := by
  have hfr : (List.finRange 2) = [0, 1] := by decide
  have happ1 : apply_string 1 (parity_check 1) [1] [0] (idx2detC 1) =
      some (2, 0) := by decide
  have hd : det2idxC 2 = some 0 := by decide
  rw [apply_operator]
  show apply_operator_go u [1] [0] 1 (parity_check 1) idx2detC det2idxC false
    (-1) (List.finRange 2) t = _
  rw [hfr, apply_operator_go, if_pos h0]
  rw [apply_operator_go, if_neg h1]
  simp only [happ1, hd]
  rw [apply_operator_go]

/-- One application of `G1 0 1` through the screened `apply_operator` loop
when only the first amplitude survives screening. -/
lemma applyTC_live0 (u : Fin 2 → ℝ)
    (h0 : ¬(|u 0| < screening_threshold ℝ))
    (h1 : |u 1| < screening_threshold ℝ) :
    apply_fermionic (G1 0 1 true) u ciC false false =
      .ok (0 + (Pi.single 1 (1 * (-1 : ℝ) ^ 0 * u 0) : Fin 2 → ℝ)) := by
  rw [apply_fermionic]
  show apply_fermionic_go u 1 (parity_check 1) idx2detC det2idxC false
    [([(1, true), (0, false)], 1), ([(0, true), (1, false)], -1)] 0 = _
  rw [apply_fermionic_go]
  simp only [str1C_live0 u 0 h0 h1]
  rw [apply_fermionic_go]
  simp only [str2C_live0 u (0 + (Pi.single 1 (1 * (-1 : ℝ) ^ 0 * u 0) : Fin 2 → ℝ)) h0 h1]
  rw [apply_fermionic_go]

/-- One application of `G1 0 1` through the screened `apply_operator` loop
when only the second amplitude survives screening. -/
lemma applyTC_live1 (u : Fin 2 → ℝ)
    (h0 : |u 0| < screening_threshold ℝ)
    (h1 : ¬(|u 1| < screening_threshold ℝ)) :
    apply_fermionic (G1 0 1 true) u ciC false false =
      .ok (0 + (Pi.single 0 (-1 * (-1 : ℝ) ^ 0 * u 1) : Fin 2 → ℝ)) := by
  rw [apply_fermionic]
  show apply_fermionic_go u 1 (parity_check 1) idx2detC det2idxC false
    [([(1, true), (0, false)], 1), ([(0, true), (1, false)], -1)] 0 = _
  rw [apply_fermionic_go]
  simp only [str1C_live1 u 0 h0 h1]
  rw [apply_fermionic_go]
  simp only [str2C_live1 u 0 h0 h1]
  rw [apply_fermionic_go]

/-- Screened application of `G1 0 1` to the example state `(1, 10**-20)`:
the sub-threshold amplitude is skipped and the result is `(0, 1)`. -/
lemma applyTC_sC :
    apply_fermionic (G1 0 1 true) sC ciC false false = .ok ![0, 1] := by
  have h0 : ¬(|sC 0| < screening_threshold ℝ) := by
    show ¬(|(1 : ℝ)| < screening_threshold ℝ)
    rw [abs_one, screening_threshold]
    norm_num
  have h1 : |sC 1| < screening_threshold ℝ := by
    show |(1 / 10 ^ 20 : ℝ)| < screening_threshold ℝ
    rw [abs_of_pos (by norm_num), screening_threshold]
    norm_num
  rw [applyTC_live0 sC h0 h1]
  congr 1
  funext i
  fin_cases i <;> simp [sC, Pi.single_apply]

/-- Screened application of `G1 0 1` to `(0, 1)`: gives `(−1, 0)`. -/
lemma applyTC_01 :
    apply_fermionic (G1 0 1 true) (![0, 1] : Fin 2 → ℝ) ciC false false =
      .ok (![-1, 0] : Fin 2 → ℝ) := by
  have h0 : |(![0, 1] : Fin 2 → ℝ) 0| < screening_threshold ℝ := by
    show |(0 : ℝ)| < screening_threshold ℝ
    rw [abs_zero, screening_threshold]
    norm_num
  have h1 : ¬(|(![0, 1] : Fin 2 → ℝ) 1| < screening_threshold ℝ) := by
    show ¬(|(1 : ℝ)| < screening_threshold ℝ)
    rw [abs_one, screening_threshold]
    norm_num
  rw [applyTC_live1 (![0, 1] : Fin 2 → ℝ) h0 h1]
  congr 1
  funext i
  fin_cases i <;> simp [Pi.single_apply]

/-- Screened application of `G1 0 1` to `(0, 1 + 10**-20)`: gives
`(−(1 + 10**-20), 0)`. -/
lemma applyTC_0e :
    apply_fermionic (G1 0 1 true) (![0, 1 + 1 / 10 ^ 20] : Fin 2 → ℝ) ciC
      false false = .ok (![-(1 + 1 / 10 ^ 20), 0] : Fin 2 → ℝ) := by
  have h0 : |(![0, 1 + 1 / 10 ^ 20] : Fin 2 → ℝ) 0| <
      screening_threshold ℝ := by
    show |(0 : ℝ)| < screening_threshold ℝ
    rw [abs_zero, screening_threshold]
    norm_num
  have h1 : ¬(|(![0, 1 + 1 / 10 ^ 20] : Fin 2 → ℝ) 1| <
      screening_threshold ℝ) := by
    show ¬(|(1 + 1 / 10 ^ 20 : ℝ)| < screening_threshold ℝ)
    rw [abs_of_pos (by norm_num), screening_threshold]
    norm_num
  rw [applyTC_live1 (![0, 1 + 1 / 10 ^ 20] : Fin 2 → ℝ) h0 h1]
  congr 1
  funext i
  fin_cases i <;> simp [Pi.single_apply] <;> ring

/-- Screened application of `G1 0 1` to `(−(1 + 10**-20), 0)`: gives
`(0, −(1 + 10**-20))`. -/
lemma applyTC_ne :
    apply_fermionic (G1 0 1 true) (![-(1 + 1 / 10 ^ 20), 0] : Fin 2 → ℝ) ciC
      false false = .ok (![0, -(1 + 1 / 10 ^ 20)] : Fin 2 → ℝ) := by
  have h0 : ¬(|(![-(1 + 1 / 10 ^ 20), 0] : Fin 2 → ℝ) 0| <
      screening_threshold ℝ) := by
    show ¬(|(-(1 + 1 / 10 ^ 20) : ℝ)| < screening_threshold ℝ)
    rw [abs_neg, abs_of_pos (by norm_num), screening_threshold]
    norm_num
  have h1 : |(![-(1 + 1 / 10 ^ 20), 0] : Fin 2 → ℝ) 1| <
      screening_threshold ℝ := by
    show |(0 : ℝ)| < screening_threshold ℝ
    rw [abs_zero, screening_threshold]
    norm_num
  rw [applyTC_live0 (![-(1 + 1 / 10 ^ 20), 0] : Fin 2 → ℝ) h0 h1]
  congr 1
  funext i
  fin_cases i <;> simp [Pi.single_apply]

/-- Folding of a one-operator list through `propagate_state_fermi`. -/
lemma propC_one (u w : Fin 2 → ℝ)
    (h : apply_fermionic (G1 0 1 true) u ciC false false = .ok w) :
    propagate_state_fermi [G1 0 1 true] u ciC false false = .ok w := by
  rw [propagate_state_fermi]
  simp only [List.reverse_cons, List.reverse_nil, List.nil_append,
    List.foldlM_cons]
  rw [h]
  rfl

/-- Folding of a two-operator list through `propagate_state_fermi`. -/
lemma propC_two (u w1 w2 : Fin 2 → ℝ)
    (h1 : apply_fermionic (G1 0 1 true) u ciC false false = .ok w1)
    (h2 : apply_fermionic (G1 0 1 true) w1 ciC false false = .ok w2) :
    propagate_state_fermi [G1 0 1 true, G1 0 1 true] u ciC false false =
      .ok w2 := by
  rw [propagate_state_fermi]
  simp only [List.reverse_cons, List.reverse_nil, List.nil_append,
    List.cons_append, List.foldlM_cons]
  rw [h1]
  show List.foldlM (fun s op => apply_fermionic op s ciC false false) w1
    [G1 0 1 true] = Except.ok w2
  rw [List.foldlM_cons, h2]
  rfl

/-- Forward screened step at `θ = π/2` on `(1, 10**-20)`: the screened
loops give `(0, 1)` and `(−1, 0)`, so the step returns
`(0, 1 + 10**-20)`. -/
lemma stepC_fwd :
    ups_analytic_step ciC "single" [0, 1] (Real.pi / 2) sC =
      .ok ![0, 1 + 1 / 10 ^ 20] := by
  unfold ups_analytic_step
  rw [if_neg (by decide : ¬("single" : String) = "sa_single"),
    if_pos (Or.inl rfl : ("single" : String) = "single" ∨
      ("single" : String) = "double"),
    if_pos (rfl : ("single" : String) = "single"),
    if_pos (by decide : ([0, 1] : List ℕ).length = 2)]
  simp only [show ([0, 1] : List ℕ).getD 0 0 = 0 from rfl,
    show ([0, 1] : List ℕ).getD 1 0 = 1 from rfl,
    show ciC.space_extension_offset = 0 from rfl, Nat.mul_zero, Nat.add_zero]
  simp only [propC_one sC ![0, 1] applyTC_sC,
    propC_two sC ![0, 1] ![-1, 0] applyTC_sC applyTC_01]
  rw [Real.sin_pi_div_two, Real.cos_pi_div_two]
  congr 1
  funext i
  fin_cases i <;> simp [sC] <;> ring

/-- Adjoint screened step at parameter `−π/2` on `(0, 1 + 10**-20)`:
returns `(1 + 10**-20, 0)`. -/
lemma stepC_bwd :
    ups_analytic_step ciC "single" [0, 1] (-(Real.pi / 2))
      ![0, 1 + 1 / 10 ^ 20] = .ok ![1 + 1 / 10 ^ 20, 0] := by
  unfold ups_analytic_step
  rw [if_neg (by decide : ¬("single" : String) = "sa_single"),
    if_pos (Or.inl rfl : ("single" : String) = "single" ∨
      ("single" : String) = "double"),
    if_pos (rfl : ("single" : String) = "single"),
    if_pos (by decide : ([0, 1] : List ℕ).length = 2)]
  simp only [show ([0, 1] : List ℕ).getD 0 0 = 0 from rfl,
    show ([0, 1] : List ℕ).getD 1 0 = 1 from rfl,
    show ciC.space_extension_offset = 0 from rfl, Nat.mul_zero, Nat.add_zero]
  simp only [propC_one ![0, 1 + 1 / 10 ^ 20] ![-(1 + 1 / 10 ^ 20), 0]
    applyTC_0e,
    propC_two ![0, 1 + 1 / 10 ^ 20] ![-(1 + 1 / 10 ^ 20), 0]
    ![0, -(1 + 1 / 10 ^ 20)] applyTC_0e applyTC_ne]
  rw [Real.sin_neg, Real.cos_neg, Real.sin_pi_div_two, Real.cos_pi_div_two]
  congr 1
  funext i
  fin_cases i <;> simp <;> ring

/-- Screened forward UPS application on the example: `U(π/2)` maps
`(1, 10**-20)` to `(0, 1 + 10**-20)`. -/
lemma constructU_eval :
    construct_ups_state sC ciC [Real.pi / 2] upsC false =
      .ok ![0, 1 + 1 / 10 ^ 20] := by
  rw [construct_ups_state]
  have hsl : ups_step_list upsC [Real.pi / 2] false =
      [("single", [0, 1], Real.pi / 2)] := by
    rw [ups_step_list, if_neg Bool.false_ne_true]
    rfl
  rw [hsl, construct_ups_state_go, if_neg pi_half_unscreened,
    if_neg Bool.false_ne_true]
  simp only [stepC_fwd]
  rw [construct_ups_state_go]

/-- Screened adjoint UPS application on the example: `Ud(π/2)` maps
`(0, 1 + 10**-20)` to `(1 + 10**-20, 0)` — NOT back to `(1, 10**-20)`. -/
lemma constructUd_eval :
    construct_ups_state ![0, 1 + 1 / 10 ^ 20] ciC [Real.pi / 2] upsC true =
      .ok ![1 + 1 / 10 ^ 20, 0] := by
  rw [construct_ups_state]
  have hsl : ups_step_list upsC [Real.pi / 2] true =
      [("single", [0, 1], Real.pi / 2)] := by
    rw [ups_step_list, if_pos rfl]
    rfl
  rw [hsl, construct_ups_state_go, if_neg pi_half_unscreened, if_pos rfl]
  simp only [stepC_bwd]
  rw [construct_ups_state_go]

/-- C3 is refuted on the example space: with `T = G1 0 1` materialised as
the rotation generator and `|θ| = π/2 ≥ 10**-14`, `construct_ups_state`
returns `(0, 1 + 10**-20)` while the claimed closed form
`ψ + sin(θ)·T̂ψ + (1−cos(θ))·T̂²ψ` evaluates to `(−10**-20, 1)` — the
screened `apply_operator` loop drops the sub-threshold amplitude before the
generator acts on it. -/
theorem ups_single_step_closed_form_counterexample :
    build_operator_matrix (G1 0 1 true) ciC false = .ok Mrot ∧
    construct_ups_state sC ciC [Real.pi / 2] upsC false =
      .ok ![0, 1 + 1 / 10 ^ 20] ∧
    (![0, 1 + 1 / 10 ^ 20] : Fin 2 → ℝ) ≠
      sC + Real.sin (Real.pi / 2) • (Mrot *ᵥ sC) +
        (1 - Real.cos (Real.pi / 2)) • (Mrot *ᵥ (Mrot *ᵥ sC)) := by
  refine ⟨Mrot_eval, constructU_eval, ?_⟩
  have hv1 : Mrot *ᵥ sC = ![-(1 / 10 ^ 20), 1] := by
    funext i
    fin_cases i <;>
      norm_num [Mrot, sC, Matrix.mulVec, Matrix.dotProduct, Fin.sum_univ_two]
  have hv2 : Mrot *ᵥ (![-(1 / 10 ^ 20), 1] : Fin 2 → ℝ) =
      ![-1, -(1 / 10 ^ 20)] := by
    funext i
    fin_cases i <;>
      norm_num [Mrot, Matrix.mulVec, Matrix.dotProduct, Fin.sum_univ_two]
  intro heq
  rw [Real.sin_pi_div_two, Real.cos_pi_div_two, hv1, hv2] at heq
  have h0 := congrFun heq 0
  simp [sC] at h0

/-- C4 is refuted on the example space: the screened UPS roundtrip
`Ud(U(ψ))` returns `(1 + 10**-20, 0)` for `ψ = (1, 10**-20)` with the
nonzero parameter vector `[π/2]`, which differs from `ψ` in both
components. -/
theorem ansatz_roundtrip_counterexample :
    propagate_state [PropOp.str "U"] sC ciC [Real.pi / 2]
        (WfStruct.ups upsC) false false = .ok ![0, 1 + 1 / 10 ^ 20] ∧
    propagate_state [PropOp.str "Ud"] ![0, 1 + 1 / 10 ^ 20] ciC
        [Real.pi / 2] (WfStruct.ups upsC) false false =
      .ok ![1 + 1 / 10 ^ 20, 0] ∧
    (![1 + 1 / 10 ^ 20, 0] : Fin 2 → ℝ) ≠ sC := by
  refine ⟨?_, ?_, ?_⟩
  · rw [propagate_state]
    simp only [List.reverse_cons, List.reverse_nil, List.nil_append]
    rw [propagate_state_go]
    rw [if_pos (Or.inl rfl : ("U" : String) = "U" ∨ ("U" : String) = "Ud")]
    rw [show (decide (("U" : String) = "Ud")) = false from by decide]
    simp only [constructU_eval]
    rw [propagate_state_go]
  · rw [propagate_state]
    simp only [List.reverse_cons, List.reverse_nil, List.nil_append]
    rw [propagate_state_go]
    rw [if_pos (Or.inr rfl : ("Ud" : String) = "U" ∨ ("Ud" : String) = "Ud")]
    rw [show (decide (("Ud" : String) = "Ud")) = true from by decide]
    simp only [constructUd_eval]
    rw [propagate_state_go]
  · intro heq
    have h0 := congrFun heq 0
    simp [sC] at h0

/-- Parameter `0` is below the screening threshold. -/
lemma zero_theta_screened : |(0 : ℝ)| < screening_threshold ℝ := by
  rw [abs_zero, screening_threshold]
  norm_num

/-- A constant unit state on the example space, used by the witnesses. -/
def stateWit : Fin 2 → ℝ := fun _ => 1

/-- The rotation generator cubes to its own negation. -/
lemma Mrot_cube : Mrot * Mrot * Mrot = -Mrot := by
  ext i j
  fin_cases i <;> fin_cases j <;>
    norm_num [Mrot, Matrix.mul_apply, Fin.sum_univ_two]

/-- Witness instantiation of C3's amended statement on the example space:
all four generator matrices exist concretely, the `θ = 0` step is skipped by
both code paths, and the exact closed forms hold at `θ = 1`. -/
theorem ups_step_closed_form_witness :
    |(0 : ℝ)| < screening_threshold ℝ ∧
    upsC.excitation_operator_type.get? 0 = some "single" ∧
    upsC.excitation_indices.get? 0 = some [0, 1] ∧
    [(0 : ℝ)].get? 0 = some 0 ∧
    build_operator_matrix (G1 0 1 true) ciC false = .ok Mrot ∧
    build_operator_matrix (G2 0 0 1 1 true) ciC false =
      .ok (0 : Matrix (Fin 2) (Fin 2) ℝ) ∧
    build_operator_matrix (G1 0 2 true) ciC false = .ok MsaA ∧
    build_operator_matrix (G1 1 3 true) ciC false = .ok MsaB ∧
    (construct_ups_state_go ciC false [("single", [0, 1], 0)] stateWit =
        construct_ups_state_go ciC false [] stateWit ∧
      propagate_unitary stateWit 0 ciC [0] upsC = .ok stateWit ∧
      ups_analytic_step_exact ciC "single" [0, 1] 1 stateWit =
        .ok (stateWit + Real.sin 1 • (Mrot *ᵥ stateWit) +
          (1 - Real.cos 1) • (Mrot *ᵥ (Mrot *ᵥ stateWit))) ∧
      ups_analytic_step_exact ciC "double" [0, 0, 1, 1] 1 stateWit =
        .ok (stateWit +
          Real.sin 1 • ((0 : Matrix (Fin 2) (Fin 2) ℝ) *ᵥ stateWit) +
          (1 - Real.cos 1) • ((0 : Matrix (Fin 2) (Fin 2) ℝ) *ᵥ
            ((0 : Matrix (Fin 2) (Fin 2) ℝ) *ᵥ stateWit))) ∧
      ups_analytic_step_exact ciC "sa_single" [0, 1] 1 stateWit =
        .ok ((stateWit + Real.sin 1 • (MsaA *ᵥ stateWit) +
            (1 - Real.cos 1) • (MsaA *ᵥ (MsaA *ᵥ stateWit))) +
          Real.sin 1 • (MsaB *ᵥ (stateWit + Real.sin 1 • (MsaA *ᵥ stateWit) +
            (1 - Real.cos 1) • (MsaA *ᵥ (MsaA *ᵥ stateWit)))) +
          (1 - Real.cos 1) • (MsaB *ᵥ (MsaB *ᵥ
            (stateWit + Real.sin 1 • (MsaA *ᵥ stateWit) +
              (1 - Real.cos 1) • (MsaA *ᵥ (MsaA *ᵥ stateWit))))))) :=
  ⟨zero_theta_screened, rfl, rfl, rfl, Mrot_eval, G2_zero_eval, MsaA_eval,
    MsaB_eval,
    ups_step_closed_form ciC false stateWit stateWit [] "single" [0, 1] 0
      upsC [0] 0 1 0 1 0 0 1 1 0 1 Mrot (0 : Matrix (Fin 2) (Fin 2) ℝ) MsaA
      MsaB zero_theta_screened rfl rfl rfl Mrot_eval G2_zero_eval MsaA_eval
      MsaB_eval⟩

/-- The UCC cluster operator built from the one-step schema at `θ = π/2`:
`(π/2)·G1 0 1` as a coefficient-scaled string list. -/
noncomputable def TW : FermionicOperator ℝ :=
  ⟨[([(1, true), (0, false)], Real.pi / 2 * 1),
    ([(0, true), (1, false)], Real.pi / 2 * -1)]⟩

/-- Evaluation of `get_ucc_T` on the one-step schema at `θ = π/2`. -/
lemma getT_eval : get_ucc_T [Real.pi / 2] uccC 0 = .ok TW := by
  rw [get_ucc_T]
  show get_ucc_T_go 0 [("single", [0, 1], Real.pi / 2)] ⟨[]⟩ = _
  rw [get_ucc_T_go, if_neg pi_half_unscreened]
  have hstep : ucc_step_operator 0 "single" [0, 1] (Real.pi / 2) =
      .ok (⟨[([(1, true), (0, false)], Real.pi / 2 * 1),
        ([(0, true), (1, false)], Real.pi / 2 * -1)]⟩ :
          FermionicOperator ℝ) := by
    unfold ucc_step_operator
    rw [if_neg (by decide : ¬("single" : String) = "sa_single"),
      if_neg (by decide : ¬("single" : String) = "sa_double_1"),
      if_neg (by decide : ¬("single" : String) = "sa_double_2"),
      if_pos (rfl : ("single" : String) = "single"),
      if_pos (by decide : ([0, 1] : List ℕ).length = 2)]
    rfl
  simp only [hstep]
  rw [get_ucc_T_go]
  rfl

/-- The materialised matrix of the `θ = π/2` UCC cluster operator over the
example space. -/
noncomputable def MT : Matrix (Fin 2) (Fin 2) ℝ :=
  0 + Matrix.stdBasisMatrix 1 0 (Real.pi / 2 * 1 * (-1 : ℝ) ^ 0) +
    Matrix.stdBasisMatrix 0 1 (Real.pi / 2 * -1 * (-1 : ℝ) ^ 0)

/-- Evaluation of the UCC cluster-operator matrix on the example space. -/
lemma TW_matrix_eval : build_operator_matrix TW ciC false = .ok MT := by
  have hfr : (List.finRange 2) = [0, 1] := by decide
  have happ10 : apply_string 1 (parity_check 1) [0] [1] (idx2detC 0) =
      some (1, 0) := by decide
  have happ11 : apply_string 1 (parity_check 1) [0] [1] (idx2detC 1) =
      none := by decide
  have hd1 : det2idxC 1 = some 1 := by decide
  have happ20 : apply_string 1 (parity_check 1) [1] [0] (idx2detC 0) =
      none := by decide
  have happ21 : apply_string 1 (parity_check 1) [1] [0] (idx2detC 1) =
      some (2, 0) := by decide
  have hd2 : det2idxC 2 = some 0 := by decide
  have hadd1 : add_operator_matrix (0 : Matrix (Fin 2) (Fin 2) ℝ)
      (anni_of [(1, true), (0, false)]) (create_of [(1, true), (0, false)]) 1
      (parity_check 1) idx2detC det2idxC false (Real.pi / 2 * 1) =
      .ok (0 + Matrix.stdBasisMatrix 1 0
        (Real.pi / 2 * 1 * (-1 : ℝ) ^ 0)) := by
    rw [add_operator_matrix]
    show add_operator_matrix_go [0] [1] 1 (parity_check 1) idx2detC det2idxC
      false (Real.pi / 2 * 1) (List.finRange 2) 0 = _
    rw [hfr, add_operator_matrix_go]
    simp only [happ10, hd1]
    rw [add_operator_matrix_go]
    simp only [happ11]
    rw [add_operator_matrix_go]
  have hadd2 : add_operator_matrix
      (0 + Matrix.stdBasisMatrix 1 0 (Real.pi / 2 * 1 * (-1 : ℝ) ^ 0))
      (anni_of [(0, true), (1, false)]) (create_of [(0, true), (1, false)]) 1
      (parity_check 1) idx2detC det2idxC false (Real.pi / 2 * -1) =
      .ok (0 + Matrix.stdBasisMatrix 1 0 (Real.pi / 2 * 1 * (-1 : ℝ) ^ 0) +
        Matrix.stdBasisMatrix 0 1 (Real.pi / 2 * -1 * (-1 : ℝ) ^ 0)) := by
    rw [add_operator_matrix]
    show add_operator_matrix_go [1] [0] 1 (parity_check 1) idx2detC det2idxC
      false (Real.pi / 2 * -1) (List.finRange 2)
      (0 + Matrix.stdBasisMatrix 1 0 (Real.pi / 2 * 1 * (-1 : ℝ) ^ 0)) = _
    rw [hfr, add_operator_matrix_go]
    simp only [happ20]
    rw [add_operator_matrix_go]
    simp only [happ21, hd2]
    rw [add_operator_matrix_go]
  rw [build_operator_matrix]
  show build_operator_matrix_go 1 (parity_check 1) idx2detC det2idxC false
    [([(1, true), (0, false)], Real.pi / 2 * 1),
      ([(0, true), (1, false)], Real.pi / 2 * -1)] 0 = _
  rw [build_operator_matrix_go]
  simp only [hadd1]
  rw [build_operator_matrix_go]
  simp only [hadd2]
  rw [build_operator_matrix_go]
  rfl

/-- Every step of the one-step example UPS schema at `θ = π/2` is
analytically invertible: its generator is the rotation matrix, which cubes
to its own negation. -/
lemma upsC_steps_invertible :
    ∀ step ∈ ups_step_list upsC [Real.pi / 2] false,
      ups_step_invertible ciC step := by
  intro step hstep
  have hl : ups_step_list upsC [Real.pi / 2] false =
      [("single", [0, 1], Real.pi / 2)] := by
    rw [ups_step_list, if_neg Bool.false_ne_true]
    rfl
  rw [hl, List.mem_singleton] at hstep
  subst hstep
  exact Or.inl ⟨Mrot, Mrot_cube, Or.inl ⟨rfl, rfl, Mrot_eval⟩⟩

/-- Exact forward UPS application on the example at `θ = π/2`: the
threshold-free step maps `(1, 0)` to `(0, 1)`. -/
lemma constructUexact_fwd :
    construct_ups_state_exact (![1, 0] : Fin 2 → ℝ) ciC [Real.pi / 2] upsC
      false = .ok ![0, 1] := by
  rw [construct_ups_state_exact]
  have hsl : ups_step_list upsC [Real.pi / 2] false =
      [("single", [0, 1], Real.pi / 2)] := by
    rw [ups_step_list, if_neg Bool.false_ne_true]
    rfl
  rw [hsl, construct_ups_state_exact_go, if_neg pi_half_unscreened,
    if_neg Bool.false_ne_true]
  have hform : ups_analytic_step_exact ciC "single" [0, 1] (Real.pi / 2)
      (![1, 0] : Fin 2 → ℝ) =
      (match build_operator_matrix (G1 0 1 true) ciC false with
        | .error e => .error e
        | .ok M => .ok ((![1, 0] : Fin 2 → ℝ) +
            Real.sin (Real.pi / 2) • (M *ᵥ ![1, 0]) +
            (1 - Real.cos (Real.pi / 2)) • (M *ᵥ (M *ᵥ ![1, 0])))) := rfl
  rw [hform]
  simp only [Mrot_eval]
  rw [construct_ups_state_exact_go]
  rw [Real.sin_pi_div_two, Real.cos_pi_div_two]
  congr 1
  funext i
  fin_cases i <;>
    norm_num [Mrot, Matrix.mulVec, Matrix.dotProduct, Fin.sum_univ_two,
      Matrix.vecHead, Matrix.vecTail, Function.comp]

/-- Witness instantiation of C4's amended statement on the example space at
the nonzero parameter `π/2`: the UCC operator and its matrix exist, the
single UPS step is invertible, the exact forward map sends `(1, 0)` to
`(0, 1)`, and both roundtrips return the original state. -/
theorem ansatz_adjoint_roundtrip_witness :
    get_ucc_T [Real.pi / 2] uccC 0 = .ok TW ∧
    build_operator_matrix TW ciC false = .ok MT ∧
    upsC.excitation_operator_type.length =
      upsC.excitation_indices.length ∧
    upsC.excitation_indices.length = [Real.pi / 2].length ∧
    (∀ step ∈ ups_step_list upsC [Real.pi / 2] false,
      ups_step_invertible ciC step) ∧
    construct_ups_state_exact (![1, 0] : Fin 2 → ℝ) ciC [Real.pi / 2] upsC
      false = .ok ![0, 1] ∧
    ((∀ w, propagate_state [PropOp.str "U"] (![1, 0] : Fin 2 → ℝ) ciC
        [Real.pi / 2] (WfStruct.ucc uccC) false false = .ok w →
      propagate_state [PropOp.str "Ud"] w ciC [Real.pi / 2]
        (WfStruct.ucc uccC) false false = .ok ![1, 0]) ∧
    construct_ups_state_exact (![0, 1] : Fin 2 → ℝ) ciC [Real.pi / 2] upsC
      true = .ok ![1, 0]) :=
  ⟨getT_eval, TW_matrix_eval, rfl, rfl, upsC_steps_invertible,
    constructUexact_fwd,
    ansatz_adjoint_roundtrip ciC ![1, 0] [Real.pi / 2] false false uccC TW
      MT upsC ![0, 1] getT_eval TW_matrix_eval rfl rfl upsC_steps_invertible
      constructUexact_fwd⟩

end SlowQuant
